import Mathlib

/-!
# The `redundant-var-decl` rule of revive

A shallow embedding of `rule/redundant_var_decl.go`: the Go syntax tree the rule walks
(`go/ast`), the declaration records it keeps on the heap (`varDecl`, shared by pointer
between a scope and its child scopes), the scope mapping (`varTracker.vars`), and the
functions `analyzeFunc`, `analyzeBlock`, `processStatement`, `markUsedInExpr`,
`markUsedInCallExpr` and `checkRedundantInAssignment`.

Pointers to `varDecl` records are addresses into an explicit heap (a list of records, a
new record is allocated at the end).  `token.Pos` is a natural number.
-/

namespace Revive

/-! ## Syntax trees (`go/token`, `go/ast`) -/

/-- The `token.Token` values the rule compares against; every other token is `other`. -/
inductive Token where
  | VAR
  | CONST
  | TYPE
  | IMPORT
  | DEFINE
  | ASSIGN
  | AND
  | other (code : Nat)
deriving DecidableEq, Repr

/-- An `*ast.Ident`: its `Name` and its `NamePos` (which is what `Pos()` returns).  The
type checker keys `types.Info.Defs` on the identifier node; two distinct identifier nodes
of one file differ in their position. -/
structure Ident where
  name : String
  pos : Nat
deriving DecidableEq, Repr

mutual
/-- Expressions and type expressions: `ast.Expr`. -/
inductive Expr where
  | badExpr
  | ident (id : Ident)
  | ellipsis (elt : Option Expr)
  | basicLit (value : String)
  | funcLit (type : Expr) (body : List Stmt)
  | compositeLit (type : Option Expr) (elts : List Expr)
  | parenExpr (x : Expr)
  | selectorExpr (x : Expr) (sel : Ident)
  | indexExpr (x : Expr) (index : Expr)
  | indexListExpr (x : Expr) (indices : List Expr)
  | sliceExpr (x : Expr) (low : Option Expr) (high : Option Expr) (max : Option Expr)
  | typeAssertExpr (x : Expr) (type : Option Expr)
  | callExpr (fn : Expr) (args : List Expr)
  | starExpr (x : Expr)
  | unaryExpr (op : Token) (x : Expr)
  | binaryExpr (x : Expr) (op : Token) (y : Expr)
  | keyValueExpr (key : Expr) (value : Expr)
  | arrayType (len : Option Expr) (elt : Expr)
  | structType (fields : List Field)
  | funcType (typeParams : List Field) (params : List Field) (results : List Field)
  | interfaceType (methods : List Field)
  | mapType (key : Expr) (value : Expr)
  | chanType (value : Expr)
/-- One `*ast.Field` of a field list (a nil field list is the empty list). -/
inductive Field where
  | mk (names : List Ident) (type : Option Expr)
/-- The specs of a general declaration: `ast.Spec`. -/
inductive Spec where
  | importSpec (name : Option Ident) (path : String)
  | valueSpec (names : List Ident) (type : Option Expr) (values : List Expr)
  | typeSpec (name : Ident) (typeParams : List Field) (type : Expr)
/-- The declaration of a declaration statement: `ast.Decl`. -/
inductive Decl where
  | badDecl
  | genDecl (tok : Token) (specs : List Spec)
/-- Statements: `ast.Stmt`.  A `*ast.BlockStmt` field is the list of its statements (a nil
body and an empty body are walked alike: no statement is processed); the other optional
fields are options.  The call of a `go` or `defer` statement is given by its `Fun` and
`Args`. -/
inductive Stmt where
  | badStmt
  | declStmt (decl : Decl)
  | emptyStmt
  | labeledStmt (label : Ident) (stmt : Stmt)
  | exprStmt (x : Expr)
  | sendStmt (chan : Expr) (value : Expr)
  | incDecStmt (x : Expr) (tok : Token)
  | assignStmt (lhs : List Expr) (tok : Token) (rhs : List Expr)
  | goStmt (fn : Expr) (args : List Expr)
  | deferStmt (fn : Expr) (args : List Expr)
  | returnStmt (results : List Expr)
  | branchStmt (tok : Token) (label : Option Ident)
  | blockStmt (list : List Stmt)
  | ifStmt (init : Option Stmt) (cond : Option Expr) (body : List Stmt) (els : Option Stmt)
  | caseClause (list : List Expr) (body : List Stmt)
  | switchStmt (init : Option Stmt) (tag : Option Expr) (body : List Stmt)
  | typeSwitchStmt (init : Option Stmt) (assign : Option Stmt) (body : List Stmt)
  | commClause (comm : Option Stmt) (body : List Stmt)
  | selectStmt (body : List Stmt)
  | forStmt (init : Option Stmt) (cond : Option Expr) (post : Option Stmt) (body : List Stmt)
  | rangeStmt (key : Option Expr) (value : Option Expr) (tok : Token) (x : Option Expr)
      (body : List Stmt)
end

/-- The nodes on which the callback that `markUsedInExpr` hands to `ast.Inspect` acts:
identifiers and unary expressions.  Every other node falls through its type switch. -/
inductive Node where
  | ident (id : Ident)
  | unaryExpr (op : Token) (x : Expr)

/-! ## `ast.Inspect`

`ast.Inspect` calls the callback on every node of a tree in depth-first order (the callback
of `markUsedInExpr` always returns true).  `inspect` lists, in that order, the identifier
and unary-expression nodes met; the children are visited in the order of `ast.Walk`. -/

mutual
/-- The identifier and unary-expression nodes of an expression, in depth-first order. -/
def Expr.inspect : Expr → List Node
  | .badExpr => []
  | .ident id => [.ident id]
  | .ellipsis elt => inspectExprOpt elt
  | .basicLit _ => []
  | .funcLit type body => type.inspect ++ inspectStmts body
  | .compositeLit type elts => inspectExprOpt type ++ inspectExprs elts
  | .parenExpr x => x.inspect
  | .selectorExpr x sel => x.inspect ++ [.ident sel]
  | .indexExpr x index => x.inspect ++ index.inspect
  | .indexListExpr x indices => x.inspect ++ inspectExprs indices
  | .sliceExpr x low high max =>
      x.inspect ++ inspectExprOpt low ++ inspectExprOpt high ++ inspectExprOpt max
  | .typeAssertExpr x type => x.inspect ++ inspectExprOpt type
  | .callExpr fn args => fn.inspect ++ inspectExprs args
  | .starExpr x => x.inspect
  | .unaryExpr op x => .unaryExpr op x :: x.inspect
  | .binaryExpr x _ y => x.inspect ++ y.inspect
  | .keyValueExpr key value => key.inspect ++ value.inspect
  | .arrayType len elt => inspectExprOpt len ++ elt.inspect
  | .structType fields => inspectFields fields
  | .funcType typeParams params results =>
      inspectFields typeParams ++ inspectFields params ++ inspectFields results
  | .interfaceType methods => inspectFields methods
  | .mapType key value => key.inspect ++ value.inspect
  | .chanType value => value.inspect
/-- The nodes of an optional expression (nothing for nil). -/
def inspectExprOpt : Option Expr → List Node
  | none => []
  | some e => e.inspect
/-- The nodes of a list of expressions. -/
def inspectExprs : List Expr → List Node
  | [] => []
  | e :: es => e.inspect ++ inspectExprs es
/-- The nodes of a field: its names, then its type. -/
def Field.inspect : Field → List Node
  | .mk names type => names.map Node.ident ++ inspectExprOpt type
/-- The nodes of a field list. -/
def inspectFields : List Field → List Node
  | [] => []
  | f :: fs => f.inspect ++ inspectFields fs
/-- The nodes of a spec. -/
def Spec.inspect : Spec → List Node
  | .importSpec name _ => (name.toList).map Node.ident
  | .valueSpec names type values =>
      names.map Node.ident ++ inspectExprOpt type ++ inspectExprs values
  | .typeSpec name typeParams type =>
      .ident name :: (inspectFields typeParams ++ type.inspect)
/-- The nodes of a list of specs. -/
def inspectSpecs : List Spec → List Node
  | [] => []
  | s :: ss => s.inspect ++ inspectSpecs ss
/-- The nodes of a declaration. -/
def Decl.inspect : Decl → List Node
  | .badDecl => []
  | .genDecl _ specs => inspectSpecs specs
/-- The nodes of a statement (met inside a function literal). -/
def Stmt.inspect : Stmt → List Node
  | .badStmt => []
  | .declStmt decl => decl.inspect
  | .emptyStmt => []
  | .labeledStmt label stmt => .ident label :: stmt.inspect
  | .exprStmt x => x.inspect
  | .sendStmt chan value => chan.inspect ++ value.inspect
  | .incDecStmt x _ => x.inspect
  | .assignStmt lhs _ rhs => inspectExprs lhs ++ inspectExprs rhs
  | .goStmt fn args => fn.inspect ++ inspectExprs args
  | .deferStmt fn args => fn.inspect ++ inspectExprs args
  | .returnStmt results => inspectExprs results
  | .branchStmt _ label => (label.toList).map Node.ident
  | .blockStmt list => inspectStmts list
  | .ifStmt init cond body els =>
      inspectStmtOpt init ++ inspectExprOpt cond ++ inspectStmts body ++ inspectStmtOpt els
  | .caseClause list body => inspectExprs list ++ inspectStmts body
  | .switchStmt init tag body =>
      inspectStmtOpt init ++ inspectExprOpt tag ++ inspectStmts body
  | .typeSwitchStmt init assign body =>
      inspectStmtOpt init ++ inspectStmtOpt assign ++ inspectStmts body
  | .commClause comm body => inspectStmtOpt comm ++ inspectStmts body
  | .selectStmt body => inspectStmts body
  | .forStmt init cond post body =>
      inspectStmtOpt init ++ inspectExprOpt cond ++ inspectStmtOpt post ++ inspectStmts body
  | .rangeStmt key value _ x body =>
      inspectExprOpt key ++ inspectExprOpt value ++ inspectExprOpt x ++ inspectStmts body
/-- The nodes of an optional statement. -/
def inspectStmtOpt : Option Stmt → List Node
  | none => []
  | some s => s.inspect
/-- The nodes of a list of statements. -/
def inspectStmts : List Stmt → List Node
  | [] => []
  | s :: ss => s.inspect ++ inspectStmts ss
end

/-! ## Declaration records, scopes and failures -/

/-- A declaration record: `varDecl`.  `node` is the synthetic `singleVarSpec` of the
record, given by its `name` identifier (`node.Pos()` is `name.Pos()`); `pos` is the field
`pos`. -/
structure varDecl where
  node : Ident
  pos : Nat
  used : Bool
  redefined : Bool
deriving DecidableEq, Repr

/-- A `lint.Failure`.  `node` is the pointer `decl.node`: every record owns its own
synthetic node, so the node is identified by the address of its record.  `position` is
`Position.Start`, the position of `decl.node.Pos()` (the conversion `file.ToPosition` of a
`token.Pos` to line and column is left to the host). -/
structure Failure where
  confidence : Nat
  node : Nat
  failure : String
  position : Nat
deriving DecidableEq, Repr

/-- The type information of the package, `tracker.typesInfo`: `none` is a nil
`*types.Info`; `some defs` answers for an identifier whether `Defs[ident]` is non-nil, that
is whether this occurrence defines a new object. -/
abbrev TypesInfo := Option (Ident → Bool)

/-- What a call of the walker works on: the scope mapping of the current tracker
(`tracker.vars`, from a name to the address of its record), the heap of records those
addresses point into, and the failure list `*failures`.  (`tracker.file` and
`tracker.typesInfo` are never assigned after `analyzeFunc`; the type information is a
parameter of the walker.) -/
structure State where
  vars : String → Option Nat
  heap : List varDecl
  failures : List Failure

/-- The statement `decl.used = true` for the record at address `r`. -/
def setUsed (r : Nat) (heap : List varDecl) : List varDecl :=
  match heap[r]? with
  | some d => heap.set r { d with used := true }
  | none => heap

/-- The statement `decl.redefined = true` for the record at address `r`. -/
def setRedefined (r : Nat) (heap : List varDecl) : List varDecl :=
  match heap[r]? with
  | some d => heap.set r { d with redefined := true }
  | none => heap

/-- The lookup-and-mark `if decl, exists := tracker.vars[name]; exists { decl.used = true }`. -/
def markName (name : String) (c : State) : State :=
  match c.vars name with
  | some r => { c with heap := setUsed r c.heap }
  | none => c

/-- The callback of `markUsedInExpr` on one node: an identifier marks the record of its
name; a unary expression with operator `&` whose operand is an identifier marks the record
of that name. -/
def visit : Node → State → State
  | .ident id, c => markName id.name c
  | .unaryExpr op x, c =>
      if op = Token.AND then
        match x with
        | .ident id => markName id.name c
        | _ => c
      else c

/-- The function `markUsedInExpr`: every expression of the list is inspected. -/
def markUsedInExpr (exprs : List Expr) (c : State) : State :=
  exprs.foldl (fun c e => e.inspect.foldl (fun c n => visit n c) c) c

/-- The function `markUsedInCallExpr`: the callee, then the arguments. -/
def markUsedInCallExpr (fn : Expr) (args : List Expr) (c : State) : State :=
  markUsedInExpr args (markUsedInExpr [fn] c)

/-- The text of a failure: `fmt.Sprintf` of the format of the rule with the name. -/
def message (name : String) : String :=
  "redundant declaration of '" ++ name ++ "'; it's redeclared via := assignment"

/-- The report step shared by the `:=` case of `processStatement` and by
`checkRedundantInAssignment`: if the name has a record in the scope that is neither used
nor redefined, a failure at the record's node is appended and the record is marked
redefined. -/
def checkRedundant (name : String) (c : State) : State :=
  match c.vars name with
  | some r =>
    match c.heap[r]? with
    | some d =>
      if !d.used && !d.redefined then
        { c with
          heap := setRedefined r c.heap
          failures := c.failures ++
            [{ confidence := 1, node := r, failure := message name, position := d.node.pos }] }
      else c
    | none => c
  | none => c

/-- One expression of the loop of `checkRedundantInAssignment`. -/
def checkRedundantExpr : Option Expr → State → State
  | some (.ident id), c => if id.name ≠ "_" then checkRedundant id.name c else c
  | _, c => c

/-- The function `checkRedundantInAssignment` (its expressions may be nil). -/
def checkRedundantInAssignment (exprs : List (Option Expr)) (c : State) : State :=
  exprs.foldl (fun c e => checkRedundantExpr e c) c

/-- Whether the type information says that the identifier defines a new object:
`tracker.typesInfo != nil` and `tracker.typesInfo.Defs[ident] != nil`. -/
def definesNew (ti : TypesInfo) (id : Ident) : Bool :=
  match ti with
  | some defs => defs id
  | none => false

/-- One left-hand side of a `:=` statement. -/
def checkDefineExpr (ti : TypesInfo) : Expr → State → State
  | .ident id, c =>
      if id.name ≠ "_" then
        if definesNew ti id then c else checkRedundant id.name c
      else c
  | _, c => c

/-- The loop over the left-hand sides of a `:=` statement. -/
def checkDefine (ti : TypesInfo) (lhs : List Expr) (c : State) : State :=
  lhs.foldl (fun c e => checkDefineExpr ti e c) c

/-- One left-hand side of a `=` statement: an identifier marks its record used. -/
def markAssignedExpr : Expr → State → State
  | .ident id, c => markName id.name c
  | _, c => c

/-- The loop over the left-hand sides of a `=` statement. -/
def markAssigned (lhs : List Expr) (c : State) : State :=
  lhs.foldl (fun c e => markAssignedExpr e c) c

/-- One name of a value spec: unless it is the blank identifier, a fresh record is
allocated and the scope maps the name to it. -/
def declareName (name : Ident) (c : State) : State :=
  if name.name = "_" then c
  else
    { c with
      vars := fun n => if n = name.name then some c.heap.length else c.vars n
      heap := c.heap ++ [{ node := name, pos := name.pos, used := false, redefined := false }] }

/-- One spec of a `var` declaration: a value spec with more than one name is skipped. -/
def declareSpec : Spec → State → State
  | .valueSpec names _ _, c =>
      if names.length > 1 then c else names.foldl (fun c n => declareName n c) c
  | _, c => c

/-- The declaration of a declaration statement: only a general declaration with token
`var` is looked at. -/
def declareDecl : Decl → State → State
  | .genDecl tok specs, c =>
      if tok = Token.VAR then specs.foldl (fun c s => declareSpec s c) c else c
  | .badDecl, c => c

/-- The special handling of the assign statement of a type switch: when it is an
assignment with a non-empty right-hand side, that side is marked used. -/
def markTypeSwitchAssign : Option Stmt → State → State
  | some (.assignStmt _ _ rhs), c => if rhs.length > 0 then markUsedInExpr rhs c else c
  | _, c => c

/-- An optional expression marked used (`if s.Cond != nil`). -/
def markUsedInExprOpt : Option Expr → State → State
  | some e, c => markUsedInExpr [e] c
  | none, c => c

/-! ## The walker -/

mutual
/-- The function `processStatement`. -/
def processStatement (ti : TypesInfo) : Stmt → State → State
  | .declStmt decl, c => declareDecl decl c
  | .assignStmt lhs tok rhs, c =>
      if tok = Token.DEFINE then checkDefine ti lhs (markUsedInExpr rhs c)
      else if tok = Token.ASSIGN then markAssigned lhs (markUsedInExpr rhs c)
      else markUsedInExpr rhs c
  | .blockStmt list, c => analyzeBlock ti list c
  | .ifStmt init cond body els, c =>
      processStatementOpt ti els
        (analyzeBlock ti body (markUsedInExprOpt cond (processStatementOpt ti init c)))
  | .forStmt init cond post body, c =>
      analyzeBlock ti body
        (processStatementOpt ti post (markUsedInExprOpt cond (processStatementOpt ti init c)))
  | .rangeStmt key value tok x body, c =>
      analyzeBlock ti body
        (if tok = Token.DEFINE then checkRedundantInAssignment [key, value] (markUsedInExprOpt x c)
         else markUsedInExprOpt x c)
  | .switchStmt init tag body, c =>
      analyzeBlock ti body (markUsedInExprOpt tag (processStatementOpt ti init c))
  | .typeSwitchStmt init assign body, c =>
      analyzeBlock ti body
        (processStatementOpt ti assign
          (markTypeSwitchAssign assign (processStatementOpt ti init c)))
  | .selectStmt body, c => analyzeBlock ti body c
  | .caseClause list body, c => processStatements ti body (markUsedInExpr list c)
  | .exprStmt x, c => markUsedInExpr [x] c
  | .returnStmt results, c => markUsedInExpr results c
  | .deferStmt fn args, c => markUsedInCallExpr fn args c
  | .goStmt fn args, c => markUsedInCallExpr fn args c
  | .sendStmt chan value, c => markUsedInExpr [chan, value] c
  | .incDecStmt x _, c => markUsedInExpr [x] c
  | .labeledStmt _ stmt, c => processStatement ti stmt c
  | .branchStmt _ _, c => c
  | .badStmt, c => c
  | .emptyStmt, c => c
  | .commClause _ _, c => c
/-- An optional statement processed (`if s.Init != nil`). -/
def processStatementOpt (ti : TypesInfo) : Option Stmt → State → State
  | none, c => c
  | some s, c => processStatement ti s c
/-- The statements of a list processed in order with one tracker. -/
def processStatements (ti : TypesInfo) : List Stmt → State → State
  | [], c => c
  | s :: ss, c => processStatements ti ss (processStatement ti s c)
/-- The function `analyzeBlock`: the statements of the block are processed with a new
tracker whose scope mapping is a copy of the parent's; the parent's mapping is what the
caller goes on with.  Records and failures are shared.  (The loop over the statements is
unrolled once; for an empty block nothing changes.) -/
def analyzeBlock (ti : TypesInfo) : List Stmt → State → State
  | [], c => c
  | s :: ss, c => { processStatements ti ss (processStatement ti s c) with vars := c.vars }
end

/-- The function `analyzeFunc`: the body is analysed as a block from an empty scope
mapping, an empty heap of records and no failure. -/
def analyzeFunc (ti : TypesInfo) (body : List Stmt) : List Failure :=
  (analyzeBlock ti body { vars := fun _ => none, heap := [], failures := [] }).failures


/-! ## Queries on syntax trees used to state the properties -/

/-- The name of an identifier node met by the inspection (nothing for a unary expression). -/
def Node.identName : Node → Option String
  | .ident id => some id.name
  | .unaryExpr _ _ => none

/-- The names of all identifier nodes that the inspection of a list of expressions meets. -/
def identNames (exprs : List Expr) : List String :=
  (inspectExprs exprs).filterMap Node.identName

/-- The identifiers for which a spec of a `var` declaration allocates a record, in order:
the name of a single-name value spec, unless it is blank. -/
def Spec.declared : Spec → List Ident
  | .valueSpec names _ _ =>
      if names.length > 1 then [] else names.filter (fun n => n.name ≠ "_")
  | _ => []

/-- The identifiers for which a list of specs allocates a record. -/
def declaredSpecs : List Spec → List Ident
  | [] => []
  | s :: ss => s.declared ++ declaredSpecs ss

/-- The identifiers for which a declaration allocates a record. -/
def Decl.declared : Decl → List Ident
  | .genDecl tok specs => if tok = Token.VAR then declaredSpecs specs else []
  | .badDecl => []

mutual
/-- The identifiers for which the walk of a statement allocates a record, in the order of
allocation: the declaration statements that `processStatement` reaches (those inside a
function literal or a communication clause are not reached). -/
def Stmt.declared : Stmt → List Ident
  | .declStmt decl => decl.declared
  | .blockStmt list => declaredStmts list
  | .ifStmt init _ body els => declaredStmtOpt init ++ declaredStmts body ++ declaredStmtOpt els
  | .forStmt init _ post body =>
      declaredStmtOpt init ++ declaredStmtOpt post ++ declaredStmts body
  | .rangeStmt _ _ _ _ body => declaredStmts body
  | .switchStmt init _ body => declaredStmtOpt init ++ declaredStmts body
  | .typeSwitchStmt init assign body =>
      declaredStmtOpt init ++ declaredStmtOpt assign ++ declaredStmts body
  | .selectStmt body => declaredStmts body
  | .caseClause _ body => declaredStmts body
  | .labeledStmt _ stmt => stmt.declared
  | .assignStmt _ _ _ => []
  | .exprStmt _ => []
  | .returnStmt _ => []
  | .deferStmt _ _ => []
  | .goStmt _ _ => []
  | .sendStmt _ _ => []
  | .incDecStmt _ _ => []
  | .branchStmt _ _ => []
  | .badStmt => []
  | .emptyStmt => []
  | .commClause _ _ => []
/-- The identifiers for which the walk of an optional statement allocates a record. -/
def declaredStmtOpt : Option Stmt → List Ident
  | none => []
  | some s => s.declared
/-- The identifiers for which the walk of a list of statements allocates a record. -/
def declaredStmts : List Stmt → List Ident
  | [] => []
  | s :: ss => s.declared ++ declaredStmts ss
end

/-- Whether the record at address `r` is on the heap and marked used. -/
def usedAt (c : State) (r : Nat) : Bool :=
  match c.heap[r]? with
  | some x => x.used
  | none => false

/-- The simple statements of the Go grammar, the only ones that stand as the init or post
part of an `if`, `for` or `switch` statement: none of them is a declaration statement. -/
def Stmt.isSimple : Stmt → Bool
  | .exprStmt _ => true
  | .sendStmt _ _ => true
  | .incDecStmt _ _ => true
  | .assignStmt _ _ _ => true
  | .emptyStmt => true
  | _ => false

/-- An absent or simple init part. -/
def simpleOpt : Option Stmt → Bool
  | none => true
  | some s => s.isSimple

/-- The statement is an expression statement, a return, a `defer` or `go` call, a channel
send, an increment or decrement, an assignment, an `if` or `for` with a condition, a
`switch` with a tag or a `range` with a subject, and the part of it named here (for an
assignment the right-hand side) holds an identifier named `v`. -/
def readsName (v : String) : Stmt → Bool
  | .exprStmt x => decide (v ∈ identNames [x])
  | .returnStmt results => decide (v ∈ identNames results)
  | .deferStmt fn args => decide (v ∈ identNames (fn :: args))
  | .goStmt fn args => decide (v ∈ identNames (fn :: args))
  | .sendStmt chan value => decide (v ∈ identNames [chan, value])
  | .incDecStmt x _ => decide (v ∈ identNames [x])
  | .assignStmt _ _ rhs => decide (v ∈ identNames rhs)
  | .ifStmt init (some cond) _ _ => simpleOpt init && decide (v ∈ identNames [cond])
  | .forStmt init (some cond) _ _ => simpleOpt init && decide (v ∈ identNames [cond])
  | .switchStmt init (some tag) _ => simpleOpt init && decide (v ∈ identNames [tag])
  | .rangeStmt _ _ _ (some x) _ => decide (v ∈ identNames [x])
  | _ => false

mutual
/-- The declarations of the declaration statements that the walk of a statement reaches,
in order. -/
def Stmt.reachedDecls : Stmt → List Decl
  | .declStmt decl => [decl]
  | .blockStmt list => reachedDeclsStmts list
  | .ifStmt init _ body els =>
      reachedDeclsStmtOpt init ++ reachedDeclsStmts body ++ reachedDeclsStmtOpt els
  | .forStmt init _ post body =>
      reachedDeclsStmtOpt init ++ reachedDeclsStmtOpt post ++ reachedDeclsStmts body
  | .rangeStmt _ _ _ _ body => reachedDeclsStmts body
  | .switchStmt init _ body => reachedDeclsStmtOpt init ++ reachedDeclsStmts body
  | .typeSwitchStmt init assign body =>
      reachedDeclsStmtOpt init ++ reachedDeclsStmtOpt assign ++ reachedDeclsStmts body
  | .selectStmt body => reachedDeclsStmts body
  | .caseClause _ body => reachedDeclsStmts body
  | .labeledStmt _ stmt => stmt.reachedDecls
  | .assignStmt _ _ _ => []
  | .exprStmt _ => []
  | .returnStmt _ => []
  | .deferStmt _ _ => []
  | .goStmt _ _ => []
  | .sendStmt _ _ => []
  | .incDecStmt _ _ => []
  | .branchStmt _ _ => []
  | .badStmt => []
  | .emptyStmt => []
  | .commClause _ _ => []
/-- The declarations reached by the walk of an optional statement. -/
def reachedDeclsStmtOpt : Option Stmt → List Decl
  | none => []
  | some s => s.reachedDecls
/-- The declarations reached by the walk of a list of statements. -/
def reachedDeclsStmts : List Stmt → List Decl
  | [] => []
  | s :: ss => s.reachedDecls ++ reachedDeclsStmts ss
end

/-- A spec that declares exactly one name. -/
def Spec.isSingleName : Spec → Bool
  | .valueSpec names _ _ => names.length == 1
  | _ => false

/-- A `var` declaration with a spec that declares exactly one name. -/
def Decl.isSingleNameVar : Decl → Bool
  | .genDecl tok specs => tok = Token.VAR && specs.any Spec.isSingleName
  | .badDecl => false

/-- The number of `var` declaration statements with a single-name spec that the walk of a
function body processes. -/
def singleNameVarStmts (body : List Stmt) : Nat :=
  ((reachedDeclsStmts body).filter Decl.isSingleNameVar).length

/-! ## An induction principle for the walker

Every call of the walker is a composition of three atomic steps (marking the record of a
name used, the report step for a name, declaring a name) and of returning to the scope
mapping of the enclosing block.  A relation between states, indexed by the identifiers
declared in between, that is reflexive, transitive, closed under returning to the enclosing
mapping and contains the atomic steps, contains the walker. -/

/-- A relation between the state before and after, indexed by the declared identifiers,
that contains every step of the walker. -/
structure WalkRel (Q : List Ident → State → State → Prop) : Prop where
  refl : ∀ c, Q [] c c
  trans : ∀ a b x y z, Q a x y → Q b y z → Q (a ++ b) x z
  scope : ∀ ds c d, Q ds c d → Q ds c { d with vars := c.vars }
  mark : ∀ n c, Q [] c (markName n c)
  check : ∀ n c, Q [] c (checkRedundant n c)
  declare : ∀ id c, id.name ≠ "_" → Q [id] c (declareName id c)

/-- What every step of the walker does to the heap and to the failure list, whatever the
scope mapping: the records present stay at their address and keep their node, their flags
are only ever set, the records of the declared identifiers are allocated at the end in
order, and failures are only appended; every appended failure has confidence 1, reports a
record that was neither used nor redefined before and is redefined after, at the position
of that record's node; no record is reported twice. -/
structure Step (ds : List Ident) (c d : State) : Prop where
  nodes : d.heap.map varDecl.node = c.heap.map varDecl.node ++ ds
  keeps : ∀ (r : Nat) (x : varDecl), c.heap[r]? = some x →
    ∃ y : varDecl, d.heap[r]? = some y ∧ y.node = x.node ∧
      (x.used = true → y.used = true) ∧ (x.redefined = true → y.redefined = true)
  appended : ∃ new, d.failures = c.failures ++ new ∧ (new.map Failure.node).Nodup ∧
    ∀ f ∈ new, f.confidence = 1 ∧
      (∃ y : varDecl, d.heap[f.node]? = some y ∧ y.redefined = true ∧
        f.position = y.node.pos) ∧
      (∀ x : varDecl, c.heap[f.node]? = some x → x.used = false ∧ x.redefined = false)

/-- Well-formed scope mapping: every name is mapped to the address of a record on the heap
whose node has that name. -/
def ScopeOk (c : State) : Prop :=
  ∀ n r, c.vars n = some r → ∃ x : varDecl, c.heap[r]? = some x ∧ x.node.name = n

/-- The text of every failure of the state names the record it reports. -/
def TextOk (c : State) : Prop :=
  ∀ f ∈ c.failures, ∃ x : varDecl, c.heap[f.node]? = some x ∧ f.failure = message x.node.name

/-- A step that, from a well-formed scope mapping and failure texts that name their
records, leads to the same. -/
def NamedStep (ds : List Ident) (c d : State) : Prop :=
  Step ds c d ∧ (ScopeOk c → TextOk c → ScopeOk d ∧ TextOk d)

/-- A list of nodes that, with a unary expression, holds the nodes of its operand. -/
def Closed (l : List Node) : Prop :=
  ∀ op x, Node.unaryExpr op x ∈ l → ∀ n ∈ x.inspect, n ∈ l

/-- Every record that the scope maps a name to is used or redefined. -/
def Settled (c : State) : Prop :=
  ∀ n r x, c.vars n = some r → c.heap[r]? = some x → x.used = true ∨ x.redefined = true

/-- No name of the scope is mapped to the record at address `r`. -/
def Unbound (r : Nat) (c : State) : Prop :=
  ∀ n, c.vars n ≠ some r

/-- A step that, when no name is mapped to the record at `r`, leaves it so and appends no
failure that reports this record. -/
def HiddenStep (r : Nat) (ds : List Ident) (c d : State) : Prop :=
  Step ds c d ∧ (Unbound r c → (∃ x, c.heap[r]? = some x) →
    Unbound r d ∧ ∃ new, d.failures = c.failures ++ new ∧ ∀ f ∈ new, f.node ≠ r)

/-- A step all of whose declared identifiers are other than the blank identifier. -/
def NonBlank (ds : List Ident) (_c _d : State) : Prop :=
  ∀ id ∈ ds, id.name ≠ "_"

mutual
/-- The statements that declare nothing in the scope they stand in: a nested block, an
`if` (with its `else` chain), `for`, `range`, `switch`, type-switch or `select` statement
whose init, post and type-switch assign parts are absent or simple statements. -/
def Stmt.isolates : Stmt → Bool
  | .blockStmt _ => true
  | .ifStmt init _ _ els => simpleOpt init && isolatesOpt els
  | .forStmt init _ post _ => simpleOpt init && simpleOpt post
  | .rangeStmt _ _ _ _ _ => true
  | .switchStmt init _ _ => simpleOpt init
  | .typeSwitchStmt init assign _ => simpleOpt init && simpleOpt assign
  | .selectStmt _ => true
  | .declStmt _ => false
  | .assignStmt _ _ _ => false
  | .caseClause _ _ => false
  | .exprStmt _ => false
  | .returnStmt _ => false
  | .deferStmt _ _ => false
  | .goStmt _ _ => false
  | .sendStmt _ _ => false
  | .incDecStmt _ _ => false
  | .labeledStmt _ _ => false
  | .branchStmt _ _ => false
  | .badStmt => false
  | .emptyStmt => false
  | .commClause _ _ => false
/-- An absent `else` part, or one that is such a statement (a block or a further `if`). -/
def isolatesOpt : Option Stmt → Bool
  | none => true
  | some s => s.isolates
end

/-- A step that leaves every record present at its address, with its node and its `pos`. -/
def Kept (_ds : List Ident) (c d : State) : Prop :=
  ∀ (r : Nat) (x : varDecl), c.heap[r]? = some x →
    ∃ y : varDecl, d.heap[r]? = some y ∧ y.node = x.node ∧ y.pos = x.pos

/-! ## The file and its function bodies (`Apply`)

`Apply` hands `ast.Inspect` a callback that, at a function declaration, stops the descent
when the name is `init` and otherwise analyses the body, and, at a function literal,
analyses the body; in both cases the descent goes on into the children.  `funcLits` lists
the bodies of the function literals of a tree in the order in which `ast.Inspect` meets
them (a literal before the literals inside it). -/

mutual
/-- The bodies of the function literals of an expression, in depth-first order. -/
def Expr.funcLits : Expr → List (List Stmt)
  | .badExpr => []
  | .ident _ => []
  | .ellipsis elt => funcLitsExprOpt elt
  | .basicLit _ => []
  | .funcLit type body => body :: (type.funcLits ++ funcLitsStmts body)
  | .compositeLit type elts => funcLitsExprOpt type ++ funcLitsExprs elts
  | .parenExpr x => x.funcLits
  | .selectorExpr x _ => x.funcLits
  | .indexExpr x index => x.funcLits ++ index.funcLits
  | .indexListExpr x indices => x.funcLits ++ funcLitsExprs indices
  | .sliceExpr x low high max =>
      x.funcLits ++ funcLitsExprOpt low ++ funcLitsExprOpt high ++ funcLitsExprOpt max
  | .typeAssertExpr x type => x.funcLits ++ funcLitsExprOpt type
  | .callExpr fn args => fn.funcLits ++ funcLitsExprs args
  | .starExpr x => x.funcLits
  | .unaryExpr _ x => x.funcLits
  | .binaryExpr x _ y => x.funcLits ++ y.funcLits
  | .keyValueExpr key value => key.funcLits ++ value.funcLits
  | .arrayType len elt => funcLitsExprOpt len ++ elt.funcLits
  | .structType fields => funcLitsFields fields
  | .funcType typeParams params results =>
      funcLitsFields typeParams ++ funcLitsFields params ++ funcLitsFields results
  | .interfaceType methods => funcLitsFields methods
  | .mapType key value => key.funcLits ++ value.funcLits
  | .chanType value => value.funcLits
/-- The function literals of an optional expression. -/
def funcLitsExprOpt : Option Expr → List (List Stmt)
  | none => []
  | some e => e.funcLits
/-- The function literals of a list of expressions. -/
def funcLitsExprs : List Expr → List (List Stmt)
  | [] => []
  | e :: es => e.funcLits ++ funcLitsExprs es
/-- The function literals of a field (in its type). -/
def Field.funcLits : Field → List (List Stmt)
  | .mk _ type => funcLitsExprOpt type
/-- The function literals of a field list. -/
def funcLitsFields : List Field → List (List Stmt)
  | [] => []
  | f :: fs => f.funcLits ++ funcLitsFields fs
/-- The function literals of a spec. -/
def Spec.funcLits : Spec → List (List Stmt)
  | .importSpec _ _ => []
  | .valueSpec _ type values => funcLitsExprOpt type ++ funcLitsExprs values
  | .typeSpec _ typeParams type => funcLitsFields typeParams ++ type.funcLits
/-- The function literals of a list of specs. -/
def funcLitsSpecs : List Spec → List (List Stmt)
  | [] => []
  | s :: ss => s.funcLits ++ funcLitsSpecs ss
/-- The function literals of a declaration. -/
def Decl.funcLits : Decl → List (List Stmt)
  | .badDecl => []
  | .genDecl _ specs => funcLitsSpecs specs
/-- The function literals of a statement. -/
def Stmt.funcLits : Stmt → List (List Stmt)
  | .badStmt => []
  | .declStmt decl => decl.funcLits
  | .emptyStmt => []
  | .labeledStmt _ stmt => stmt.funcLits
  | .exprStmt x => x.funcLits
  | .sendStmt chan value => chan.funcLits ++ value.funcLits
  | .incDecStmt x _ => x.funcLits
  | .assignStmt lhs _ rhs => funcLitsExprs lhs ++ funcLitsExprs rhs
  | .goStmt fn args => fn.funcLits ++ funcLitsExprs args
  | .deferStmt fn args => fn.funcLits ++ funcLitsExprs args
  | .returnStmt results => funcLitsExprs results
  | .branchStmt _ _ => []
  | .blockStmt list => funcLitsStmts list
  | .ifStmt init cond body els =>
      funcLitsStmtOpt init ++ funcLitsExprOpt cond ++ funcLitsStmts body ++ funcLitsStmtOpt els
  | .caseClause list body => funcLitsExprs list ++ funcLitsStmts body
  | .switchStmt init tag body =>
      funcLitsStmtOpt init ++ funcLitsExprOpt tag ++ funcLitsStmts body
  | .typeSwitchStmt init assign body =>
      funcLitsStmtOpt init ++ funcLitsStmtOpt assign ++ funcLitsStmts body
  | .commClause comm body => funcLitsStmtOpt comm ++ funcLitsStmts body
  | .selectStmt body => funcLitsStmts body
  | .forStmt init cond post body =>
      funcLitsStmtOpt init ++ funcLitsExprOpt cond ++ funcLitsStmtOpt post ++
        funcLitsStmts body
  | .rangeStmt key value _ x body =>
      funcLitsExprOpt key ++ funcLitsExprOpt value ++ funcLitsExprOpt x ++ funcLitsStmts body
/-- The function literals of an optional statement. -/
def funcLitsStmtOpt : Option Stmt → List (List Stmt)
  | none => []
  | some s => s.funcLits
/-- The function literals of a list of statements. -/
def funcLitsStmts : List Stmt → List (List Stmt)
  | [] => []
  | s :: ss => s.funcLits ++ funcLitsStmts ss
end

/-- A top-level declaration of a file (`file.AST.Decls`): a general declaration, or a
function declaration with its receiver, name, type and body (nil for a function without
body). -/
inductive FileDecl where
  | badDecl
  | genDecl (tok : Token) (specs : List Spec)
  | funcDecl (recv : List Field) (name : Ident) (type : Expr) (body : Option (List Stmt))

/-- The bodies that the callback of `Apply` analyses while `ast.Inspect` walks one
top-level declaration, in order: nothing below a function declaration named `init`;
otherwise the body of the function declaration, then the function literals of its
receiver, type and body; for a general declaration its function literals. -/
def FileDecl.analysedBodies : FileDecl → List (List Stmt)
  | .badDecl => []
  | .genDecl _ specs => funcLitsSpecs specs
  | .funcDecl recv name type body =>
      if name.name = "init" then []
      else
        match body with
        | some b => b :: (funcLitsFields recv ++ type.funcLits ++ funcLitsStmts b)
        | none => funcLitsFields recv ++ type.funcLits

/-- The bodies analysed for the declarations of a file, in order. -/
def analysedBodies : List FileDecl → List (List Stmt)
  | [] => []
  | d :: ds => d.analysedBodies ++ analysedBodies ds

/-- The failures of a list of bodies, each analysed by `analyzeFunc`, appended in order. -/
def analyzeBodies (ti : TypesInfo) : List (List Stmt) → List Failure
  | [] => []
  | b :: bs => analyzeFunc ti b ++ analyzeBodies ti bs

/-- The method `Apply` on the declarations of the file, with the type information
`file.Pkg.TypesInfo()`. -/
def Apply (ti : TypesInfo) (decls : List FileDecl) : List Failure :=
  analyzeBodies ti (analysedBodies decls)

/-- The identifiers for which the analyses of a list of bodies allocate a record. -/
def declaredBodies : List (List Stmt) → List Ident
  | [] => []
  | b :: bs => declaredStmts b ++ declaredBodies bs

/-- The call `fmt.Println(args)`, as an expression statement. -/
def printlnStmt (p : Nat) (args : List Expr) : Stmt :=
  .exprStmt (.callExpr (.selectorExpr (.ident ⟨"fmt", p⟩) ⟨"Println", p + 4⟩) args)

/-- The declaration statement `var name T` with a single name. -/
def varStmt (name : String) (p : Nat) (type : String) : Stmt :=
  .declStmt (.genDecl .VAR [.valueSpec [⟨name, p⟩] (some (.ident ⟨type, p + 10⟩)) []])

/-- The fixture `var pkgErr error` with the function `usePkgVar` of
`testdata/redundant_var_decl_edge_cases.go`. -/
def usePkgVarFixture : List FileDecl :=
  [.genDecl .VAR [.valueSpec [⟨"pkgErr", 10⟩] (some (.ident ⟨"error", 17⟩)) []],
    .funcDecl [] ⟨"usePkgVar", 30⟩ (.funcType [] [] [])
      (some
        [.assignStmt [.ident ⟨"result", 50⟩, .ident ⟨"pkgErr", 58⟩] .DEFINE
            [.callExpr (.ident ⟨"someFunction", 68⟩) []],
          .ifStmt none (some (.binaryExpr (.ident ⟨"pkgErr", 90⟩) (.other 44) (.ident ⟨"nil", 100⟩)))
            [printlnStmt 110 [.ident ⟨"pkgErr", 122⟩]] none,
          printlnStmt 140 [.ident ⟨"result", 152⟩]])]

/-- The fixture function `nestedFunctionLiterals` of
`testdata/redundant_var_decl_edge_cases.go`: a function literal with the redundant
`var outer int`, and inside it a function literal with the redundant `var inner int`. -/
def nestedFunctionLiteralsFixture : List FileDecl :=
  [.funcDecl [] ⟨"nestedFunctionLiterals", 200⟩ (.funcType [] [] [])
    (some
      [.assignStmt [.ident ⟨"fn", 230⟩] .DEFINE
          [.funcLit (.funcType [] [] [])
            [varStmt "outer" 250 "int",
              .assignStmt [.ident ⟨"outer", 270⟩, .ident ⟨"err", 277⟩] .DEFINE
                [.callExpr (.ident ⟨"getCounter", 284⟩) []],
              .ifStmt none
                (some (.binaryExpr (.ident ⟨"err", 300⟩) (.other 44) (.ident ⟨"nil", 307⟩)))
                [.assignStmt [.ident ⟨"innerFn", 320⟩] .DEFINE
                    [.funcLit (.funcType [] [] [])
                      [varStmt "inner" 350 "int",
                        .assignStmt [.ident ⟨"inner", 370⟩, .ident ⟨"err2", 377⟩] .DEFINE
                          [.callExpr (.ident ⟨"getCounter", 385⟩) []],
                        .ifStmt none
                          (some (.binaryExpr (.ident ⟨"err2", 400⟩) (.other 44)
                            (.ident ⟨"nil", 408⟩)))
                          [printlnStmt 420 [.ident ⟨"err2", 432⟩]] none,
                        printlnStmt 450 [.ident ⟨"inner", 462⟩, .ident ⟨"outer", 469⟩]]],
                  .exprStmt (.callExpr (.ident ⟨"innerFn", 490⟩) [])]
                none,
              printlnStmt 510 [.ident ⟨"outer", 522⟩]]],
        .exprStmt (.callExpr (.ident ⟨"fn", 540⟩) [])])]

/-- Type information for the fixtures: an identifier on the left of `:=` defines a new
object unless it is one of the names declared before by `var`. -/
def fixtureTypesInfo : TypesInfo :=
  some fun id => decide (id.name ∉ ["outer", "inner", "initVar"])

/-- The body of the fixture function `init` of
`testdata/redundant_var_decl_edge_cases.go`, with the redundant `var initVar int`. -/
def initFixtureBody : List Stmt :=
  [varStmt "initVar" 620 "int",
    .assignStmt [.ident ⟨"initVar", 640⟩, .ident ⟨"err", 649⟩] .DEFINE
      [.callExpr (.ident ⟨"computeValues", 656⟩) []],
    .ifStmt none (some (.binaryExpr (.ident ⟨"err", 680⟩) (.other 44) (.ident ⟨"nil", 687⟩)))
      [.exprStmt (.callExpr (.ident ⟨"panic", 700⟩) [.ident ⟨"err", 706⟩])] none,
    printlnStmt 720 [.ident ⟨"initVar", 732⟩]]

/-! ## The walker with a budget of nested calls

The Go functions recurse freely.  `processStatementFuel` is `processStatement` written
over a budget for the depth of nested `processStatement` calls instead of over the shape
of the tree: it gives up (`none`) when the budget is used up.  The loops over the
statements of a block or clause are loops, they take nothing from the budget. -/

/-- An optional statement processed by `step` (`if s.Init != nil`). -/
def optFuel (step : Stmt → State → Option State) : Option Stmt → State → Option State
  | none, c => some c
  | some s, c => step s c

/-- The loop over the statements of a list, each processed by `step`. -/
def stmtsFuel (step : Stmt → State → Option State) : List Stmt → State → Option State
  | [], c => some c
  | s :: ss, c => (step s c).bind (stmtsFuel step ss)

/-- The function `analyzeBlock` over `step`: the statements are processed with a copy of
the scope mapping, and the caller goes on with its own. -/
def blockFuel (step : Stmt → State → Option State) (list : List Stmt) (c : State) :
    Option State :=
  (stmtsFuel step list c).map fun d => { d with vars := c.vars }

/-- The function `processStatement` with a budget for the depth of its nested calls. -/
def processStatementFuel (ti : TypesInfo) : Nat → Stmt → State → Option State
  | 0, _, _ => none
  | fuel + 1, s, c =>
    match s with
    | .declStmt decl => some (declareDecl decl c)
    | .assignStmt lhs tok rhs =>
        some (if tok = Token.DEFINE then checkDefine ti lhs (markUsedInExpr rhs c)
          else if tok = Token.ASSIGN then markAssigned lhs (markUsedInExpr rhs c)
          else markUsedInExpr rhs c)
    | .blockStmt list => blockFuel (processStatementFuel ti fuel) list c
    | .ifStmt init cond body els =>
        (optFuel (processStatementFuel ti fuel) init c).bind fun c1 =>
          (blockFuel (processStatementFuel ti fuel) body (markUsedInExprOpt cond c1)).bind
            fun c2 => optFuel (processStatementFuel ti fuel) els c2
    | .forStmt init cond post body =>
        (optFuel (processStatementFuel ti fuel) init c).bind fun c1 =>
          (optFuel (processStatementFuel ti fuel) post (markUsedInExprOpt cond c1)).bind
            fun c2 => blockFuel (processStatementFuel ti fuel) body c2
    | .rangeStmt key value tok x body =>
        blockFuel (processStatementFuel ti fuel) body
          (if tok = Token.DEFINE then
            checkRedundantInAssignment [key, value] (markUsedInExprOpt x c)
           else markUsedInExprOpt x c)
    | .switchStmt init tag body =>
        (optFuel (processStatementFuel ti fuel) init c).bind fun c1 =>
          blockFuel (processStatementFuel ti fuel) body (markUsedInExprOpt tag c1)
    | .typeSwitchStmt init assign body =>
        (optFuel (processStatementFuel ti fuel) init c).bind fun c1 =>
          (optFuel (processStatementFuel ti fuel) assign
            (markTypeSwitchAssign assign c1)).bind
            fun c2 => blockFuel (processStatementFuel ti fuel) body c2
    | .selectStmt body => blockFuel (processStatementFuel ti fuel) body c
    | .caseClause list body =>
        stmtsFuel (processStatementFuel ti fuel) body (markUsedInExpr list c)
    | .exprStmt x => some (markUsedInExpr [x] c)
    | .returnStmt results => some (markUsedInExpr results c)
    | .deferStmt fn args => some (markUsedInCallExpr fn args c)
    | .goStmt fn args => some (markUsedInCallExpr fn args c)
    | .sendStmt chan value => some (markUsedInExpr [chan, value] c)
    | .incDecStmt x _ => some (markUsedInExpr [x] c)
    | .labeledStmt _ stmt => processStatementFuel ti fuel stmt c
    | .branchStmt _ _ => some c
    | .badStmt => some c
    | .emptyStmt => some c
    | .commClause _ _ => some c

mutual
/-- The depth of the nested `processStatement` calls that a statement needs. -/
def Stmt.height : Stmt → Nat
  | .blockStmt list => heightStmts list + 1
  | .ifStmt init _ body els =>
      max (heightStmtOpt init) (max (heightStmts body) (heightStmtOpt els)) + 1
  | .forStmt init _ post body =>
      max (heightStmtOpt init) (max (heightStmtOpt post) (heightStmts body)) + 1
  | .rangeStmt _ _ _ _ body => heightStmts body + 1
  | .switchStmt init _ body => max (heightStmtOpt init) (heightStmts body) + 1
  | .typeSwitchStmt init assign body =>
      max (heightStmtOpt init) (max (heightStmtOpt assign) (heightStmts body)) + 1
  | .selectStmt body => heightStmts body + 1
  | .caseClause _ body => heightStmts body + 1
  | .labeledStmt _ stmt => stmt.height + 1
  | .declStmt _ => 1
  | .assignStmt _ _ _ => 1
  | .exprStmt _ => 1
  | .returnStmt _ => 1
  | .deferStmt _ _ => 1
  | .goStmt _ _ => 1
  | .sendStmt _ _ => 1
  | .incDecStmt _ _ => 1
  | .branchStmt _ _ => 1
  | .badStmt => 1
  | .emptyStmt => 1
  | .commClause _ _ => 1
/-- The depth needed by an optional statement. -/
def heightStmtOpt : Option Stmt → Nat
  | none => 0
  | some s => s.height
/-- The depth needed by the statements of a list. -/
def heightStmts : List Stmt → Nat
  | [] => 0
  | s :: ss => max s.height (heightStmts ss)
end


/-! ## The rebinds of a statement, in the order of the source text -/

/-- The bare identifiers of a list of left-hand sides, in order. -/
def defineTargets : List Expr → List Ident
  | [] => []
  | e :: es =>
    match e with
    | .ident id => id :: defineTargets es
    | _ => defineTargets es

/-- The bare identifiers among the key and the value of a range clause: the key first. -/
def rangeTargets (key value : Option Expr) : List Ident :=
  defineTargets (key.toList ++ value.toList)

mutual
/-- The identifiers on the left of the `:=` statements and of the `:=` range clauses of a
statement, in the order of the source text: the init part of a statement before its body,
the body of an `if` before its `else`, the statements of a list from first to last.
Function literals are expressions and are not entered. -/
def Stmt.rebinds : Stmt → List Ident
  | .assignStmt lhs tok _ => if tok = Token.DEFINE then defineTargets lhs else []
  | .blockStmt list => rebindsStmts list
  | .ifStmt init _ body els => rebindsStmtOpt init ++ rebindsStmts body ++ rebindsStmtOpt els
  | .forStmt init _ post body =>
      rebindsStmtOpt init ++ rebindsStmtOpt post ++ rebindsStmts body
  | .rangeStmt key value tok _ body =>
      (if tok = Token.DEFINE then rangeTargets key value else []) ++ rebindsStmts body
  | .switchStmt init _ body => rebindsStmtOpt init ++ rebindsStmts body
  | .typeSwitchStmt init assign body =>
      rebindsStmtOpt init ++ rebindsStmtOpt assign ++ rebindsStmts body
  | .selectStmt body => rebindsStmts body
  | .caseClause _ body => rebindsStmts body
  | .commClause comm body => rebindsStmtOpt comm ++ rebindsStmts body
  | .labeledStmt _ stmt => stmt.rebinds
  | .declStmt _ => []
  | .exprStmt _ => []
  | .returnStmt _ => []
  | .deferStmt _ _ => []
  | .goStmt _ _ => []
  | .sendStmt _ _ => []
  | .incDecStmt _ _ => []
  | .branchStmt _ _ => []
  | .badStmt => []
  | .emptyStmt => []
/-- The rebinds of an optional statement. -/
def rebindsStmtOpt : Option Stmt → List Ident
  | none => []
  | some s => s.rebinds
/-- The rebinds of a list of statements, from first to last. -/
def rebindsStmts : List Stmt → List Ident
  | [] => []
  | s :: ss => s.rebinds ++ rebindsStmts ss
end

/-- The failure list `after` is the list `before` followed by failures that are, one by
one and in order, the failures for a subsequence of the identifiers `src`: each appended
failure carries the text for the name of its identifier. -/
def ReportedBy (src : List Ident) (before after : List Failure) : Prop :=
  ∃ ids : List Ident, ids.Sublist src ∧
    ∃ new : List Failure, after = before ++ new ∧
      new.map Failure.failure = ids.map (fun id => message id.name)


/-! ## The expression nodes of a tree, as `ast.Inspect` meets them

`ast.Inspect` (that is `ast.Walk`) calls its callback on a node and then walks the
children in the order of the fields.  `walk` lists the expression nodes met, the node
before its children; an identifier that is a field of a node (the `Sel` of a selector, the
names of a field or of a spec, a label) is the expression node `Expr.ident`, as an
`*ast.Ident` is in `go/ast`.  The call of a `go` or `defer` statement is its call
expression node. -/

mutual
/-- The expression nodes of an expression, in depth-first order. -/
def Expr.walk : Expr → List Expr
  | .badExpr => [.badExpr]
  | .ident id => [.ident id]
  | .ellipsis elt => .ellipsis elt :: walkExprOpt elt
  | .basicLit value => [.basicLit value]
  | .funcLit type body => .funcLit type body :: (type.walk ++ walkStmts body)
  | .compositeLit type elts => .compositeLit type elts :: (walkExprOpt type ++ walkExprs elts)
  | .parenExpr x => .parenExpr x :: x.walk
  | .selectorExpr x sel => .selectorExpr x sel :: (x.walk ++ [.ident sel])
  | .indexExpr x index => .indexExpr x index :: (x.walk ++ index.walk)
  | .indexListExpr x indices => .indexListExpr x indices :: (x.walk ++ walkExprs indices)
  | .sliceExpr x low high max =>
      .sliceExpr x low high max ::
        (x.walk ++ walkExprOpt low ++ walkExprOpt high ++ walkExprOpt max)
  | .typeAssertExpr x type => .typeAssertExpr x type :: (x.walk ++ walkExprOpt type)
  | .callExpr fn args => .callExpr fn args :: (fn.walk ++ walkExprs args)
  | .starExpr x => .starExpr x :: x.walk
  | .unaryExpr op x => .unaryExpr op x :: x.walk
  | .binaryExpr x op y => .binaryExpr x op y :: (x.walk ++ y.walk)
  | .keyValueExpr key value => .keyValueExpr key value :: (key.walk ++ value.walk)
  | .arrayType len elt => .arrayType len elt :: (walkExprOpt len ++ elt.walk)
  | .structType fields => .structType fields :: walkFields fields
  | .funcType typeParams params results =>
      .funcType typeParams params results ::
        (walkFields typeParams ++ walkFields params ++ walkFields results)
  | .interfaceType methods => .interfaceType methods :: walkFields methods
  | .mapType key value => .mapType key value :: (key.walk ++ value.walk)
  | .chanType value => .chanType value :: value.walk
/-- The expression nodes of an optional expression (nothing for nil). -/
def walkExprOpt : Option Expr → List Expr
  | none => []
  | some e => e.walk
/-- The expression nodes of a list of expressions. -/
def walkExprs : List Expr → List Expr
  | [] => []
  | e :: es => e.walk ++ walkExprs es
/-- The expression nodes of a field: its names, then its type. -/
def Field.walk : Field → List Expr
  | .mk names type => names.map Expr.ident ++ walkExprOpt type
/-- The expression nodes of a field list. -/
def walkFields : List Field → List Expr
  | [] => []
  | f :: fs => f.walk ++ walkFields fs
/-- The expression nodes of a spec: the name, the path literal of an import; the names,
the type and the values of a value spec; the name, the type parameters and the type of a
type spec. -/
def Spec.walk : Spec → List Expr
  | .importSpec name path => (name.toList).map Expr.ident ++ [.basicLit path]
  | .valueSpec names type values =>
      names.map Expr.ident ++ walkExprOpt type ++ walkExprs values
  | .typeSpec name typeParams type => .ident name :: (walkFields typeParams ++ type.walk)
/-- The expression nodes of a list of specs. -/
def walkSpecs : List Spec → List Expr
  | [] => []
  | s :: ss => s.walk ++ walkSpecs ss
/-- The expression nodes of a declaration. -/
def Decl.walk : Decl → List Expr
  | .badDecl => []
  | .genDecl _ specs => walkSpecs specs
/-- The expression nodes of a statement. -/
def Stmt.walk : Stmt → List Expr
  | .badStmt => []
  | .declStmt decl => decl.walk
  | .emptyStmt => []
  | .labeledStmt label stmt => .ident label :: stmt.walk
  | .exprStmt x => x.walk
  | .sendStmt chan value => chan.walk ++ value.walk
  | .incDecStmt x _ => x.walk
  | .assignStmt lhs _ rhs => walkExprs lhs ++ walkExprs rhs
  | .goStmt fn args => .callExpr fn args :: (fn.walk ++ walkExprs args)
  | .deferStmt fn args => .callExpr fn args :: (fn.walk ++ walkExprs args)
  | .returnStmt results => walkExprs results
  | .branchStmt _ label => (label.toList).map Expr.ident
  | .blockStmt list => walkStmts list
  | .ifStmt init cond body els =>
      walkStmtOpt init ++ walkExprOpt cond ++ walkStmts body ++ walkStmtOpt els
  | .caseClause list body => walkExprs list ++ walkStmts body
  | .switchStmt init tag body => walkStmtOpt init ++ walkExprOpt tag ++ walkStmts body
  | .typeSwitchStmt init assign body =>
      walkStmtOpt init ++ walkStmtOpt assign ++ walkStmts body
  | .commClause comm body => walkStmtOpt comm ++ walkStmts body
  | .selectStmt body => walkStmts body
  | .forStmt init cond post body =>
      walkStmtOpt init ++ walkExprOpt cond ++ walkStmtOpt post ++ walkStmts body
  | .rangeStmt key value _ x body =>
      walkExprOpt key ++ walkExprOpt value ++ walkExprOpt x ++ walkStmts body
/-- The expression nodes of an optional statement. -/
def walkStmtOpt : Option Stmt → List Expr
  | none => []
  | some s => s.walk
/-- The expression nodes of a list of statements. -/
def walkStmts : List Stmt → List Expr
  | [] => []
  | s :: ss => s.walk ++ walkStmts ss
end

/-- The node on which the callback of `markUsedInExpr` acts, if the expression node is an
identifier or a unary expression. -/
def Expr.toNode : Expr → Option Node
  | .ident id => some (.ident id)
  | .unaryExpr op x => some (.unaryExpr op x)
  | _ => none

/-- The body of the expression node if it is a function literal: the case `*ast.FuncLit`
of the callback of `Apply`. -/
def Expr.litBody : Expr → Option (List Stmt)
  | .funcLit _ body => some body
  | _ => none

/-- The position of the expression node if it is an identifier. -/
def Expr.identPos : Expr → Option Nat
  | .ident id => some id.pos
  | _ => none

/-- The expression nodes of a top-level declaration: for a function declaration its
receiver, name, type and body, in this order. -/
def FileDecl.walk : FileDecl → List Expr
  | .badDecl => []
  | .genDecl _ specs => walkSpecs specs
  | .funcDecl recv name type body =>
      walkFields recv ++ .ident name ::
        (type.walk ++ match body with
          | some b => walkStmts b
          | none => [])

/-- The expression nodes of the declarations of a file. -/
def walkDecls : List FileDecl → List Expr
  | [] => []
  | d :: ds => d.walk ++ walkDecls ds

/-- Whether the declaration is a function declaration named `init`. -/
def FileDecl.isInit : FileDecl → Bool
  | .funcDecl _ name _ _ => decide (name.name = "init")
  | _ => false

/-- The body of a function declaration, if it is one and has a body. -/
def FileDecl.body : FileDecl → Option (List Stmt)
  | .funcDecl _ _ _ body => body
  | _ => none


/-- A function whose body is the call of a function literal with the redundant
`var local int` (the fixture `redundantInAnonymousFunc` of
`testdata/redundant_var_decl_additional.go`), under the given name. -/
def anonymousFuncFixture (name : String) : List FileDecl :=
  [.funcDecl [] ⟨name, 600⟩ (.funcType [] [] [])
    (some
      [.exprStmt (.callExpr
        (.funcLit (.funcType [] [] [])
          [varStmt "local" 630 "int",
            .assignStmt [.ident ⟨"local", 650⟩, .ident ⟨"err", 657⟩] .DEFINE
              [.callExpr (.ident ⟨"getLocalValue", 664⟩) []],
            printlnStmt 690 [.ident ⟨"local", 702⟩, .ident ⟨"err", 709⟩]])
        [])])]

/-! ## The induction principle, proved -/

section WalkInduction

variable {Q : List Ident → State → State → Prop}

theorem WalkRel.trans_nil (h : WalkRel Q) {x y z : State} (h1 : Q [] x y) (h2 : Q [] y z) :
    Q [] x z := by
  simpa using h.trans [] [] x y z h1 h2

theorem WalkRel.trans_left (h : WalkRel Q) {ds : List Ident} {x y z : State}
    (h1 : Q [] x y) (h2 : Q ds y z) : Q ds x z := by
  simpa using h.trans [] ds x y z h1 h2

theorem WalkRel.trans_right (h : WalkRel Q) {ds : List Ident} {x y z : State}
    (h1 : Q ds x y) (h2 : Q [] y z) : Q ds x z := by
  simpa using h.trans ds [] x y z h1 h2

/-- A left fold of steps that are each in the relation is in the relation. -/
theorem WalkRel.foldl (h : WalkRel Q) {α : Type} (f : State → α → State)
    (hf : ∀ c a, Q [] c (f c a)) : ∀ (l : List α) (c : State), Q [] c (l.foldl f c)
  | [], c => h.refl c
  | a :: l, c => h.trans_left (hf c a) (WalkRel.foldl h f hf l (f c a))

theorem WalkRel.on_visit (h : WalkRel Q) (n : Node) (c : State) : Q [] c (visit n c) := by
  cases n with
  | ident id => exact h.mark id.name c
  | unaryExpr op x =>
    simp only [Revive.visit]
    split
    · split
      · exact h.mark _ c
      · exact h.refl c
    · exact h.refl c

theorem WalkRel.on_markUsedInExpr (h : WalkRel Q) (exprs : List Expr) (c : State) :
    Q [] c (markUsedInExpr exprs c) := by
  unfold Revive.markUsedInExpr
  exact h.foldl _ (fun c e => h.foldl _ (fun c n => h.on_visit n c) e.inspect c) exprs c

theorem WalkRel.on_markUsedInExprOpt (h : WalkRel Q) (e : Option Expr) (c : State) :
    Q [] c (markUsedInExprOpt e c) := by
  cases e with
  | none => exact h.refl c
  | some e => exact h.on_markUsedInExpr [e] c

theorem WalkRel.on_markUsedInCallExpr (h : WalkRel Q) (fn : Expr) (args : List Expr) (c : State) :
    Q [] c (markUsedInCallExpr fn args c) :=
  h.trans_nil (h.on_markUsedInExpr [fn] c) (h.on_markUsedInExpr args _)

theorem WalkRel.on_markTypeSwitchAssign (h : WalkRel Q) (a : Option Stmt) (c : State) :
    Q [] c (markTypeSwitchAssign a c) := by
  unfold Revive.markTypeSwitchAssign
  split
  · split
    · exact h.on_markUsedInExpr _ c
    · exact h.refl c
  · exact h.refl c

theorem WalkRel.on_checkRedundantExpr (h : WalkRel Q) (e : Option Expr) (c : State) :
    Q [] c (checkRedundantExpr e c) := by
  unfold Revive.checkRedundantExpr
  split
  · split
    · exact h.check _ c
    · exact h.refl c
  · exact h.refl c

theorem WalkRel.on_checkRedundantInAssignment (h : WalkRel Q) (es : List (Option Expr))
    (c : State) : Q [] c (checkRedundantInAssignment es c) := by
  unfold Revive.checkRedundantInAssignment
  exact h.foldl _ (fun c e => h.on_checkRedundantExpr e c) es c

theorem WalkRel.on_checkDefineExpr (h : WalkRel Q) (ti : TypesInfo) (e : Expr) (c : State) :
    Q [] c (checkDefineExpr ti e c) := by
  unfold Revive.checkDefineExpr
  split
  · split
    · split
      · exact h.refl c
      · exact h.check _ c
    · exact h.refl c
  · exact h.refl c

theorem WalkRel.on_checkDefine (h : WalkRel Q) (ti : TypesInfo) (lhs : List Expr) (c : State) :
    Q [] c (checkDefine ti lhs c) := by
  unfold Revive.checkDefine
  exact h.foldl _ (fun c e => h.on_checkDefineExpr ti e c) lhs c

theorem WalkRel.on_markAssignedExpr (h : WalkRel Q) (e : Expr) (c : State) :
    Q [] c (markAssignedExpr e c) := by
  unfold Revive.markAssignedExpr
  split
  · exact h.mark _ c
  · exact h.refl c

theorem WalkRel.on_markAssigned (h : WalkRel Q) (lhs : List Expr) (c : State) :
    Q [] c (markAssigned lhs c) := by
  unfold Revive.markAssigned
  exact h.foldl _ (fun c e => h.on_markAssignedExpr e c) lhs c

theorem WalkRel.on_declareNames (h : WalkRel Q) :
    ∀ (names : List Ident) (c : State),
      Q (names.filter (fun n => n.name ≠ "_")) c (names.foldl (fun c n => declareName n c) c)
  | [], c => h.refl c
  | n :: names, c => by
    by_cases hn : n.name = "_"
    · have ih := WalkRel.on_declareNames h names c
      simpa [List.filter, hn, declareName] using ih
    · have ih := WalkRel.on_declareNames h names (declareName n c)
      have h1 := h.declare n c hn
      simpa [List.filter, hn] using h.trans _ _ _ _ _ h1 ih

theorem WalkRel.on_declareSpec (h : WalkRel Q) (s : Spec) (c : State) :
    Q s.declared c (declareSpec s c) := by
  cases s with
  | importSpec name path => exact h.refl c
  | typeSpec name tps type => exact h.refl c
  | valueSpec names type values =>
    simp only [Spec.declared, Revive.declareSpec]
    split
    · exact h.refl c
    · exact h.on_declareNames names c

theorem WalkRel.on_declareSpecs (h : WalkRel Q) :
    ∀ (specs : List Spec) (c : State),
      Q (declaredSpecs specs) c (specs.foldl (fun c s => declareSpec s c) c)
  | [], c => h.refl c
  | s :: specs, c =>
    h.trans _ _ _ _ _ (h.on_declareSpec s c) (WalkRel.on_declareSpecs h specs (declareSpec s c))

theorem WalkRel.on_declareDecl (h : WalkRel Q) (d : Decl) (c : State) :
    Q d.declared c (declareDecl d c) := by
  cases d with
  | badDecl => exact h.refl c
  | genDecl tok specs =>
    simp only [Decl.declared, Revive.declareDecl]
    split
    · exact h.on_declareSpecs specs c
    · exact h.refl c

mutual
/-- The walker is contained in every relation that contains its steps. -/
theorem WalkRel.on_processStatement (h : WalkRel Q) (ti : TypesInfo) :
    ∀ (s : Stmt) (c : State), Q s.declared c (processStatement ti s c)
  | .declStmt decl, c => by
    simpa [Revive.processStatement, Stmt.declared] using h.on_declareDecl decl c
  | .assignStmt lhs tok rhs, c => by
    simp only [Revive.processStatement, Stmt.declared]
    split
    · exact h.trans_nil (h.on_markUsedInExpr rhs c) (h.on_checkDefine ti lhs _)
    · split
      · exact h.trans_nil (h.on_markUsedInExpr rhs c) (h.on_markAssigned lhs _)
      · exact h.on_markUsedInExpr rhs c
  | .blockStmt list, c => by
    simpa [Revive.processStatement, Stmt.declared] using WalkRel.on_analyzeBlock h ti list c
  | .ifStmt init cond body els, c => by
    simp only [Revive.processStatement, Stmt.declared]
    have h1 := WalkRel.on_processStatementOpt h ti init c
    have h2 := h.trans_right h1 (h.on_markUsedInExprOpt cond _)
    have h3 := h.trans _ _ _ _ _ h2 (WalkRel.on_analyzeBlock h ti body _)
    exact h.trans _ _ _ _ _ h3 (WalkRel.on_processStatementOpt h ti els _)
  | .forStmt init cond post body, c => by
    simp only [Revive.processStatement, Stmt.declared]
    have h1 := WalkRel.on_processStatementOpt h ti init c
    have h2 := h.trans_right h1 (h.on_markUsedInExprOpt cond _)
    have h3 := h.trans _ _ _ _ _ h2 (WalkRel.on_processStatementOpt h ti post _)
    exact h.trans _ _ _ _ _ h3 (WalkRel.on_analyzeBlock h ti body _)
  | .rangeStmt key value tok x body, c => by
    simp only [Revive.processStatement, Stmt.declared]
    have h1 := h.on_markUsedInExprOpt x c
    split
    · exact h.trans_left (h.trans_nil h1 (h.on_checkRedundantInAssignment [key, value] _))
        (WalkRel.on_analyzeBlock h ti body _)
    · exact h.trans_left h1 (WalkRel.on_analyzeBlock h ti body _)
  | .switchStmt init tag body, c => by
    simp only [Revive.processStatement, Stmt.declared]
    have h1 := WalkRel.on_processStatementOpt h ti init c
    have h2 := h.trans_right h1 (h.on_markUsedInExprOpt tag _)
    exact h.trans _ _ _ _ _ h2 (WalkRel.on_analyzeBlock h ti body _)
  | .typeSwitchStmt init assign body, c => by
    simp only [Revive.processStatement, Stmt.declared]
    have h1 := WalkRel.on_processStatementOpt h ti init c
    have h2 := h.trans_right h1 (h.on_markTypeSwitchAssign assign _)
    have h3 := h.trans _ _ _ _ _ h2 (WalkRel.on_processStatementOpt h ti assign _)
    exact h.trans _ _ _ _ _ h3 (WalkRel.on_analyzeBlock h ti body _)
  | .selectStmt body, c => by
    simpa [Revive.processStatement, Stmt.declared] using WalkRel.on_analyzeBlock h ti body c
  | .caseClause list body, c => by
    simp only [Revive.processStatement, Stmt.declared]
    exact h.trans_left (h.on_markUsedInExpr list c) (WalkRel.on_processStatements h ti body _)
  | .exprStmt x, c => by
    simpa [Revive.processStatement, Stmt.declared] using h.on_markUsedInExpr [x] c
  | .returnStmt results, c => by
    simpa [Revive.processStatement, Stmt.declared] using h.on_markUsedInExpr results c
  | .deferStmt fn args, c => by
    simpa [Revive.processStatement, Stmt.declared] using h.on_markUsedInCallExpr fn args c
  | .goStmt fn args, c => by
    simpa [Revive.processStatement, Stmt.declared] using h.on_markUsedInCallExpr fn args c
  | .sendStmt chan value, c => by
    simpa [Revive.processStatement, Stmt.declared] using h.on_markUsedInExpr [chan, value] c
  | .incDecStmt x tok, c => by
    simpa [Revive.processStatement, Stmt.declared] using h.on_markUsedInExpr [x] c
  | .labeledStmt label stmt, c => by
    simpa [Revive.processStatement, Stmt.declared] using WalkRel.on_processStatement h ti stmt c
  | .branchStmt tok label, c => by
    simpa [Revive.processStatement, Stmt.declared] using h.refl c
  | .badStmt, c => by
    simpa [Revive.processStatement, Stmt.declared] using h.refl c
  | .emptyStmt, c => by
    simpa [Revive.processStatement, Stmt.declared] using h.refl c
  | .commClause comm body, c => by
    simpa [Revive.processStatement, Stmt.declared] using h.refl c
theorem WalkRel.on_processStatementOpt (h : WalkRel Q) (ti : TypesInfo) :
    ∀ (s : Option Stmt) (c : State), Q (declaredStmtOpt s) c (processStatementOpt ti s c)
  | none, c => by
    simpa [Revive.processStatementOpt, declaredStmtOpt] using h.refl c
  | some s, c => by
    simpa [Revive.processStatementOpt, declaredStmtOpt] using WalkRel.on_processStatement h ti s c
theorem WalkRel.on_processStatements (h : WalkRel Q) (ti : TypesInfo) :
    ∀ (l : List Stmt) (c : State), Q (declaredStmts l) c (processStatements ti l c)
  | [], c => by
    simpa [Revive.processStatements, declaredStmts] using h.refl c
  | s :: ss, c => by
    simp only [Revive.processStatements, declaredStmts]
    exact h.trans _ _ _ _ _ (WalkRel.on_processStatement h ti s c)
      (WalkRel.on_processStatements h ti ss _)
theorem WalkRel.on_analyzeBlock (h : WalkRel Q) (ti : TypesInfo) :
    ∀ (l : List Stmt) (c : State), Q (declaredStmts l) c (analyzeBlock ti l c)
  | [], c => by
    simpa [Revive.analyzeBlock, declaredStmts] using h.refl c
  | s :: ss, c => by
    simp only [Revive.analyzeBlock, declaredStmts]
    exact h.scope _ _ _ (h.trans _ _ _ _ _ (WalkRel.on_processStatement h ti s c)
      (WalkRel.on_processStatements h ti ss _))
end

end WalkInduction


/-! ## The heap under the atomic steps -/

theorem getElem?_setUsed (r i : Nat) (h : List varDecl) :
    (setUsed r h)[i]? = (h[i]?).map (fun x => if r = i then { x with used := true } else x) := by
  unfold setUsed
  cases hr : h[r]? with
  | none =>
    by_cases hi : r = i
    · subst hi; simp [hr]
    · cases h[i]? <;> simp [hi]
  | some x =>
    have hlt : r < h.length := (List.getElem?_eq_some.mp hr).1
    by_cases hi : r = i
    · subst hi; simp [List.getElem?_set, hlt, hr]
    · cases hx : h[i]? <;> simp [List.getElem?_set, hi, hx]

theorem getElem?_setRedefined (r i : Nat) (h : List varDecl) :
    (setRedefined r h)[i]? =
      (h[i]?).map (fun x => if r = i then { x with redefined := true } else x) := by
  unfold setRedefined
  cases hr : h[r]? with
  | none =>
    by_cases hi : r = i
    · subst hi; simp [hr]
    · cases h[i]? <;> simp [hi]
  | some x =>
    have hlt : r < h.length := (List.getElem?_eq_some.mp hr).1
    by_cases hi : r = i
    · subst hi; simp [List.getElem?_set, hlt, hr]
    · cases hx : h[i]? <;> simp [List.getElem?_set, hi, hx]

theorem map_node_setUsed (r : Nat) (h : List varDecl) :
    (setUsed r h).map varDecl.node = h.map varDecl.node := by
  apply List.ext_getElem?
  intro i
  rw [List.getElem?_map, getElem?_setUsed, List.getElem?_map]
  cases h[i]? with
  | none => rfl
  | some x => by_cases hi : r = i <;> simp [hi]

theorem map_node_setRedefined (r : Nat) (h : List varDecl) :
    (setRedefined r h).map varDecl.node = h.map varDecl.node := by
  apply List.ext_getElem?
  intro i
  rw [List.getElem?_map, getElem?_setRedefined, List.getElem?_map]
  cases h[i]? with
  | none => rfl
  | some x => by_cases hi : r = i <;> simp [hi]


/-! ## Every step of the walker is a `Step` -/

theorem step_refl (c : State) : Step [] c c where
  nodes := by simp
  keeps := fun r x hx => ⟨x, hx, rfl, id, id⟩
  appended := ⟨[], by simp⟩

theorem step_comp {a b : List Ident} {x y z : State} (h1 : Step a x y) (h2 : Step b y z) :
    Step (a ++ b) x z where
  nodes := by rw [h2.nodes, h1.nodes, List.append_assoc]
  keeps := by
    intro r u hu
    obtain ⟨v, hv, hvn, hvu, hvr⟩ := h1.keeps r u hu
    obtain ⟨w, hw, hwn, hwu, hwr⟩ := h2.keeps r v hv
    exact ⟨w, hw, hwn.trans hvn, fun h => hwu (hvu h), fun h => hwr (hvr h)⟩
  appended := by
    obtain ⟨n1, e1, nd1, p1⟩ := h1.appended
    obtain ⟨n2, e2, nd2, p2⟩ := h2.appended
    refine ⟨n1 ++ n2, by rw [e2, e1, List.append_assoc], ?_, ?_⟩
    · rw [List.map_append, List.nodup_append]
      refine ⟨nd1, nd2, ?_⟩
      intro r hr1 hr2
      obtain ⟨f1, hf1, rfl⟩ := List.mem_map.mp hr1
      obtain ⟨f2, hf2, hf⟩ := List.mem_map.mp hr2
      obtain ⟨-, ⟨v, hv, hvr, -⟩, -⟩ := p1 f1 hf1
      obtain ⟨-, -, hpre⟩ := p2 f2 hf2
      rw [hf] at hpre
      have := (hpre v hv).2
      rw [hvr] at this
      exact Bool.noConfusion this
    · intro f hf
      rcases List.mem_append.mp hf with hf | hf
      · obtain ⟨hc, ⟨v, hv, hvr, hvp⟩, hpre⟩ := p1 f hf
        obtain ⟨w, hw, hwn, -, hwr⟩ := h2.keeps _ v hv
        exact ⟨hc, ⟨w, hw, hwr hvr, by rw [hvp, hwn]⟩, hpre⟩
      · obtain ⟨hc, hpost, hpre⟩ := p2 f hf
        refine ⟨hc, hpost, ?_⟩
        intro u hu
        obtain ⟨v, hv, -, hvu, hvr⟩ := h1.keeps _ u hu
        obtain ⟨hvu0, hvr0⟩ := hpre v hv
        constructor
        · cases hb : u.used with
          | false => rfl
          | true => rw [hvu hb] at hvu0; exact Bool.noConfusion hvu0
        · cases hb : u.redefined with
          | false => rfl
          | true => rw [hvr hb] at hvr0; exact Bool.noConfusion hvr0

theorem step_restore {ds : List Ident} {c d : State} (h : Step ds c d) :
    Step ds c { d with vars := c.vars } where
  nodes := h.nodes
  keeps := h.keeps
  appended := h.appended

theorem step_markName (n : String) (c : State) : Step [] c (markName n c) := by
  unfold Revive.markName
  split
  · rename_i r hv
    refine ⟨by simp [map_node_setUsed], ?_, ⟨[], by simp⟩⟩
    intro i x hx
    simp only [getElem?_setUsed, hx, Option.map_some']
    by_cases hi : r = i
    · exact ⟨{ x with used := true }, by simp [hi], rfl, fun _ => rfl, fun h => h⟩
    · exact ⟨x, by simp [hi], rfl, id, id⟩
  · exact step_refl c

theorem step_checkRedundant (n : String) (c : State) : Step [] c (checkRedundant n c) := by
  unfold Revive.checkRedundant
  split
  · rename_i r hv
    split
    · rename_i x hr
      split
      · rename_i hcond
        have hflags : x.used = false ∧ x.redefined = false := by
          cases hu : x.used <;> cases hd : x.redefined <;> simp [hu, hd] at hcond ⊢
        refine ⟨by simp [map_node_setRedefined], ?_, ⟨[_], rfl, by simp, ?_⟩⟩
        · intro i u hu
          simp only [getElem?_setRedefined, hu, Option.map_some']
          by_cases hi : r = i
          · exact ⟨{ u with redefined := true }, by simp [hi], rfl, fun h => h, fun _ => rfl⟩
          · exact ⟨u, by simp [hi], rfl, id, id⟩
        · intro f hf
          rw [List.mem_singleton] at hf
          subst hf
          refine ⟨rfl, ⟨{ x with redefined := true }, ?_, rfl, rfl⟩, ?_⟩
          · simp [getElem?_setRedefined, hr]
          · intro u hu
            simp only at hu
            rw [hr] at hu
            cases hu
            exact hflags
      · exact step_refl c
    · exact step_refl c
  · exact step_refl c

theorem step_declareName (id : Ident) (c : State) (hid : id.name ≠ "_") :
    Step [id] c (declareName id c) := by
  unfold Revive.declareName
  rw [if_neg hid]
  refine ⟨by simp, ?_, ⟨[], by simp⟩⟩
  intro i x hx
  have hlt : i < c.heap.length := (List.getElem?_eq_some.mp hx).1
  exact ⟨x, by simp [List.getElem?_append_left hlt, hx], rfl, fun h => h, fun h => h⟩

/-- The relation `Step` contains every step of the walker. -/
theorem walkRel_step : WalkRel Step where
  refl := step_refl
  trans := fun _ _ _ _ _ h1 h2 => step_comp h1 h2
  scope := fun _ _ _ h => step_restore h
  mark := step_markName
  check := step_checkRedundant
  declare := fun id c h => step_declareName id c h


/-! ## Names: the scope mapping and the failure texts -/

theorem scopeOk_of_step {ds : List Ident} {c d : State} (h : Step ds c d)
    (hv : d.vars = c.vars) (hc : ScopeOk c) : ScopeOk d := by
  intro n r hn
  rw [hv] at hn
  obtain ⟨x, hx, hxn⟩ := hc n r hn
  obtain ⟨y, hy, hyn, -, -⟩ := h.keeps r x hx
  exact ⟨y, hy, by rw [hyn, hxn]⟩

theorem textOk_of_step {ds : List Ident} {c d : State} (h : Step ds c d)
    (hf : d.failures = c.failures) (hc : TextOk c) : TextOk d := by
  intro f hfm
  rw [hf] at hfm
  obtain ⟨x, hx, hxn⟩ := hc f hfm
  obtain ⟨y, hy, hyn, -, -⟩ := h.keeps _ x hx
  exact ⟨y, hy, by rw [hyn, hxn]⟩

theorem markName_vars (n : String) (c : State) : (markName n c).vars = c.vars := by
  unfold markName; split <;> rfl

theorem markName_failures (n : String) (c : State) : (markName n c).failures = c.failures := by
  unfold markName; split <;> rfl

theorem checkRedundant_vars (n : String) (c : State) : (checkRedundant n c).vars = c.vars := by
  unfold checkRedundant
  split
  · split
    · split <;> rfl
    · rfl
  · rfl

theorem declareName_failures (id : Ident) (c : State) :
    (declareName id c).failures = c.failures := by
  unfold declareName; split <;> rfl

theorem textOk_checkRedundant (n : String) (c : State) (hs : ScopeOk c) (ht : TextOk c) :
    TextOk (checkRedundant n c) := by
  have hstep := step_checkRedundant n c
  intro f hf
  have key : f ∈ c.failures ∨
      ∃ r x, c.vars n = some r ∧ c.heap[r]? = some x ∧ f.node = r ∧ f.failure = message n := by
    unfold Revive.checkRedundant at hf
    split at hf
    · rename_i r hv
      split at hf
      · rename_i x hr
        split at hf
        · simp only [List.mem_append, List.mem_singleton] at hf
          rcases hf with hf | hf
          · exact Or.inl hf
          · exact Or.inr ⟨r, x, hv, hr, by rw [hf], by rw [hf]⟩
        · exact Or.inl hf
      · exact Or.inl hf
    · exact Or.inl hf
  rcases key with hold | ⟨r, x, hv, hr, hfn, hft⟩
  · obtain ⟨x, hx, hxn⟩ := ht f hold
    obtain ⟨y, hy, hyn, -, -⟩ := hstep.keeps _ x hx
    exact ⟨y, hy, by rw [hyn, hxn]⟩
  · obtain ⟨x', hx', hxn⟩ := hs n r hv
    obtain ⟨y, hy, hyn, -, -⟩ := hstep.keeps _ x' hx'
    exact ⟨y, by rw [hfn]; exact hy, by rw [hft, hyn, hxn]⟩

theorem scopeOk_declareName (id : Ident) (c : State) (hid : id.name ≠ "_") (hs : ScopeOk c) :
    ScopeOk (declareName id c) := by
  have hstep := step_declareName id c hid
  unfold Revive.declareName at hstep ⊢
  rw [if_neg hid] at hstep ⊢
  intro n r hn
  simp only at hn
  by_cases hnn : n = id.name
  · rw [if_pos hnn] at hn
    cases hn
    exact ⟨{ node := id, pos := id.pos, used := false, redefined := false }, by simp,
      hnn.symm⟩
  · rw [if_neg hnn] at hn
    obtain ⟨x, hx, hxn⟩ := hs n r hn
    obtain ⟨y, hy, hyn, -, -⟩ := hstep.keeps r x hx
    exact ⟨y, hy, by rw [hyn, hxn]⟩

/-- The relation `NamedStep` contains every step of the walker. -/
theorem walkRel_namedStep : WalkRel NamedStep where
  refl := fun c => ⟨step_refl c, fun hs ht => ⟨hs, ht⟩⟩
  trans := fun _ _ _ _ _ h1 h2 =>
    ⟨step_comp h1.1 h2.1, fun hs ht => h2.2 (h1.2 hs ht).1 (h1.2 hs ht).2⟩
  scope := fun _ _ _ h =>
    ⟨step_restore h.1, fun hs ht =>
      ⟨scopeOk_of_step (step_restore h.1) rfl hs, fun f hf => (h.2 hs ht).2 f hf⟩⟩
  mark := fun n c =>
    ⟨step_markName n c, fun hs ht =>
      ⟨scopeOk_of_step (step_markName n c) (markName_vars n c) hs,
        textOk_of_step (step_markName n c) (markName_failures n c) ht⟩⟩
  check := fun n c =>
    ⟨step_checkRedundant n c, fun hs ht =>
      ⟨scopeOk_of_step (step_checkRedundant n c) (checkRedundant_vars n c) hs,
        textOk_checkRedundant n c hs ht⟩⟩
  declare := fun id c hid =>
    ⟨step_declareName id c hid, fun hs ht =>
      ⟨scopeOk_declareName id c hid hs,
        textOk_of_step (step_declareName id c hid) (declareName_failures id c) ht⟩⟩

/-- The empty state `analyzeFunc` starts from. -/
theorem scopeOk_empty : ScopeOk { vars := fun _ => none, heap := [], failures := [] } := by
  intro n r h
  cases h

theorem textOk_empty : TextOk { vars := fun _ => none, heap := [], failures := [] } := by
  intro f h
  cases h


/-! ## The nodes met by the inspection -/

theorem Closed.nil : Closed [] := by
  intro op x h
  cases h

theorem Closed.append {l₁ l₂ : List Node} (h₁ : Closed l₁) (h₂ : Closed l₂) :
    Closed (l₁ ++ l₂) := by
  intro op x h n hn
  rcases List.mem_append.mp h with h | h
  · exact List.mem_append_left _ (h₁ op x h n hn)
  · exact List.mem_append_right _ (h₂ op x h n hn)

theorem Closed.idents (ids : List Ident) : Closed (ids.map Node.ident) := by
  intro op x h
  obtain ⟨i, -, hi⟩ := List.mem_map.mp h
  cases hi

theorem Closed.cons_ident (id : Ident) {l : List Node} (h : Closed l) :
    Closed (Node.ident id :: l) :=
  Closed.append (Closed.idents [id]) h

theorem Closed.unary (op : Token) (x : Expr) (h : Closed x.inspect) :
    Closed (Node.unaryExpr op x :: x.inspect) := by
  intro op' x' hmem n hn
  rcases List.mem_cons.mp hmem with heq | hmem
  · cases heq
    exact List.mem_cons_of_mem _ hn
  · exact List.mem_cons_of_mem _ (h op' x' hmem n hn)

mutual
theorem closed_inspect : ∀ e : Expr, Closed e.inspect
  | .badExpr => Closed.nil
  | .ident id => Closed.idents [id]
  | .ellipsis elt => closed_inspectExprOpt elt
  | .basicLit _ => Closed.nil
  | .funcLit type body => Closed.append (closed_inspect type) (closed_inspectStmts body)
  | .compositeLit type elts =>
      Closed.append (closed_inspectExprOpt type) (closed_inspectExprs elts)
  | .parenExpr x => closed_inspect x
  | .selectorExpr x sel => Closed.append (closed_inspect x) (Closed.idents [sel])
  | .indexExpr x index => Closed.append (closed_inspect x) (closed_inspect index)
  | .indexListExpr x indices => Closed.append (closed_inspect x) (closed_inspectExprs indices)
  | .sliceExpr x low high max =>
      Closed.append (Closed.append (Closed.append (closed_inspect x) (closed_inspectExprOpt low))
        (closed_inspectExprOpt high)) (closed_inspectExprOpt max)
  | .typeAssertExpr x type => Closed.append (closed_inspect x) (closed_inspectExprOpt type)
  | .callExpr fn args => Closed.append (closed_inspect fn) (closed_inspectExprs args)
  | .starExpr x => closed_inspect x
  | .unaryExpr op x => Closed.unary op x (closed_inspect x)
  | .binaryExpr x _ y => Closed.append (closed_inspect x) (closed_inspect y)
  | .keyValueExpr key value => Closed.append (closed_inspect key) (closed_inspect value)
  | .arrayType len elt => Closed.append (closed_inspectExprOpt len) (closed_inspect elt)
  | .structType fields => closed_inspectFields fields
  | .funcType typeParams params results =>
      Closed.append (Closed.append (closed_inspectFields typeParams) (closed_inspectFields params))
        (closed_inspectFields results)
  | .interfaceType methods => closed_inspectFields methods
  | .mapType key value => Closed.append (closed_inspect key) (closed_inspect value)
  | .chanType value => closed_inspect value
theorem closed_inspectExprOpt : ∀ e : Option Expr, Closed (inspectExprOpt e)
  | none => Closed.nil
  | some e => closed_inspect e
theorem closed_inspectExprs : ∀ es : List Expr, Closed (inspectExprs es)
  | [] => Closed.nil
  | e :: es => Closed.append (closed_inspect e) (closed_inspectExprs es)
theorem closed_inspectField : ∀ f : Field, Closed f.inspect
  | .mk names type => Closed.append (Closed.idents names) (closed_inspectExprOpt type)
theorem closed_inspectFields : ∀ fs : List Field, Closed (inspectFields fs)
  | [] => Closed.nil
  | f :: fs => Closed.append (closed_inspectField f) (closed_inspectFields fs)
theorem closed_inspectSpec : ∀ s : Spec, Closed s.inspect
  | .importSpec name _ => Closed.idents name.toList
  | .valueSpec names type values =>
      Closed.append (Closed.append (Closed.idents names) (closed_inspectExprOpt type))
        (closed_inspectExprs values)
  | .typeSpec name typeParams type =>
      Closed.cons_ident name (Closed.append (closed_inspectFields typeParams) (closed_inspect type))
theorem closed_inspectSpecs : ∀ ss : List Spec, Closed (inspectSpecs ss)
  | [] => Closed.nil
  | s :: ss => Closed.append (closed_inspectSpec s) (closed_inspectSpecs ss)
theorem closed_inspectDecl : ∀ d : Decl, Closed d.inspect
  | .badDecl => Closed.nil
  | .genDecl _ specs => closed_inspectSpecs specs
theorem closed_inspectStmt : ∀ s : Stmt, Closed s.inspect
  | .badStmt => Closed.nil
  | .declStmt decl => closed_inspectDecl decl
  | .emptyStmt => Closed.nil
  | .labeledStmt label stmt => Closed.cons_ident label (closed_inspectStmt stmt)
  | .exprStmt x => closed_inspect x
  | .sendStmt chan value => Closed.append (closed_inspect chan) (closed_inspect value)
  | .incDecStmt x _ => closed_inspect x
  | .assignStmt lhs _ rhs => Closed.append (closed_inspectExprs lhs) (closed_inspectExprs rhs)
  | .goStmt fn args => Closed.append (closed_inspect fn) (closed_inspectExprs args)
  | .deferStmt fn args => Closed.append (closed_inspect fn) (closed_inspectExprs args)
  | .returnStmt results => closed_inspectExprs results
  | .branchStmt _ label => Closed.idents label.toList
  | .blockStmt list => closed_inspectStmts list
  | .ifStmt init cond body els =>
      Closed.append (Closed.append (Closed.append (closed_inspectStmtOpt init)
        (closed_inspectExprOpt cond)) (closed_inspectStmts body)) (closed_inspectStmtOpt els)
  | .caseClause list body => Closed.append (closed_inspectExprs list) (closed_inspectStmts body)
  | .switchStmt init tag body =>
      Closed.append (Closed.append (closed_inspectStmtOpt init) (closed_inspectExprOpt tag))
        (closed_inspectStmts body)
  | .typeSwitchStmt init assign body =>
      Closed.append (Closed.append (closed_inspectStmtOpt init) (closed_inspectStmtOpt assign))
        (closed_inspectStmts body)
  | .commClause comm body => Closed.append (closed_inspectStmtOpt comm) (closed_inspectStmts body)
  | .selectStmt body => closed_inspectStmts body
  | .forStmt init cond post body =>
      Closed.append (Closed.append (Closed.append (closed_inspectStmtOpt init)
        (closed_inspectExprOpt cond)) (closed_inspectStmtOpt post)) (closed_inspectStmts body)
  | .rangeStmt key value _ x body =>
      Closed.append (Closed.append (Closed.append (closed_inspectExprOpt key)
        (closed_inspectExprOpt value)) (closed_inspectExprOpt x)) (closed_inspectStmts body)
theorem closed_inspectStmtOpt : ∀ s : Option Stmt, Closed (inspectStmtOpt s)
  | none => Closed.nil
  | some s => closed_inspectStmt s
theorem closed_inspectStmts : ∀ ss : List Stmt, Closed (inspectStmts ss)
  | [] => Closed.nil
  | s :: ss => Closed.append (closed_inspectStmt s) (closed_inspectStmts ss)
end


/-! ## Marking expressions used -/

theorem mem_identNames {v : String} {exprs : List Expr} :
    v ∈ identNames exprs ↔ ∃ id : Ident, Node.ident id ∈ inspectExprs exprs ∧ id.name = v := by
  unfold identNames
  rw [List.mem_filterMap]
  constructor
  · rintro ⟨n, hn, hv⟩
    cases n with
    | ident id =>
      simp only [Node.identName, Option.some.injEq] at hv
      exact ⟨id, hn, hv⟩
    | unaryExpr op x => simp [Node.identName] at hv
  · rintro ⟨id, hn, hv⟩
    exact ⟨Node.ident id, hn, by simp [Node.identName, hv]⟩

theorem identNames_cons (e : Expr) (es : List Expr) :
    identNames (e :: es) = identNames [e] ++ identNames es := by
  simp [identNames, inspectExprs, List.filterMap_append]

theorem markUsedInExpr_eq_foldl (exprs : List Expr) (c : State) :
    markUsedInExpr exprs c = (inspectExprs exprs).foldl (fun c n => visit n c) c := by
  unfold markUsedInExpr
  induction exprs generalizing c with
  | nil => rfl
  | cons e es ih => simp only [List.foldl_cons, inspectExprs, List.foldl_append, ih]

theorem visit_vars (n : Node) (c : State) : (visit n c).vars = c.vars := by
  cases n with
  | ident id => exact markName_vars _ c
  | unaryExpr op x =>
    simp only [visit]
    split
    · split
      · exact markName_vars _ c
      · rfl
    · rfl

theorem visit_failures (n : Node) (c : State) : (visit n c).failures = c.failures := by
  cases n with
  | ident id => exact markName_failures _ c
  | unaryExpr op x =>
    simp only [visit]
    split
    · split
      · exact markName_failures _ c
      · rfl
    · rfl

theorem foldl_visit_vars (l : List Node) (c : State) :
    (l.foldl (fun c n => visit n c) c).vars = c.vars := by
  induction l generalizing c with
  | nil => rfl
  | cons n l ih => rw [List.foldl_cons, ih, visit_vars]

theorem foldl_visit_failures (l : List Node) (c : State) :
    (l.foldl (fun c n => visit n c) c).failures = c.failures := by
  induction l generalizing c with
  | nil => rfl
  | cons n l ih => rw [List.foldl_cons, ih, visit_failures]

theorem markUsedInExpr_vars (exprs : List Expr) (c : State) :
    (markUsedInExpr exprs c).vars = c.vars := by
  rw [markUsedInExpr_eq_foldl, foldl_visit_vars]

theorem markUsedInExpr_failures (exprs : List Expr) (c : State) :
    (markUsedInExpr exprs c).failures = c.failures := by
  rw [markUsedInExpr_eq_foldl, foldl_visit_failures]

theorem step_foldl_visit (l : List Node) (c : State) :
    Step [] c (l.foldl (fun c n => visit n c) c) :=
  walkRel_step.foldl _ (fun c n => walkRel_step.on_visit n c) l c

theorem markName_unbound {n : String} {c : State} (h : c.vars n = none) : markName n c = c := by
  unfold markName
  rw [h]

/-- Marking expressions none of whose identifiers has a record in the scope changes
nothing. -/
theorem markUsedInExpr_unbound (exprs : List Expr) (c : State)
    (h : ∀ n ∈ identNames exprs, c.vars n = none) : markUsedInExpr exprs c = c := by
  rw [markUsedInExpr_eq_foldl]
  have hclosed := closed_inspectExprs exprs
  have hid : ∀ id : Ident, Node.ident id ∈ inspectExprs exprs → c.vars id.name = none :=
    fun id hmem => h _ (mem_identNames.mpr ⟨id, hmem, rfl⟩)
  have key : ∀ l : List Node, (∀ n ∈ l, n ∈ inspectExprs exprs) →
      l.foldl (fun c n => visit n c) c = c := by
    intro l
    induction l with
    | nil => intro _; rfl
    | cons n l ih =>
      intro hsub
      have hn : visit n c = c := by
        cases n with
        | ident id => exact markName_unbound (hid id (hsub _ (List.mem_cons_self _ _)))
        | unaryExpr op x =>
          simp only [visit]
          split
          · split
            · rename_i id
              apply markName_unbound
              apply hid
              exact hclosed op _ (hsub _ (List.mem_cons_self _ _)) _ (by simp [Expr.inspect])
            · rfl
          · rfl
      rw [List.foldl_cons, hn]
      exact ih (fun m hm => hsub m (List.mem_cons_of_mem _ hm))
  exact key _ (fun n hn => hn)

/-- Marking expressions that hold an identifier whose name the scope maps to a record on
the heap marks that record used. -/
theorem markUsedInExpr_used (exprs : List Expr) (c : State) (v : String) (r : Nat)
    (hv : v ∈ identNames exprs) (hr : c.vars v = some r) (hx : ∃ x, c.heap[r]? = some x) :
    ∃ y, (markUsedInExpr exprs c).heap[r]? = some y ∧ y.used = true := by
  rw [markUsedInExpr_eq_foldl]
  obtain ⟨id, hmem, hname⟩ := mem_identNames.mp hv
  obtain ⟨s, t, hst⟩ := List.append_of_mem hmem
  rw [hst, List.foldl_append, List.foldl_cons]
  obtain ⟨x, hx⟩ := hx
  obtain ⟨y, hy, -, -, -⟩ := (step_foldl_visit s c).keeps r x hx
  have hvars : (s.foldl (fun c n => visit n c) c).vars v = some r := by
    rw [foldl_visit_vars]; exact hr
  generalize s.foldl (fun c n => visit n c) c = c1 at hy hvars ⊢
  have hmark : ∃ z, (visit (Node.ident id) c1).heap[r]? = some z ∧ z.used = true := by
    have hvis : visit (Node.ident id) c1 = { c1 with heap := setUsed r c1.heap } := by
      simp only [visit, markName, hname, hvars]
    rw [hvis]
    refine ⟨{ y with used := true }, ?_, rfl⟩
    simp only [getElem?_setUsed, hy]
    simp
  obtain ⟨z, hz, hzu⟩ := hmark
  obtain ⟨w, hw, -, hwu, -⟩ := (step_foldl_visit t _).keeps r z hz
  exact ⟨w, hw, hwu hzu⟩


/-! ## The report step -/

theorem checkRedundant_settled {c : State} (h : Settled c) (n : String) :
    checkRedundant n c = c := by
  unfold checkRedundant
  split
  · rename_i r hv
    split
    · rename_i x hr
      have := h n r x hv hr
      rw [if_neg]
      rcases this with hu | hd
      · simp [hu]
      · simp [hd]
    · rfl
  · rfl

theorem checkDefineExpr_settled {c : State} (h : Settled c) (ti : TypesInfo) (e : Expr) :
    checkDefineExpr ti e c = c := by
  unfold checkDefineExpr
  split
  · split
    · split
      · rfl
      · exact checkRedundant_settled h _
    · rfl
  · rfl

theorem checkDefine_settled {c : State} (h : Settled c) (ti : TypesInfo) (lhs : List Expr) :
    checkDefine ti lhs c = c := by
  unfold checkDefine
  induction lhs with
  | nil => rfl
  | cons e lhs ih => rw [List.foldl_cons, checkDefineExpr_settled h, ih]

theorem checkDefine_cons (ti : TypesInfo) (e : Expr) (lhs : List Expr) (c : State) :
    checkDefine ti (e :: lhs) c = checkDefine ti lhs (checkDefineExpr ti e c) := rfl

theorem checkRedundant_unbound {n : String} {c : State} (h : c.vars n = none) :
    checkRedundant n c = c := by
  unfold checkRedundant
  rw [h]

/-- The `:=` loop in the scope of a single unused, unreported record of `v`: when one of
the left-hand sides is an identifier named like `v` that does not define a new object, the
record is reported exactly once. -/
theorem checkDefine_single (ti : TypesInfo) (v : Ident) (hv : v.name ≠ "_")
    (fs : List Failure) :
    ∀ lhs : List Expr,
      (∃ id : Ident, Expr.ident id ∈ lhs ∧ id.name = v.name ∧ definesNew ti id = false) →
      checkDefine ti lhs
        { vars := fun n => if n = v.name then some 0 else none
          heap := [{ node := v, pos := v.pos, used := false, redefined := false }]
          failures := fs } =
        { vars := fun n => if n = v.name then some 0 else none
          heap := [{ node := v, pos := v.pos, used := false, redefined := true }]
          failures := fs ++
            [{ confidence := 1, node := 0, failure := message v.name, position := v.pos }] }
  | [], h => by
    obtain ⟨id, hmem, -⟩ := h
    cases hmem
  | e :: lhs, h => by
    rw [checkDefine_cons]
    obtain ⟨id, hmem, hname, hnew⟩ := h
    have htail : (e = Expr.ident id → False) →
        ∃ id : Ident, Expr.ident id ∈ lhs ∧ id.name = v.name ∧ definesNew ti id = false := by
      intro hne
      rcases List.mem_cons.mp hmem with heq | hmem
      · exact absurd heq.symm hne
      · exact ⟨id, hmem, hname, hnew⟩
    by_cases hrep : ∃ i : Ident, e = Expr.ident i ∧ i.name = v.name ∧ definesNew ti i = false
    · obtain ⟨i, rfl, hi, hinew⟩ := hrep
      have hstep : checkDefineExpr ti (Expr.ident i)
          { vars := fun n => if n = v.name then some 0 else none
            heap := [{ node := v, pos := v.pos, used := false, redefined := false }]
            failures := fs } =
          { vars := fun n => if n = v.name then some 0 else none
            heap := [{ node := v, pos := v.pos, used := false, redefined := true }]
            failures := fs ++
              [{ confidence := 1, node := 0, failure := message v.name, position := v.pos }] } := by
        simp [checkDefineExpr, hi, hv, hinew, checkRedundant, setRedefined]
      rw [hstep]
      apply checkDefine_settled
      intro n r x hn hx
      simp only at hn hx
      split at hn
      · cases hn
        simp at hx
        subst hx
        exact Or.inr rfl
      · cases hn
    · have hstep : checkDefineExpr ti e
          { vars := fun n => if n = v.name then some 0 else none
            heap := [{ node := v, pos := v.pos, used := false, redefined := false }]
            failures := fs } =
          { vars := fun n => if n = v.name then some 0 else none
            heap := [{ node := v, pos := v.pos, used := false, redefined := false }]
            failures := fs } := by
        unfold checkDefineExpr
        split
        · rename_i i
          split
          · split
            · rfl
            · rename_i hnew'
              apply checkRedundant_unbound
              simp only
              rw [if_neg]
              intro hi
              exact hrep ⟨i, rfl, hi, by simpa using hnew'⟩
          · rfl
        · rfl
      rw [hstep]
      apply checkDefine_single ti v hv fs lhs
      apply htail
      intro heq
      exact hrep ⟨id, heq, hname, hnew⟩

/-- C1: for every name `v` other than the blank identifier, a function body made of a
single-name declaration `var v T` (with or without an initializer), immediately followed
by a `:=` statement whose left-hand side has an identifier named like `v` for which the
type information does not answer that it defines a new object, and whose right-hand side
holds no identifier named like `v`, yields exactly one failure; it reports the record of
the declaration at the position of the name `v` in the declaration. -/
theorem redundant_decl_reported (ti : TypesInfo) (v : Ident) (type : Option Expr)
    (values lhs rhs : List Expr) (id : Ident)
    (hv : v.name ≠ "_")
    (hlhs : Expr.ident id ∈ lhs) (hname : id.name = v.name) (hnew : definesNew ti id = false)
    (hrhs : v.name ∉ identNames rhs) :
    analyzeFunc ti
        [Stmt.declStmt (Decl.genDecl Token.VAR [Spec.valueSpec [v] type values]),
          Stmt.assignStmt lhs Token.DEFINE rhs] =
      [{ confidence := 1, node := 0, failure := message v.name, position := v.pos }] := by
  have hmark : markUsedInExpr rhs
      { vars := fun n => if n = v.name then some 0 else none
        heap := [{ node := v, pos := v.pos, used := false, redefined := false }]
        failures := [] } =
      { vars := fun n => if n = v.name then some 0 else none
        heap := [{ node := v, pos := v.pos, used := false, redefined := false }]
        failures := [] } := by
    apply markUsedInExpr_unbound
    intro n hn
    simp only
    rw [if_neg]
    intro h
    exact hrhs (h ▸ hn)
  simp only [analyzeFunc, analyzeBlock, processStatements, processStatement, declareDecl,
    declareSpec, declareName, hv, List.foldl, List.length_singleton, List.length_nil,
    if_true, if_false, List.nil_append, gt_iff_lt, lt_self_iff_false]
  rw [hmark, checkDefine_single ti v hv [] lhs ⟨id, hlhs, hname, hnew⟩]
  rfl

/-- C1 at `var err error; result, err := f()` without type information. -/
theorem redundant_decl_reported_witness :
    analyzeFunc none
        [Stmt.declStmt (Decl.genDecl Token.VAR
            [Spec.valueSpec [⟨"err", 10⟩] (some (Expr.ident ⟨"error", 14⟩)) []]),
          Stmt.assignStmt [Expr.ident ⟨"result", 20⟩, Expr.ident ⟨"err", 28⟩] Token.DEFINE
            [Expr.callExpr (Expr.ident ⟨"f", 35⟩) []]] =
      [{ confidence := 1, node := 0, failure := message "err", position := 10 }] :=
  redundant_decl_reported none ⟨"err", 10⟩ (some (Expr.ident ⟨"error", 14⟩)) []
    [Expr.ident ⟨"result", 20⟩, Expr.ident ⟨"err", 28⟩]
    [Expr.callExpr (Expr.ident ⟨"f", 35⟩) []] ⟨"err", 28⟩
    (by decide) (by simp) rfl rfl (by decide)


/-! ## Used records are never reported -/

theorem step_processStatement (ti : TypesInfo) (s : Stmt) (c : State) :
    Step s.declared c (processStatement ti s c) :=
  walkRel_step.on_processStatement ti s c

theorem step_processStatements (ti : TypesInfo) (l : List Stmt) (c : State) :
    Step (declaredStmts l) c (processStatements ti l c) :=
  walkRel_step.on_processStatements ti l c

theorem step_analyzeBlock (ti : TypesInfo) (l : List Stmt) (c : State) :
    Step (declaredStmts l) c (analyzeBlock ti l c) :=
  walkRel_step.on_analyzeBlock ti l c

theorem usedAt_iff {c : State} {r : Nat} :
    usedAt c r = true ↔ ∃ x, c.heap[r]? = some x ∧ x.used = true := by
  unfold usedAt
  cases c.heap[r]? with
  | none => simp
  | some x => simp

theorem Step.usedAt {ds : List Ident} {c d : State} (h : Step ds c d) {r : Nat}
    (hr : usedAt c r = true) : usedAt d r = true := by
  obtain ⟨x, hx, hxu⟩ := usedAt_iff.mp hr
  obtain ⟨y, hy, -, hyu, -⟩ := h.keeps r x hx
  exact usedAt_iff.mpr ⟨y, hy, hyu hxu⟩

theorem Step.live {ds : List Ident} {c d : State} (h : Step ds c d) {r : Nat}
    (hr : ∃ x, c.heap[r]? = some x) : ∃ y, d.heap[r]? = some y := by
  obtain ⟨x, hx⟩ := hr
  obtain ⟨y, hy, -⟩ := h.keeps r x hx
  exact ⟨y, hy⟩

/-- A step from a state in which a record is used or redefined appends no failure that
reports this record. -/
theorem Step.silent {ds : List Ident} {c d : State} (h : Step ds c d) {r : Nat} {x : varDecl}
    (hx : c.heap[r]? = some x) (hflag : x.used = true ∨ x.redefined = true) :
    ∃ new, d.failures = c.failures ++ new ∧ ∀ f ∈ new, f.node ≠ r := by
  obtain ⟨new, hnew, -, hall⟩ := h.appended
  refine ⟨new, hnew, ?_⟩
  intro f hf hnode
  obtain ⟨-, -, hpre⟩ := hall f hf
  rw [hnode] at hpre
  obtain ⟨hu, hd⟩ := hpre x hx
  rcases hflag with h1 | h1
  · rw [hu] at h1; exact Bool.noConfusion h1
  · rw [hd] at h1; exact Bool.noConfusion h1

theorem markUsedInExpr_usedAt (exprs : List Expr) (c : State) (v : String) (r : Nat)
    (hv : v ∈ identNames exprs) (hr : c.vars v = some r) (hx : ∃ x, c.heap[r]? = some x) :
    usedAt (markUsedInExpr exprs c) r = true :=
  usedAt_iff.mpr (markUsedInExpr_used exprs c v r hv hr hx)

theorem checkRedundantExpr_vars (e : Option Expr) (c : State) :
    (checkRedundantExpr e c).vars = c.vars := by
  unfold checkRedundantExpr
  split
  · split
    · exact checkRedundant_vars _ c
    · rfl
  · rfl

theorem checkDefineExpr_vars (ti : TypesInfo) (e : Expr) (c : State) :
    (checkDefineExpr ti e c).vars = c.vars := by
  unfold checkDefineExpr
  split
  · split
    · split
      · rfl
      · exact checkRedundant_vars _ c
    · rfl
  · rfl

theorem checkDefine_vars (ti : TypesInfo) (lhs : List Expr) (c : State) :
    (checkDefine ti lhs c).vars = c.vars := by
  unfold checkDefine
  induction lhs generalizing c with
  | nil => rfl
  | cons e lhs ih => rw [List.foldl_cons, ih, checkDefineExpr_vars]

theorem markAssignedExpr_vars (e : Expr) (c : State) :
    (markAssignedExpr e c).vars = c.vars := by
  unfold markAssignedExpr
  split
  · exact markName_vars _ c
  · rfl

theorem markAssigned_vars (lhs : List Expr) (c : State) :
    (markAssigned lhs c).vars = c.vars := by
  unfold markAssigned
  induction lhs generalizing c with
  | nil => rfl
  | cons e lhs ih => rw [List.foldl_cons, ih, markAssignedExpr_vars]

/-- A simple statement leaves the scope mapping as it is. -/
theorem processStatement_simple_vars (ti : TypesInfo) (s : Stmt) (c : State)
    (hs : s.isSimple = true) : (processStatement ti s c).vars = c.vars := by
  cases s <;> simp only [Stmt.isSimple, Bool.false_eq_true] at hs
  case exprStmt x => exact markUsedInExpr_vars _ c
  case sendStmt ch value => exact markUsedInExpr_vars _ c
  case incDecStmt x tok => exact markUsedInExpr_vars _ c
  case emptyStmt => rfl
  case assignStmt lhs tok rhs =>
    simp only [processStatement]
    split
    · rw [checkDefine_vars, markUsedInExpr_vars]
    · split
      · rw [markAssigned_vars, markUsedInExpr_vars]
      · rw [markUsedInExpr_vars]

theorem processStatementOpt_simple_vars (ti : TypesInfo) (s : Option Stmt) (c : State)
    (hs : simpleOpt s = true) : (processStatementOpt ti s c).vars = c.vars := by
  cases s with
  | none => rfl
  | some s => exact processStatement_simple_vars ti s c hs

theorem step_processStatementOpt (ti : TypesInfo) (s : Option Stmt) (c : State) :
    Step (declaredStmtOpt s) c (processStatementOpt ti s c) :=
  walkRel_step.on_processStatementOpt ti s c

/-- After an absent or simple init part, a condition that holds an identifier named `v`
marks the record of `v` used. -/
theorem init_cond_usedAt (ti : TypesInfo) (init : Option Stmt) (cond : Expr) (c : State)
    (v : String) (r : Nat) (hinit : simpleOpt init = true) (hv : v ∈ identNames [cond])
    (hr : c.vars v = some r) (hx : ∃ x, c.heap[r]? = some x) :
    usedAt (markUsedInExprOpt (some cond) (processStatementOpt ti init c)) r = true := by
  apply markUsedInExpr_usedAt [cond] _ v r hv
  · rw [processStatementOpt_simple_vars ti init c hinit]; exact hr
  · exact (step_processStatementOpt ti init c).live hx


theorem mem_identNames_cons {v : String} {e : Expr} {es : List Expr}
    (h : v ∈ identNames (e :: es)) : v ∈ identNames [e] ∨ v ∈ identNames es := by
  rw [identNames_cons] at h
  exact List.mem_append.mp h

theorem markUsedInCallExpr_usedAt (fn : Expr) (args : List Expr) (c : State) (v : String)
    (r : Nat) (hv : v ∈ identNames (fn :: args)) (hr : c.vars v = some r)
    (hx : ∃ x, c.heap[r]? = some x) : usedAt (markUsedInCallExpr fn args c) r = true := by
  unfold markUsedInCallExpr
  rcases mem_identNames_cons hv with h | h
  · exact (walkRel_step.on_markUsedInExpr args _).usedAt (markUsedInExpr_usedAt [fn] c v r h hr hx)
  · apply markUsedInExpr_usedAt args _ v r h
    · rw [markUsedInExpr_vars]; exact hr
    · exact (walkRel_step.on_markUsedInExpr [fn] c).live hx

theorem analyzeBlock_failures (ti : TypesInfo) (l : List Stmt) (c : State) :
    (analyzeBlock ti l c).failures = (processStatements ti l c).failures := by
  cases l <;> rfl

theorem analyzeFunc_eq (ti : TypesInfo) (body : List Stmt) :
    analyzeFunc ti body =
      (processStatements ti body { vars := fun _ => none, heap := [], failures := [] }).failures :=
  analyzeBlock_failures ti body _

/-- A statement of one of the kinds of `readsName` that holds an identifier named `v`,
processed in a scope that maps `v` to a record on the heap, marks that record used. -/
theorem readsName_usedAt (ti : TypesInfo) (s : Stmt) (c : State) (v : String)
    (r : Nat) (hr : c.vars v = some r) (hx : ∃ x, c.heap[r]? = some x)
    (hs : readsName v s = true) : usedAt (processStatement ti s c) r = true := by
  cases s with
  | exprStmt x =>
    exact markUsedInExpr_usedAt [x] c v r (by simpa [readsName] using hs) hr hx
  | returnStmt results =>
    exact markUsedInExpr_usedAt results c v r (by simpa [readsName] using hs) hr hx
  | deferStmt fn args =>
    exact markUsedInCallExpr_usedAt fn args c v r (by simpa [readsName] using hs) hr hx
  | goStmt fn args =>
    exact markUsedInCallExpr_usedAt fn args c v r (by simpa [readsName] using hs) hr hx
  | sendStmt ch value =>
    exact markUsedInExpr_usedAt [ch, value] c v r (by simpa [readsName] using hs) hr hx
  | incDecStmt x tok =>
    exact markUsedInExpr_usedAt [x] c v r (by simpa [readsName] using hs) hr hx
  | assignStmt lhs tok rhs =>
    have h1 := markUsedInExpr_usedAt rhs c v r (by simpa [readsName] using hs) hr hx
    simp only [processStatement]
    split
    · exact (walkRel_step.on_checkDefine ti lhs _).usedAt h1
    · split
      · exact (walkRel_step.on_markAssigned lhs _).usedAt h1
      · exact h1
  | ifStmt init cond body els =>
    cases cond with
    | none => simp [readsName] at hs
    | some cond =>
      simp only [readsName, Bool.and_eq_true, decide_eq_true_eq] at hs
      have h1 := init_cond_usedAt ti init cond c v r hs.1 hs.2 hr hx
      simp only [processStatement]
      exact (step_processStatementOpt ti els _).usedAt ((step_analyzeBlock ti body _).usedAt h1)
  | forStmt init cond post body =>
    cases cond with
    | none => simp [readsName] at hs
    | some cond =>
      simp only [readsName, Bool.and_eq_true, decide_eq_true_eq] at hs
      have h1 := init_cond_usedAt ti init cond c v r hs.1 hs.2 hr hx
      simp only [processStatement]
      exact (step_analyzeBlock ti body _).usedAt ((step_processStatementOpt ti post _).usedAt h1)
  | switchStmt init tag body =>
    cases tag with
    | none => simp [readsName] at hs
    | some tag =>
      simp only [readsName, Bool.and_eq_true, decide_eq_true_eq] at hs
      have h1 := init_cond_usedAt ti init tag c v r hs.1 hs.2 hr hx
      simp only [processStatement]
      exact (step_analyzeBlock ti body _).usedAt h1
  | rangeStmt key value tok x body =>
    cases x with
    | none => simp [readsName] at hs
    | some x =>
      have h1 : usedAt (markUsedInExprOpt (some x) c) r = true :=
        markUsedInExpr_usedAt [x] c v r (by simpa [readsName] using hs) hr hx
      simp only [processStatement]
      split
      · exact (step_analyzeBlock ti body _).usedAt
          ((walkRel_step.on_checkRedundantInAssignment [key, value] _).usedAt h1)
      · exact (step_analyzeBlock ti body _).usedAt h1
  | _ => simp [readsName] at hs

/-! ## Shadowing in an inner block -/

/-- C3, the code at the failing inputs.  In
`var x int; if true { x := 10; x, z := g() }` the inner `x := 10` defines a new `x` (the
type information says so for it and for `z`), the later `x, z := g()` reuses that inner
`x`, and the failure reports the outer declaration (record 0, position 10).  The same
happens in `var x int; { var x, y int; x, z := g() }`, where the inner declaration
declares two names. -/
theorem shadowed_outer_decl_reported :
    analyzeFunc (some fun id => decide (id.pos = 30 ∨ id.pos = 43))
        [Stmt.declStmt (Decl.genDecl Token.VAR
            [Spec.valueSpec [⟨"x", 10⟩] (some (Expr.ident ⟨"int", 12⟩)) []]),
          Stmt.ifStmt none (some (Expr.ident ⟨"true", 20⟩))
            [Stmt.assignStmt [Expr.ident ⟨"x", 30⟩] Token.DEFINE [Expr.basicLit "10"],
              Stmt.assignStmt [Expr.ident ⟨"x", 40⟩, Expr.ident ⟨"z", 43⟩] Token.DEFINE
                [Expr.callExpr (Expr.ident ⟨"g", 48⟩) []]]
            none] =
        [{ confidence := 1, node := 0, failure := message "x", position := 10 }] ∧
      analyzeFunc (some fun id => decide (id.pos = 43))
        [Stmt.declStmt (Decl.genDecl Token.VAR
            [Spec.valueSpec [⟨"x", 10⟩] (some (Expr.ident ⟨"int", 12⟩)) []]),
          Stmt.blockStmt
            [Stmt.declStmt (Decl.genDecl Token.VAR
                [Spec.valueSpec [⟨"x", 30⟩, ⟨"y", 33⟩] (some (Expr.ident ⟨"int", 35⟩)) []]),
              Stmt.assignStmt [Expr.ident ⟨"x", 40⟩, Expr.ident ⟨"z", 43⟩] Token.DEFINE
                [Expr.callExpr (Expr.ident ⟨"g", 48⟩) []]]] =
        [{ confidence := 1, node := 0, failure := message "x", position := 10 }] := by
  constructor <;> decide

theorem checkRedundant_failures (n : String) (c : State) :
    (checkRedundant n c).failures = c.failures ∨
      ∃ r, c.vars n = some r ∧ ∃ f : Failure, f.node = r ∧
        (checkRedundant n c).failures = c.failures ++ [f] := by
  unfold checkRedundant
  split
  · rename_i r hv
    split
    · split
      · exact Or.inr ⟨r, hv, _, rfl, rfl⟩
      · exact Or.inl rfl
    · exact Or.inl rfl
  · exact Or.inl rfl

/-- The relation `HiddenStep r` contains every step of the walker. -/
theorem walkRel_hiddenStep (r : Nat) : WalkRel (HiddenStep r) where
  refl := fun c => ⟨step_refl c, fun hu _ => ⟨hu, [], by simp⟩⟩
  trans := by
    intro a b x y z h1 h2
    refine ⟨step_comp h1.1 h2.1, ?_⟩
    intro hu hlive
    obtain ⟨hu1, n1, e1, p1⟩ := h1.2 hu hlive
    obtain ⟨hu2, n2, e2, p2⟩ := h2.2 hu1 (h1.1.live hlive)
    refine ⟨hu2, n1 ++ n2, by rw [e2, e1, List.append_assoc], ?_⟩
    intro f hf
    rcases List.mem_append.mp hf with hf | hf
    · exact p1 f hf
    · exact p2 f hf
  scope := by
    intro ds c d h
    refine ⟨step_restore h.1, ?_⟩
    intro hu hlive
    exact ⟨hu, (h.2 hu hlive).2⟩
  mark := by
    intro n c
    refine ⟨step_markName n c, ?_⟩
    intro hu _
    refine ⟨?_, [], by simp [markName_failures]⟩
    intro m
    rw [markName_vars]
    exact hu m
  check := by
    intro n c
    refine ⟨step_checkRedundant n c, ?_⟩
    intro hu _
    refine ⟨?_, ?_⟩
    · intro m
      rw [checkRedundant_vars]
      exact hu m
    · rcases checkRedundant_failures n c with h | ⟨r', hv, f, hf, h⟩
      · exact ⟨[], by simp [h]⟩
      · refine ⟨[f], h, ?_⟩
        intro g hg
        rw [List.mem_singleton] at hg
        subst hg
        intro hgr
        exact hu n (by rw [hv, ← hf, hgr])
  declare := by
    intro id c hid
    refine ⟨step_declareName id c hid, ?_⟩
    intro hu hlive
    refine ⟨?_, [], by simp [declareName_failures]⟩
    intro m hm
    unfold declareName at hm
    rw [if_neg hid] at hm
    simp only at hm
    obtain ⟨x, hx⟩ := hlive
    have hlt : r < c.heap.length := (List.getElem?_eq_some.mp hx).1
    split at hm
    · cases hm
      exact Nat.lt_irrefl _ hlt
    · exact hu m hm

/-- The path that does shadow: when the single-name declaration `var x T` is processed in
a nested block whose scope maps `x` to the record of an outer declaration, the scope of the
nested block maps `x` to a new record from then on, and whatever statements of the nested
block follow (every later `:=` rebind of `x` among them, at any depth), none of the
failures they append reports the outer declaration. -/
theorem inner_var_shadows_outer (ti : TypesInfo) (c : State) (x : Ident) (type : Option Expr)
    (values : List Expr) (r : Nat) (rest : List Stmt)
    (hx : x.name ≠ "_") (hscope : ScopeOk c) (hr : c.vars x.name = some r) :
    (processStatement ti
        (Stmt.declStmt (Decl.genDecl Token.VAR [Spec.valueSpec [x] type values])) c).vars
          x.name = some c.heap.length ∧
      c.heap.length ≠ r ∧
      ∃ new,
        (processStatements ti rest (processStatement ti
          (Stmt.declStmt (Decl.genDecl Token.VAR [Spec.valueSpec [x] type values])) c)).failures =
          (processStatement ti
            (Stmt.declStmt (Decl.genDecl Token.VAR [Spec.valueSpec [x] type values]))
              c).failures ++ new ∧
        ∀ f ∈ new, f.node ≠ r := by
  obtain ⟨y, hy, hyn⟩ := hscope _ _ hr
  have hlt : r < c.heap.length := (List.getElem?_eq_some.mp hy).1
  have hdecl : processStatement ti
      (Stmt.declStmt (Decl.genDecl Token.VAR [Spec.valueSpec [x] type values])) c =
      declareName x c := by
    simp [processStatement, declareDecl, declareSpec]
  rw [hdecl]
  have hvars : (declareName x c).vars =
      fun n => if n = x.name then some c.heap.length else c.vars n := by
    unfold declareName
    rw [if_neg hx]
  refine ⟨by rw [hvars]; simp, fun h => Nat.lt_irrefl _ (h ▸ hlt), ?_⟩
  have hunbound : Unbound r (declareName x c) := by
    intro n hn
    rw [hvars] at hn
    simp only at hn
    split at hn
    · cases hn
      exact Nat.lt_irrefl _ hlt
    · rename_i hne
      obtain ⟨z, hz, hzn⟩ := hscope _ _ hn
      rw [hy] at hz
      cases hz
      exact hne (hzn.symm.trans hyn)
  have hlive : ∃ z, (declareName x c).heap[r]? = some z :=
    (step_declareName x c hx).live ⟨y, hy⟩
  exact ((walkRel_hiddenStep r).on_processStatements ti rest _).2 hunbound hlive |>.2

/-- The shadowing path at the nested block `{ var x int; x, z := g() }` entered in the
scope of an outer, unused `var x int`: the failure reports the inner declaration. -/
theorem inner_var_shadows_outer_witness :
    ScopeOk
        { vars := fun n => if n = "x" then some 0 else none
          heap := [{ node := ⟨"x", 10⟩, pos := 10, used := false, redefined := false }]
          failures := [] } ∧
      (processStatements none
        [Stmt.assignStmt [Expr.ident ⟨"x", 40⟩, Expr.ident ⟨"z", 43⟩] Token.DEFINE
          [Expr.callExpr (Expr.ident ⟨"g", 48⟩) []]]
        (processStatement none
          (Stmt.declStmt (Decl.genDecl Token.VAR [Spec.valueSpec [⟨"x", 30⟩] none []]))
          { vars := fun n => if n = "x" then some 0 else none
            heap := [{ node := ⟨"x", 10⟩, pos := 10, used := false, redefined := false }]
            failures := [] })).failures =
        [{ confidence := 1, node := 1, failure := message "x", position := 30 }] ∧
      1 ≠ 0 :=
  have hscope : ScopeOk
      { vars := fun n => if n = "x" then some 0 else none
        heap := [{ node := ⟨"x", 10⟩, pos := 10, used := false, redefined := false }]
        failures := [] } := by
    intro n r hn
    simp only at hn
    split at hn
    · cases hn
      exact ⟨_, rfl, by simp [*]⟩
    · cases hn
  ⟨hscope, by decide,
    (inner_var_shadows_outer none _ ⟨"x", 30⟩ none []
      0 [Stmt.assignStmt [Expr.ident ⟨"x", 40⟩, Expr.ident ⟨"z", 43⟩] Token.DEFINE
          [Expr.callExpr (Expr.ident ⟨"g", 48⟩) []]] (by decide) hscope rfl).2.1⟩


/-! ## The failures of a function body -/

/-- What `analyzeFunc` returns: the records on the heap at the end are those of the
identifiers declared by the walk, in order; no two failures report the same record; every
failure has confidence 1 and reports a record at the position of its node, with the text
for the name of its node. -/
theorem analyzeFunc_spec (ti : TypesInfo) (body : List Stmt) :
    ∃ heap : List varDecl, heap.map varDecl.node = declaredStmts body ∧
      ((analyzeFunc ti body).map Failure.node).Nodup ∧
      ∀ f ∈ analyzeFunc ti body, f.confidence = 1 ∧
        ∃ y : varDecl, heap[f.node]? = some y ∧ f.position = y.node.pos ∧
          f.failure = message y.node.name := by
  have hnamed := walkRel_namedStep.on_analyzeBlock ti body
    { vars := fun _ => none, heap := [], failures := [] }
  obtain ⟨hstep, htext⟩ := hnamed
  obtain ⟨-, htext⟩ := htext scopeOk_empty textOk_empty
  obtain ⟨new, hnew, hnodup, hall⟩ := hstep.appended
  have hfs : analyzeFunc ti body = new := by
    unfold analyzeFunc
    rw [hnew]
    rfl
  refine ⟨_, by simpa using hstep.nodes, by rw [hfs]; exact hnodup, ?_⟩
  intro f hf
  have hf' : f ∈ new := hfs ▸ hf
  obtain ⟨hc, ⟨y, hy, -, hpos⟩, -⟩ := hall f hf'
  obtain ⟨z, hz, htxt⟩ := htext f hf
  rw [hy] at hz
  cases hz
  exact ⟨hc, y, hy, hpos, htxt⟩

theorem length_le_of_nodup_lt {l : List Nat} {n : Nat} (hnd : l.Nodup) (hlt : ∀ r ∈ l, r < n) :
    l.length ≤ n := by
  have hsub : l ⊆ List.range n := fun r hr => List.mem_range.mpr (hlt r hr)
  have := (List.subperm_of_subset hnd hsub).length_le
  simpa using this

/-- C4, as amended: every declaration record yields at most one failure.  For every
function body and every type information, no two failures of `analyzeFunc` report the same
record; the number of failures does not exceed the number of single-name, non-blank `var`
specs the walk processes (a grouped `var (...)` statement counts once for each of them);
when the declared names have pairwise distinct positions, no two failures have the same
position; and `var v int; v, y := f(); v, z := g()` with `v` reused in both rebinds yields
exactly one failure. -/
theorem one_failure_per_record (ti : TypesInfo) (body : List Stmt) :
    ((analyzeFunc ti body).map Failure.node).Nodup ∧
      (analyzeFunc ti body).length ≤ (declaredStmts body).length ∧
      (((declaredStmts body).map Ident.pos).Nodup →
        ((analyzeFunc ti body).map Failure.position).Nodup) ∧
      analyzeFunc (some fun id => decide (id.name ≠ "v"))
        [Stmt.declStmt (Decl.genDecl Token.VAR
            [Spec.valueSpec [⟨"v", 10⟩] (some (Expr.ident ⟨"int", 12⟩)) []]),
          Stmt.assignStmt [Expr.ident ⟨"v", 20⟩, Expr.ident ⟨"y", 23⟩] Token.DEFINE
            [Expr.callExpr (Expr.ident ⟨"f", 28⟩) []],
          Stmt.assignStmt [Expr.ident ⟨"v", 40⟩, Expr.ident ⟨"z", 43⟩] Token.DEFINE
            [Expr.callExpr (Expr.ident ⟨"g", 48⟩) []]] =
        [{ confidence := 1, node := 0, failure := message "v", position := 10 }] := by
  obtain ⟨heap, hheap, hnodup, hall⟩ := analyzeFunc_spec ti body
  refine ⟨hnodup, ?_, ?_, by decide⟩
  · have hlen : heap.length = (declaredStmts body).length := by
      rw [← hheap, List.length_map]
    rw [← hlen, ← List.length_map (analyzeFunc ti body) Failure.node]
    apply length_le_of_nodup_lt hnodup
    intro r hr
    obtain ⟨f, hf, rfl⟩ := List.mem_map.mp hr
    obtain ⟨-, y, hy, -⟩ := hall f hf
    exact (List.getElem?_eq_some.mp hy).1
  · intro hpos
    have hinj := List.inj_on_of_nodup_map hnodup
    apply List.Nodup.map_on _ (List.Nodup.of_map _ hnodup)
    intro f hf g hg hfg
    apply hinj hf hg
    obtain ⟨-, y, hy, hyp, -⟩ := hall f hf
    obtain ⟨-, z, hz, hzp, -⟩ := hall g hg
    have hL : (heap.map varDecl.node).map Ident.pos = (declaredStmts body).map Ident.pos := by
      rw [hheap]
    rw [← hL] at hpos
    have h1 : ((heap.map varDecl.node).map Ident.pos)[f.node]? = some f.position := by
      simp [List.getElem?_map, hy, hyp]
    have h2 : ((heap.map varDecl.node).map Ident.pos)[g.node]? = some f.position := by
      simp [List.getElem?_map, hz, hfg, hzp]
    obtain ⟨i1, e1⟩ := List.getElem?_eq_some.mp h1
    obtain ⟨i2, e2⟩ := List.getElem?_eq_some.mp h2
    exact (hpos.getElem_inj_iff).mp (e1.trans e2.symm)

/-- C4, as amended, at `var a int; var b int; b, x := f(); a, y := g()`, whose declared
names have distinct positions. -/
theorem one_failure_per_record_witness :
    ((declaredStmts
        [Stmt.declStmt (Decl.genDecl Token.VAR [Spec.valueSpec [⟨"a", 10⟩] none []]),
          Stmt.declStmt (Decl.genDecl Token.VAR [Spec.valueSpec [⟨"b", 20⟩] none []]),
          Stmt.assignStmt [Expr.ident ⟨"b", 30⟩, Expr.ident ⟨"x", 33⟩] Token.DEFINE
            [Expr.callExpr (Expr.ident ⟨"f", 38⟩) []],
          Stmt.assignStmt [Expr.ident ⟨"a", 50⟩, Expr.ident ⟨"y", 53⟩] Token.DEFINE
            [Expr.callExpr (Expr.ident ⟨"g", 58⟩) []]]).map Ident.pos).Nodup ∧
      ((analyzeFunc none
        [Stmt.declStmt (Decl.genDecl Token.VAR [Spec.valueSpec [⟨"a", 10⟩] none []]),
          Stmt.declStmt (Decl.genDecl Token.VAR [Spec.valueSpec [⟨"b", 20⟩] none []]),
          Stmt.assignStmt [Expr.ident ⟨"b", 30⟩, Expr.ident ⟨"x", 33⟩] Token.DEFINE
            [Expr.callExpr (Expr.ident ⟨"f", 38⟩) []],
          Stmt.assignStmt [Expr.ident ⟨"a", 50⟩, Expr.ident ⟨"y", 53⟩] Token.DEFINE
            [Expr.callExpr (Expr.ident ⟨"g", 58⟩) []]]).map Failure.position).Nodup :=
  ⟨by decide, (one_failure_per_record none _).2.2.1 (by decide)⟩

/-- C4 as stated fails: the grouped declaration `var ( a int; b int )` is one declaration
statement, and `a, b, c := f()` after it (only `c` is new) yields two failures, more than
the number of `var` declaration statements with a single-name spec. -/
theorem failures_exceed_var_statements :
    analyzeFunc (some fun id => decide (id.name = "c"))
        [Stmt.declStmt (Decl.genDecl Token.VAR
            [Spec.valueSpec [⟨"a", 10⟩] (some (Expr.ident ⟨"int", 12⟩)) [],
              Spec.valueSpec [⟨"b", 20⟩] (some (Expr.ident ⟨"int", 22⟩)) []]),
          Stmt.assignStmt [Expr.ident ⟨"a", 30⟩, Expr.ident ⟨"b", 33⟩, Expr.ident ⟨"c", 36⟩]
            Token.DEFINE [Expr.callExpr (Expr.ident ⟨"f", 41⟩) []]] =
        [{ confidence := 1, node := 0, failure := message "a", position := 10 },
          { confidence := 1, node := 1, failure := message "b", position := 20 }] ∧
      ¬ (analyzeFunc (some fun id => decide (id.name = "c"))
        [Stmt.declStmt (Decl.genDecl Token.VAR
            [Spec.valueSpec [⟨"a", 10⟩] (some (Expr.ident ⟨"int", 12⟩)) [],
              Spec.valueSpec [⟨"b", 20⟩] (some (Expr.ident ⟨"int", 22⟩)) []]),
          Stmt.assignStmt [Expr.ident ⟨"a", 30⟩, Expr.ident ⟨"b", 33⟩, Expr.ident ⟨"c", 36⟩]
            Token.DEFINE [Expr.callExpr (Expr.ident ⟨"f", 41⟩) []]]).length ≤
        singleNameVarStmts
          [Stmt.declStmt (Decl.genDecl Token.VAR
              [Spec.valueSpec [⟨"a", 10⟩] (some (Expr.ident ⟨"int", 12⟩)) [],
                Spec.valueSpec [⟨"b", 20⟩] (some (Expr.ident ⟨"int", 22⟩)) []]),
            Stmt.assignStmt [Expr.ident ⟨"a", 30⟩, Expr.ident ⟨"b", 33⟩, Expr.ident ⟨"c", 36⟩]
              Token.DEFINE [Expr.callExpr (Expr.ident ⟨"f", 41⟩) []]] := by
  constructor <;> decide


/-! ## Plain assignment -/

theorem markAssigned_eq_foldl (lhs : List Expr) (c : State) :
    markAssigned lhs c = lhs.foldl (fun c e => markAssignedExpr e c) c := rfl

theorem step_foldl_markAssigned (l : List Expr) (c : State) :
    Step [] c (l.foldl (fun c e => markAssignedExpr e c) c) :=
  walkRel_step.foldl _ (fun c e => walkRel_step.on_markAssignedExpr e c) l c

theorem foldl_markAssigned_vars (l : List Expr) (c : State) :
    (l.foldl (fun c e => markAssignedExpr e c) c).vars = c.vars :=
  markAssigned_vars l c

theorem markName_usedAt (n : String) (c : State) (r : Nat) (hr : c.vars n = some r)
    (hx : ∃ x, c.heap[r]? = some x) : usedAt (markName n c) r = true := by
  obtain ⟨x, hx⟩ := hx
  apply usedAt_iff.mpr
  simp only [markName, hr]
  exact ⟨{ x with used := true }, by simp [getElem?_setUsed, hx], rfl⟩

/-- A `=` statement one of whose targets is the bare identifier `v` marks the record that
the scope maps `v` to used. -/
theorem markAssigned_usedAt (lhs : List Expr) (c : State) (v : Ident) (r : Nat)
    (hl : Expr.ident v ∈ lhs) (hr : c.vars v.name = some r) (hx : ∃ x, c.heap[r]? = some x) :
    usedAt (markAssigned lhs c) r = true := by
  rw [markAssigned_eq_foldl]
  obtain ⟨s, t, hst⟩ := List.append_of_mem hl
  rw [hst, List.foldl_append, List.foldl_cons]
  apply (step_foldl_markAssigned t _).usedAt
  apply markName_usedAt
  · rw [foldl_markAssigned_vars]; exact hr
  · exact (step_foldl_markAssigned s c).live hx

/-! ## Declarations of more than one name -/

theorem message_injective {a b : String} (h : message a = message b) : a = b := by
  unfold message at h
  have := congrArg String.data h
  simp only [String.data_append, List.append_assoc] at this
  have h1 := List.append_cancel_left this
  have h2 := List.append_cancel_right h1
  exact String.ext h2

/-- C6: processing a `var` declaration whose spec declares more than one name leaves the
state, and so the scope mapping, unchanged; and in every function body in which no
single-name `var` spec declares the name `a` (its only `var` declarations of `a` declare
several names), no failure is about `a`, whatever rebinds follow and whatever the type
information answers. -/
theorem multi_name_decl_never_reported (ti : TypesInfo) (body : List Stmt) (a : String)
    (h : ∀ id ∈ declaredStmts body, id.name ≠ a) :
    (∀ (names : List Ident) (type : Option Expr) (values : List Expr) (c : State),
        1 < names.length →
        processStatement ti
          (Stmt.declStmt (Decl.genDecl Token.VAR [Spec.valueSpec names type values])) c = c) ∧
      ∀ f ∈ analyzeFunc ti body, f.failure ≠ message a := by
  constructor
  · intro names type values c hlen
    simp [processStatement, declareDecl, declareSpec, hlen]
  · intro f hf hmsg
    obtain ⟨heap, hheap, -, hall⟩ := analyzeFunc_spec ti body
    obtain ⟨-, y, hy, -, htxt⟩ := hall f hf
    rw [htxt] at hmsg
    have hname := message_injective hmsg
    apply h y.node _ hname
    rw [← hheap]
    obtain ⟨hi, hyi⟩ := List.getElem?_eq_some.mp hy
    exact List.mem_map.mpr ⟨y, hyi ▸ List.getElem_mem _, rfl⟩

/-- C6 at `var a, b int; a, x := f()`. -/
theorem multi_name_decl_never_reported_witness :
    (∀ id ∈ declaredStmts
        [Stmt.declStmt (Decl.genDecl Token.VAR
            [Spec.valueSpec [⟨"a", 10⟩, ⟨"b", 13⟩] (some (Expr.ident ⟨"int", 15⟩)) []]),
          Stmt.assignStmt [Expr.ident ⟨"a", 30⟩, Expr.ident ⟨"x", 33⟩] Token.DEFINE
            [Expr.callExpr (Expr.ident ⟨"f", 38⟩) []]], id.name ≠ "a") ∧
      ∀ f ∈ analyzeFunc none
        [Stmt.declStmt (Decl.genDecl Token.VAR
            [Spec.valueSpec [⟨"a", 10⟩, ⟨"b", 13⟩] (some (Expr.ident ⟨"int", 15⟩)) []]),
          Stmt.assignStmt [Expr.ident ⟨"a", 30⟩, Expr.ident ⟨"x", 33⟩] Token.DEFINE
            [Expr.callExpr (Expr.ident ⟨"f", 38⟩) []]], f.failure ≠ message "a" :=
  ⟨by decide, (multi_name_decl_never_reported none _ "a" (by decide)).2⟩


/-! ## Identifiers that define a new object -/

theorem checkDefine_append (ti : TypesInfo) (l₁ l₂ : List Expr) (c : State) :
    checkDefine ti (l₁ ++ l₂) c = checkDefine ti l₂ (checkDefine ti l₁ c) := by
  unfold checkDefine
  rw [List.foldl_append]

/-- C7: in a `:=` statement, a left-hand identifier for which the type information answers
that it defines a new object is skipped: its step leaves the whole state (the scope
mapping, the flags of every record, the failure list) as it is, whatever records are in
scope, and the statement does what the same statement without this identifier does. -/
theorem new_binding_skipped (ti : TypesInfo) (id : Ident) (c : State)
    (hnew : definesNew ti id = true) :
    checkDefineExpr ti (Expr.ident id) c = c ∧
      ∀ (before after rhs : List Expr) (d : State),
        processStatement ti (Stmt.assignStmt (before ++ Expr.ident id :: after) Token.DEFINE rhs) d =
          processStatement ti (Stmt.assignStmt (before ++ after) Token.DEFINE rhs) d := by
  have hskip : ∀ d : State, checkDefineExpr ti (Expr.ident id) d = d := by
    intro d
    simp [checkDefineExpr, hnew]
  refine ⟨hskip c, ?_⟩
  intro before after rhs d
  simp only [processStatement, if_true]
  rw [checkDefine_append, checkDefine_cons, hskip, ← checkDefine_append]

/-- C7 at `x := 10` in the scope of a tracked, unused, unreported `var x int`. -/
theorem new_binding_skipped_witness :
    definesNew (some fun id => decide (id.pos = 30)) ⟨"x", 30⟩ = true ∧
      processStatement (some fun id => decide (id.pos = 30))
        (Stmt.assignStmt ([] ++ Expr.ident ⟨"x", 30⟩ :: []) Token.DEFINE [Expr.basicLit "10"])
        { vars := fun n => if n = "x" then some 0 else none
          heap := [{ node := ⟨"x", 10⟩, pos := 10, used := false, redefined := false }]
          failures := [] } =
      processStatement (some fun id => decide (id.pos = 30))
        (Stmt.assignStmt ([] ++ []) Token.DEFINE [Expr.basicLit "10"])
        { vars := fun n => if n = "x" then some 0 else none
          heap := [{ node := ⟨"x", 10⟩, pos := 10, used := false, redefined := false }]
          failures := [] } :=
  ⟨rfl, (new_binding_skipped (some fun id => decide (id.pos = 30)) ⟨"x", 30⟩
    { vars := fun n => if n = "x" then some 0 else none
      heap := [{ node := ⟨"x", 10⟩, pos := 10, used := false, redefined := false }]
      failures := [] } rfl).2 [] [] [Expr.basicLit "10"] _⟩

/-! ## No type information -/

theorem checkDefineExpr_congr {ti₁ ti₂ : TypesInfo}
    (h : ∀ id, definesNew ti₁ id = definesNew ti₂ id) (e : Expr) (c : State) :
    checkDefineExpr ti₁ e c = checkDefineExpr ti₂ e c := by
  unfold checkDefineExpr
  split
  · rw [h]
  · rfl

theorem checkDefine_congr {ti₁ ti₂ : TypesInfo}
    (h : ∀ id, definesNew ti₁ id = definesNew ti₂ id) (lhs : List Expr) (c : State) :
    checkDefine ti₁ lhs c = checkDefine ti₂ lhs c := by
  unfold checkDefine
  induction lhs generalizing c with
  | nil => rfl
  | cons e lhs ih => rw [List.foldl_cons, List.foldl_cons, checkDefineExpr_congr h, ih]

mutual
/-- The walker depends on the type information only through `definesNew`. -/
theorem processStatement_congr {ti₁ ti₂ : TypesInfo}
    (h : ∀ id, definesNew ti₁ id = definesNew ti₂ id) :
    ∀ (s : Stmt) (c : State), processStatement ti₁ s c = processStatement ti₂ s c
  | .declStmt decl, c => rfl
  | .assignStmt lhs tok rhs, c => by
    simp only [processStatement, checkDefine_congr h]
  | .blockStmt list, c => by
    simp only [processStatement, analyzeBlock_congr h list]
  | .ifStmt init cond body els, c => by
    simp only [processStatement, processStatementOpt_congr h init,
      processStatementOpt_congr h els, analyzeBlock_congr h body]
  | .forStmt init cond post body, c => by
    simp only [processStatement, processStatementOpt_congr h init,
      processStatementOpt_congr h post, analyzeBlock_congr h body]
  | .rangeStmt key value tok x body, c => by
    simp only [processStatement, analyzeBlock_congr h body]
  | .switchStmt init tag body, c => by
    simp only [processStatement, processStatementOpt_congr h init, analyzeBlock_congr h body]
  | .typeSwitchStmt init assign body, c => by
    simp only [processStatement, processStatementOpt_congr h init,
      processStatementOpt_congr h assign, analyzeBlock_congr h body]
  | .selectStmt body, c => by
    simp only [processStatement, analyzeBlock_congr h body]
  | .caseClause list body, c => by
    simp only [processStatement, processStatements_congr h body]
  | .exprStmt x, c => rfl
  | .returnStmt results, c => rfl
  | .deferStmt fn args, c => rfl
  | .goStmt fn args, c => rfl
  | .sendStmt chan value, c => rfl
  | .incDecStmt x tok, c => rfl
  | .labeledStmt label stmt, c => by
    simp only [processStatement, processStatement_congr h stmt]
  | .branchStmt tok label, c => rfl
  | .badStmt, c => rfl
  | .emptyStmt, c => rfl
  | .commClause comm body, c => rfl
theorem processStatementOpt_congr {ti₁ ti₂ : TypesInfo}
    (h : ∀ id, definesNew ti₁ id = definesNew ti₂ id) :
    ∀ (s : Option Stmt) (c : State), processStatementOpt ti₁ s c = processStatementOpt ti₂ s c
  | none, c => rfl
  | some s, c => by
    simp only [processStatementOpt, processStatement_congr h s]
theorem processStatements_congr {ti₁ ti₂ : TypesInfo}
    (h : ∀ id, definesNew ti₁ id = definesNew ti₂ id) :
    ∀ (l : List Stmt) (c : State), processStatements ti₁ l c = processStatements ti₂ l c
  | [], c => rfl
  | s :: ss, c => by
    simp only [processStatements, processStatement_congr h s, processStatements_congr h ss]
theorem analyzeBlock_congr {ti₁ ti₂ : TypesInfo}
    (h : ∀ id, definesNew ti₁ id = definesNew ti₂ id) :
    ∀ (l : List Stmt) (c : State), analyzeBlock ti₁ l c = analyzeBlock ti₂ l c
  | [], c => rfl
  | s :: ss, c => by
    simp only [analyzeBlock, processStatement_congr h s, processStatements_congr h ss]
end

/-- C8: fail-open type information.  For every function body, analysing it with no type
information (`typesInfo` is nil) returns exactly the failures of analysing it with type
information that answers for every identifier that it does not define a new object. -/
theorem nil_typesInfo_fails_open (body : List Stmt) :
    analyzeFunc none body = analyzeFunc (some fun _ => false) body := by
  unfold analyzeFunc
  have h : ∀ id, definesNew none id = definesNew (some fun _ => false) id := fun _ => rfl
  rw [analyzeBlock_congr h]


/-! ## The right-hand side is marked before the left-hand side is checked -/

/-- C9: the right-hand side of a `:=` statement is marked used before the left-hand side
is checked.  For `var v T` followed by a `:=` statement whose right-hand side holds an
identifier named `v` (as in `v, y := g(v)`), no failure is returned, whatever the
left-hand side and whatever the type information answers. -/
theorem rhs_marked_before_lhs (ti : TypesInfo) (v : Ident) (type : Option Expr)
    (values lhs rhs : List Expr) (hrhs : v.name ∈ identNames rhs) :
    analyzeFunc ti
        [Stmt.declStmt (Decl.genDecl Token.VAR [Spec.valueSpec [v] type values]),
          Stmt.assignStmt lhs Token.DEFINE rhs] = [] := by
  rw [analyzeFunc_eq]
  simp only [processStatements, processStatement, declareDecl, declareSpec, List.foldl,
    List.length_singleton, gt_iff_lt, lt_self_iff_false, if_true, if_false]
  have hsettled : Settled (markUsedInExpr rhs
      (declareName v { vars := fun _ => none, heap := [], failures := [] })) := by
    intro n r x hn hx
    rw [markUsedInExpr_vars] at hn
    left
    by_cases hv : v.name = "_"
    · simp [declareName, hv] at hn
    · simp only [declareName, hv, if_false, List.length_nil, List.nil_append] at hn hx ⊢
      have hn' : n = v.name ∧ r = 0 := by
        by_cases hnv : n = v.name
        · simp [hnv] at hn; exact ⟨hnv, hn.symm⟩
        · simp [hnv] at hn
      obtain ⟨rfl, rfl⟩ := hn'
      have hused := markUsedInExpr_used rhs
        { vars := fun n => if n = v.name then some 0 else none
          heap := [{ node := v, pos := v.pos, used := false, redefined := false }]
          failures := [] } v.name 0 hrhs (by simp) ⟨_, rfl⟩
      obtain ⟨y, hy, hyu⟩ := hused
      rw [hy] at hx
      cases hx
      exact hyu
  rw [checkDefine_settled hsettled, markUsedInExpr_failures]
  unfold declareName
  split <;> rfl

/-- C9 at `var v int; v, y := g(v)` without type information. -/
theorem rhs_marked_before_lhs_witness :
    "v" ∈ identNames [Expr.callExpr (Expr.ident ⟨"g", 28⟩) [Expr.ident ⟨"v", 30⟩]] ∧
      analyzeFunc none
        [Stmt.declStmt (Decl.genDecl Token.VAR
            [Spec.valueSpec [⟨"v", 10⟩] (some (Expr.ident ⟨"int", 12⟩)) []]),
          Stmt.assignStmt [Expr.ident ⟨"v", 20⟩, Expr.ident ⟨"y", 23⟩] Token.DEFINE
            [Expr.callExpr (Expr.ident ⟨"g", 28⟩) [Expr.ident ⟨"v", 30⟩]]] = [] :=
  ⟨by decide, rhs_marked_before_lhs none ⟨"v", 10⟩ (some (Expr.ident ⟨"int", 12⟩)) []
    [Expr.ident ⟨"v", 20⟩, Expr.ident ⟨"y", 23⟩]
    [Expr.callExpr (Expr.ident ⟨"g", 28⟩) [Expr.ident ⟨"v", 30⟩]] (by decide)⟩

/-! ## The order of the failures -/

theorem processStatements_append (ti : TypesInfo) (l₁ l₂ : List Stmt) (c : State) :
    processStatements ti (l₁ ++ l₂) c = processStatements ti l₂ (processStatements ti l₁ c) := by
  induction l₁ generalizing c with
  | nil => rfl
  | cons s l₁ ih =>
    simp only [List.cons_append, processStatements]
    exact ih _

/-- C10 as stated fails: in `var a int; var b int; b, x := f(); a, y := g()` the failure
for `b` (declared at position 20) comes before the failure for `a` (declared at position
10), so the positions of the reported declarations are not increasing. -/
theorem failures_not_in_declaration_order :
    analyzeFunc (some fun id => decide (id.name = "x" ∨ id.name = "y"))
        [Stmt.declStmt (Decl.genDecl Token.VAR
            [Spec.valueSpec [⟨"a", 10⟩] (some (Expr.ident ⟨"int", 12⟩)) []]),
          Stmt.declStmt (Decl.genDecl Token.VAR
            [Spec.valueSpec [⟨"b", 20⟩] (some (Expr.ident ⟨"int", 22⟩)) []]),
          Stmt.assignStmt [Expr.ident ⟨"b", 30⟩, Expr.ident ⟨"x", 33⟩] Token.DEFINE
            [Expr.callExpr (Expr.ident ⟨"f", 38⟩) []],
          Stmt.assignStmt [Expr.ident ⟨"a", 50⟩, Expr.ident ⟨"y", 53⟩] Token.DEFINE
            [Expr.callExpr (Expr.ident ⟨"g", 58⟩) []]] =
        [{ confidence := 1, node := 1, failure := message "b", position := 20 },
          { confidence := 1, node := 0, failure := message "a", position := 10 }] ∧
      ¬ ((analyzeFunc (some fun id => decide (id.name = "x" ∨ id.name = "y"))
        [Stmt.declStmt (Decl.genDecl Token.VAR
            [Spec.valueSpec [⟨"a", 10⟩] (some (Expr.ident ⟨"int", 12⟩)) []]),
          Stmt.declStmt (Decl.genDecl Token.VAR
            [Spec.valueSpec [⟨"b", 20⟩] (some (Expr.ident ⟨"int", 22⟩)) []]),
          Stmt.assignStmt [Expr.ident ⟨"b", 30⟩, Expr.ident ⟨"x", 33⟩] Token.DEFINE
            [Expr.callExpr (Expr.ident ⟨"f", 38⟩) []],
          Stmt.assignStmt [Expr.ident ⟨"a", 50⟩, Expr.ident ⟨"y", 53⟩] Token.DEFINE
            [Expr.callExpr (Expr.ident ⟨"g", 58⟩) []]]).map Failure.position).Pairwise
              (fun p q => p < q) := by
  constructor <;> decide

/-! ## The blank identifier -/

/-- The relation `NonBlank` contains every step of the walker. -/
theorem walkRel_nonBlank : WalkRel NonBlank where
  refl := fun _ id h => by cases h
  trans := fun _ _ _ _ _ h1 h2 id h => by
    rcases List.mem_append.mp h with h | h
    · exact h1 id h
    · exact h2 id h
  scope := fun _ _ _ h => h
  mark := fun _ _ id h => by cases h
  check := fun _ _ id h => by cases h
  declare := fun id _ hid i h => by
    rw [List.mem_singleton] at h
    rw [h]
    exact hid

theorem declaredStmts_ne_blank (body : List Stmt) : ∀ id ∈ declaredStmts body, id.name ≠ "_" :=
  walkRel_nonBlank.on_processStatements none body
    { vars := fun _ => none, heap := [], failures := [] }

/-- C11: the blank identifier is never tracked and never reported.  Processing `var _ T`
(with or without an initializer) leaves the state, and so the scope mapping, unchanged;
no record is ever allocated for the blank identifier; and for every function body and
every type information, no failure of `analyzeFunc` has the text for the name `_`. -/
theorem blank_never_tracked_nor_reported (ti : TypesInfo) :
    (∀ (b : Ident) (type : Option Expr) (values : List Expr) (c : State), b.name = "_" →
        processStatement ti
          (Stmt.declStmt (Decl.genDecl Token.VAR [Spec.valueSpec [b] type values])) c = c) ∧
      (∀ body : List Stmt, ∀ id ∈ declaredStmts body, id.name ≠ "_") ∧
      ∀ body : List Stmt, ∀ f ∈ analyzeFunc ti body, f.failure ≠ message "_" := by
  refine ⟨?_, declaredStmts_ne_blank, ?_⟩
  · intro b type values c hb
    simp [processStatement, declareDecl, declareSpec, declareName, hb]
  · intro body f hf hmsg
    obtain ⟨heap, hheap, -, hall⟩ := analyzeFunc_spec ti body
    obtain ⟨-, y, hy, -, htxt⟩ := hall f hf
    rw [htxt] at hmsg
    have hname := message_injective hmsg
    apply declaredStmts_ne_blank body y.node _ hname
    rw [← hheap]
    obtain ⟨hi, hyi⟩ := List.getElem?_eq_some.mp hy
    exact List.mem_map.mpr ⟨y, hyi ▸ List.getElem_mem _, rfl⟩

/-! ## Scope isolation -/

/-- The relation `Kept` contains every step of the walker. -/
theorem walkRel_kept : WalkRel Kept where
  refl := fun _ r x hx => ⟨x, hx, rfl, rfl⟩
  trans := by
    intro a b x y z h1 h2 r u hu
    obtain ⟨v, hv, hvn, hvp⟩ := h1 r u hu
    obtain ⟨w, hw, hwn, hwp⟩ := h2 r v hv
    exact ⟨w, hw, hwn.trans hvn, hwp.trans hvp⟩
  scope := fun _ _ _ h => h
  mark := by
    intro n c i x hx
    unfold markName
    split
    · rename_i r hv
      simp only [getElem?_setUsed, hx, Option.map_some']
      by_cases hi : r = i
      · exact ⟨{ x with used := true }, by simp [hi], rfl, rfl⟩
      · exact ⟨x, by simp [hi], rfl, rfl⟩
    · exact ⟨x, hx, rfl, rfl⟩
  check := by
    intro n c i x hx
    unfold checkRedundant
    split
    · rename_i r hv
      split
      · split
        · simp only [getElem?_setRedefined, hx, Option.map_some']
          by_cases hi : r = i
          · exact ⟨{ x with redefined := true }, by simp [hi], rfl, rfl⟩
          · exact ⟨x, by simp [hi], rfl, rfl⟩
        · exact ⟨x, hx, rfl, rfl⟩
      · exact ⟨x, hx, rfl, rfl⟩
    · exact ⟨x, hx, rfl, rfl⟩
  declare := by
    intro id c hid i x hx
    unfold declareName
    rw [if_neg hid]
    have hlt : i < c.heap.length := (List.getElem?_eq_some.mp hx).1
    exact ⟨x, by simp [List.getElem?_append_left hlt, hx], rfl, rfl⟩

theorem analyzeBlock_vars (ti : TypesInfo) (l : List Stmt) (c : State) :
    (analyzeBlock ti l c).vars = c.vars := by
  cases l <;> rfl

theorem markUsedInExprOpt_vars (e : Option Expr) (c : State) :
    (markUsedInExprOpt e c).vars = c.vars := by
  cases e with
  | none => rfl
  | some e => exact markUsedInExpr_vars [e] c

theorem checkRedundantInAssignment_vars (es : List (Option Expr)) (c : State) :
    (checkRedundantInAssignment es c).vars = c.vars := by
  unfold checkRedundantInAssignment
  induction es generalizing c with
  | nil => rfl
  | cons e es ih => rw [List.foldl_cons, ih, checkRedundantExpr_vars]

theorem markTypeSwitchAssign_vars (a : Option Stmt) (c : State) :
    (markTypeSwitchAssign a c).vars = c.vars := by
  unfold markTypeSwitchAssign
  split
  · split
    · exact markUsedInExpr_vars _ c
    · rfl
  · rfl

mutual
/-- A statement that declares nothing in the scope it stands in leaves the scope mapping
as it is. -/
theorem isolates_vars (ti : TypesInfo) :
    ∀ (s : Stmt) (c : State), s.isolates = true → (processStatement ti s c).vars = c.vars
  | .blockStmt list, c, _ => analyzeBlock_vars ti list c
  | .ifStmt init cond body els, c, h => by
    simp only [Stmt.isolates, Bool.and_eq_true] at h
    simp only [processStatement]
    rw [isolatesOpt_vars ti els _ h.2, analyzeBlock_vars, markUsedInExprOpt_vars,
      processStatementOpt_simple_vars ti init c h.1]
  | .forStmt init cond post body, c, h => by
    simp only [Stmt.isolates, Bool.and_eq_true] at h
    simp only [processStatement]
    rw [analyzeBlock_vars, processStatementOpt_simple_vars ti post _ h.2,
      markUsedInExprOpt_vars, processStatementOpt_simple_vars ti init c h.1]
  | .rangeStmt key value tok x body, c, _ => by
    simp only [processStatement]
    rw [analyzeBlock_vars]
    split
    · rw [checkRedundantInAssignment_vars, markUsedInExprOpt_vars]
    · rw [markUsedInExprOpt_vars]
  | .switchStmt init tag body, c, h => by
    simp only [Stmt.isolates] at h
    simp only [processStatement]
    rw [analyzeBlock_vars, markUsedInExprOpt_vars, processStatementOpt_simple_vars ti init c h]
  | .typeSwitchStmt init assign body, c, h => by
    simp only [Stmt.isolates, Bool.and_eq_true] at h
    simp only [processStatement]
    rw [analyzeBlock_vars, processStatementOpt_simple_vars ti assign _ h.2,
      markTypeSwitchAssign_vars, processStatementOpt_simple_vars ti init c h.1]
  | .selectStmt body, c, _ => analyzeBlock_vars ti body c
  | .declStmt _, _, h => by simp [Stmt.isolates] at h
  | .assignStmt _ _ _, _, h => by simp [Stmt.isolates] at h
  | .caseClause _ _, _, h => by simp [Stmt.isolates] at h
  | .exprStmt _, _, h => by simp [Stmt.isolates] at h
  | .returnStmt _, _, h => by simp [Stmt.isolates] at h
  | .deferStmt _ _, _, h => by simp [Stmt.isolates] at h
  | .goStmt _ _, _, h => by simp [Stmt.isolates] at h
  | .sendStmt _ _, _, h => by simp [Stmt.isolates] at h
  | .incDecStmt _ _, _, h => by simp [Stmt.isolates] at h
  | .labeledStmt _ _, _, h => by simp [Stmt.isolates] at h
  | .branchStmt _ _, _, h => by simp [Stmt.isolates] at h
  | .badStmt, _, h => by simp [Stmt.isolates] at h
  | .emptyStmt, _, h => by simp [Stmt.isolates] at h
  | .commClause _ _, _, h => by simp [Stmt.isolates] at h
theorem isolatesOpt_vars (ti : TypesInfo) :
    ∀ (s : Option Stmt) (c : State), isolatesOpt s = true →
      (processStatementOpt ti s c).vars = c.vars
  | none, _, _ => rfl
  | some s, c, h => isolates_vars ti s c h
end

/-- C12: scope isolation.  Processing a nested block, an `if`/`else`, `for`, `range`,
`switch`, type-switch or `select` statement whose init, post and assign parts are simple
statements leaves the scope mapping of the enclosing tracker as it is: the same names, each
mapped to the same record; and every record that a name of the scope is mapped to is still
at its address with the same node and `pos`: only its used and redefined flags may have
changed, and they are only ever set. -/
theorem nested_statement_keeps_scope (ti : TypesInfo) (s : Stmt) (c : State)
    (h : s.isolates = true) :
    (processStatement ti s c).vars = c.vars ∧
      ∀ (n : String) (r : Nat) (x : varDecl), c.vars n = some r → c.heap[r]? = some x →
        ∃ y : varDecl, (processStatement ti s c).heap[r]? = some y ∧
          y.node = x.node ∧ y.pos = x.pos ∧
          (x.used = true → y.used = true) ∧ (x.redefined = true → y.redefined = true) := by
  refine ⟨isolates_vars ti s c h, ?_⟩
  intro n r x _ hx
  obtain ⟨y, hy, hyn, hyp⟩ := walkRel_kept.on_processStatement ti s c r x hx
  obtain ⟨z, hz, -, hzu, hzr⟩ := (step_processStatement ti s c).keeps r x hx
  rw [hy] at hz
  cases hz
  exact ⟨y, hy, hyn, hyp, hzu, hzr⟩

/-- C12 at the `if`/`else` of the fixture `redundantInDifferentBranches`, entered in the
scope of a tracked `var x int`: each branch declares and rebinds its own `result`. -/
theorem nested_statement_keeps_scope_witness :
    (Stmt.ifStmt none (some (Expr.callExpr (Expr.ident ⟨"condition", 20⟩) []))
        [Stmt.declStmt (Decl.genDecl Token.VAR [Spec.valueSpec [⟨"result", 40⟩] none []]),
          Stmt.assignStmt [Expr.ident ⟨"result", 60⟩, Expr.ident ⟨"err", 68⟩] Token.DEFINE
            [Expr.callExpr (Expr.ident ⟨"getBranchA", 75⟩) []]]
        (some (Stmt.blockStmt
          [Stmt.declStmt (Decl.genDecl Token.VAR [Spec.valueSpec [⟨"result", 100⟩] none []]),
            Stmt.assignStmt [Expr.ident ⟨"result", 120⟩, Expr.ident ⟨"err", 128⟩] Token.DEFINE
              [Expr.callExpr (Expr.ident ⟨"getBranchB", 135⟩) []]]))).isolates = true ∧
      (processStatement none
        (Stmt.ifStmt none (some (Expr.callExpr (Expr.ident ⟨"condition", 20⟩) []))
          [Stmt.declStmt (Decl.genDecl Token.VAR [Spec.valueSpec [⟨"result", 40⟩] none []]),
            Stmt.assignStmt [Expr.ident ⟨"result", 60⟩, Expr.ident ⟨"err", 68⟩] Token.DEFINE
              [Expr.callExpr (Expr.ident ⟨"getBranchA", 75⟩) []]]
          (some (Stmt.blockStmt
            [Stmt.declStmt (Decl.genDecl Token.VAR [Spec.valueSpec [⟨"result", 100⟩] none []]),
              Stmt.assignStmt [Expr.ident ⟨"result", 120⟩, Expr.ident ⟨"err", 128⟩] Token.DEFINE
                [Expr.callExpr (Expr.ident ⟨"getBranchB", 135⟩) []]])))
        { vars := fun n => if n = "x" then some 0 else none
          heap := [{ node := ⟨"x", 10⟩, pos := 10, used := false, redefined := false }]
          failures := [] }).vars =
        fun n => if n = "x" then some 0 else none :=
  ⟨by decide, (nested_statement_keeps_scope none _
    { vars := fun n => if n = "x" then some 0 else none
      heap := [{ node := ⟨"x", 10⟩, pos := 10, used := false, redefined := false }]
      failures := [] } (by decide)).1⟩

/-! ## The fields of a failure -/

theorem checkRedundant_appended (name : String) (c : State) :
    ∀ f ∈ (checkRedundant name c).failures, f ∈ c.failures ∨
      (f.confidence = 1 ∧ f.failure = message name ∧
        ∃ (r : Nat) (x : varDecl), c.vars name = some r ∧ c.heap[r]? = some x ∧
          x.used = false ∧ x.redefined = false ∧ f.node = r ∧ f.position = x.node.pos) := by
  intro f hf
  unfold checkRedundant at hf
  split at hf
  · rename_i r hv
    split at hf
    · rename_i x hr
      split at hf
      · rename_i hcond
        have hflags : x.used = false ∧ x.redefined = false := by
          cases hu : x.used <;> cases hd : x.redefined <;> simp [hu, hd] at hcond ⊢
        simp only [List.mem_append, List.mem_singleton] at hf
        rcases hf with hf | hf
        · exact Or.inl hf
        · subst hf
          exact Or.inr ⟨rfl, rfl, r, x, hv, hr, hflags.1, hflags.2, rfl, rfl⟩
      · exact Or.inl hf
    · exact Or.inl hf
  · exact Or.inl hf

/-- C13: every failure has confidence exactly 1, the text
`redundant declaration of '<name>'; it's redeclared via := assignment`, and the position of
the name identifier of the record it reports.  For every function body, every failure of
`analyzeFunc` reports a record of a declared name identifier of the body, carries the
position of that identifier and the text for its name; and the report step for a rebound
identifier named `name` appends only a failure with the text for `name` (the name of the
record that the scope maps `name` to), at the position of the node of that record. -/
theorem failure_fields (ti : TypesInfo) :
    (∀ name : String, message name =
        "redundant declaration of '" ++ name ++ "'; it's redeclared via := assignment") ∧
      (∀ body : List Stmt, ∀ f ∈ analyzeFunc ti body, f.confidence = 1 ∧
        ∃ id : Ident, (declaredStmts body)[f.node]? = some id ∧ f.position = id.pos ∧
          f.failure = message id.name) ∧
      ∀ (name : String) (c : State), ∀ f ∈ (checkRedundant name c).failures,
        f ∈ c.failures ∨
          (f.confidence = 1 ∧ f.failure = message name ∧
            ∃ (r : Nat) (x : varDecl), c.vars name = some r ∧ c.heap[r]? = some x ∧
              x.used = false ∧ x.redefined = false ∧ f.node = r ∧
              f.position = x.node.pos) := by
  refine ⟨fun _ => rfl, ?_, checkRedundant_appended⟩
  intro body f hf
  obtain ⟨heap, hheap, -, hall⟩ := analyzeFunc_spec ti body
  obtain ⟨hc, y, hy, hpos, htxt⟩ := hall f hf
  refine ⟨hc, y.node, ?_, hpos, htxt⟩
  rw [← hheap, List.getElem?_map, hy]
  rfl

/-! ## Function bodies are analysed one by one -/

theorem map_getD_range (L : List Nat) :
    (List.range L.length).map (fun r => L[r]?.getD 0) = L := by
  apply List.ext_getElem?
  intro i
  rw [List.getElem?_map]
  by_cases h : i < L.length
  · rw [List.getElem?_range h]
    simp [h]
  · have h' : L.length ≤ i := Nat.le_of_not_lt h
    rw [List.getElem?_eq_none h', List.getElem?_eq_none (by simpa using h')]
    rfl

/-- The positions of the failures of a body are, with multiplicity, among the positions of
the identifiers for which its walk allocates a record. -/
theorem positions_subperm (ti : TypesInfo) (body : List Stmt) :
    List.Subperm ((analyzeFunc ti body).map Failure.position)
      ((declaredStmts body).map Ident.pos) := by
  obtain ⟨heap, hheap, hnodup, hall⟩ := analyzeFunc_spec ti body
  have hmap : (analyzeFunc ti body).map Failure.position =
      ((analyzeFunc ti body).map Failure.node).map
        (fun r => ((declaredStmts body).map Ident.pos)[r]?.getD 0) := by
    rw [List.map_map]
    apply List.map_congr_left
    intro f hf
    obtain ⟨-, y, hy, hpos, -⟩ := hall f hf
    simp only [Function.comp]
    rw [← hheap, List.getElem?_map, List.getElem?_map, hy, hpos]
    rfl
  have hsub : List.Subperm ((analyzeFunc ti body).map Failure.node)
      (List.range ((declaredStmts body).map Ident.pos).length) := by
    apply List.subperm_of_subset hnodup
    intro r hr
    obtain ⟨f, hf, rfl⟩ := List.mem_map.mp hr
    obtain ⟨-, y, hy, -⟩ := hall f hf
    have hlt := (List.getElem?_eq_some.mp hy).1
    rw [List.mem_range, List.length_map, ← hheap, List.length_map]
    exact hlt
  obtain ⟨l, hp, hs⟩ := hsub
  rw [hmap]
  have hS : List.Subperm
      (((analyzeFunc ti body).map Failure.node).map
        (fun r => ((declaredStmts body).map Ident.pos)[r]?.getD 0))
      ((List.range ((declaredStmts body).map Ident.pos).length).map
        (fun r => ((declaredStmts body).map Ident.pos)[r]?.getD 0)) :=
    ⟨l.map _, hp.map _, hs.map _⟩
  rwa [map_getD_range] at hS

theorem count_positions_analyzeBodies (ti : TypesInfo) (p : Nat) :
    ∀ bodies : List (List Stmt),
      ((analyzeBodies ti bodies).map Failure.position).count p ≤
        ((declaredBodies bodies).map Ident.pos).count p
  | [] => Nat.le_refl _
  | b :: bs => by
    simp only [analyzeBodies, declaredBodies, List.map_append, List.count_append]
    exact Nat.add_le_add ((positions_subperm ti b).count_le p)
      (count_positions_analyzeBodies ti p bs)

theorem mem_analyzeBodies (ti : TypesInfo) (body : List Stmt) :
    ∀ bodies : List (List Stmt), body ∈ bodies →
      ∀ f ∈ analyzeFunc ti body, f ∈ analyzeBodies ti bodies
  | [], h, _, _ => by cases h
  | b :: bs, h, f, hf => by
    simp only [analyzeBodies, List.mem_append]
    rcases List.mem_cons.mp h with h | h
    · exact Or.inl (h ▸ hf)
    · exact Or.inr (mem_analyzeBodies ti body bs h f hf)

/-! ## The function `init` -/

theorem analysedBodies_append (a b : List FileDecl) :
    analysedBodies (a ++ b) = analysedBodies a ++ analysedBodies b := by
  induction a with
  | nil => rfl
  | cons d a ih =>
    simp only [List.cons_append, analysedBodies, List.append_assoc]
    exact congrArg _ ih

theorem analyzeBodies_append (ti : TypesInfo) (a b : List (List Stmt)) :
    analyzeBodies ti (a ++ b) = analyzeBodies ti a ++ analyzeBodies ti b := by
  induction a with
  | nil => rfl
  | cons d a ih =>
    simp only [List.cons_append, analyzeBodies, List.append_assoc]
    exact congrArg _ ih

theorem apply_append (ti : TypesInfo) (a b : List FileDecl) :
    Apply ti (a ++ b) = Apply ti a ++ Apply ti b := by
  unfold Apply
  rw [analysedBodies_append, analyzeBodies_append]

theorem apply_cons (ti : TypesInfo) (d : FileDecl) (ds : List FileDecl) :
    Apply ti (d :: ds) = analyzeBodies ti d.analysedBodies ++ Apply ti ds := by
  unfold Apply
  simp only [analysedBodies]
  rw [analyzeBodies_append]

/-- C15: `Apply` returns no failure that comes from the body of a function declaration
named `init` or from a function literal nested in it, whatever the body holds: such a
declaration has no analysed body, and `Apply` returns for the file what it returns for the
file without this declaration.  Every other function declaration with a body is analysed:
the failures of its body stand in the result of `Apply`, after those of the declarations
before it and before those of its function literals and of the declarations after it.  On
the fixture `init`, whose body alone would yield a failure for `initVar`, `Apply` returns
nothing. -/
theorem init_function_skipped (ti : TypesInfo) :
    (∀ (recv : List Field) (name : Ident) (type : Expr) (body : Option (List Stmt)),
        name.name = "init" →
        (FileDecl.funcDecl recv name type body).analysedBodies = [] ∧
          ∀ before after : List FileDecl,
            Apply ti (before ++ FileDecl.funcDecl recv name type body :: after) =
              Apply ti (before ++ after)) ∧
      (∀ (recv : List Field) (name : Ident) (type : Expr) (b : List Stmt),
        name.name ≠ "init" →
        ∀ before after : List FileDecl,
          Apply ti (before ++ FileDecl.funcDecl recv name type (some b) :: after) =
            Apply ti before ++
              (analyzeFunc ti b ++
                analyzeBodies ti (funcLitsFields recv ++ type.funcLits ++ funcLitsStmts b)) ++
              Apply ti after) ∧
      analyzeFunc fixtureTypesInfo initFixtureBody =
        [{ confidence := 1, node := 0, failure := message "initVar", position := 620 }] ∧
      Apply fixtureTypesInfo
        [FileDecl.funcDecl [] ⟨"init", 600⟩ (Expr.funcType [] [] []) (some initFixtureBody)] =
        [] := by
  refine ⟨?_, ?_, by decide, by decide⟩
  · intro recv name type body hname
    have hnone : (FileDecl.funcDecl recv name type body).analysedBodies = [] := by
      simp [FileDecl.analysedBodies, hname]
    refine ⟨hnone, ?_⟩
    intro before after
    rw [apply_append, apply_cons, hnone, apply_append]
    rfl
  · intro recv name type b hname before after
    rw [apply_append, apply_cons]
    simp only [FileDecl.analysedBodies, hname, if_false, analyzeBodies, List.append_assoc]

/-! ## The range statement -/

theorem checkRedundant_reports (name : String) (c : State) (r : Nat) (d : varDecl)
    (hv : c.vars name = some r) (hr : c.heap[r]? = some d) (hu : d.used = false)
    (hd : d.redefined = false) :
    checkRedundant name c =
      { c with
        heap := setRedefined r c.heap
        failures := c.failures ++
          [{ confidence := 1, node := r, failure := message name, position := d.node.pos }] } := by
  unfold checkRedundant
  simp only [hv, hr, hu, hd]
  rfl

/-- C16: a `range` statement with `:=` marks the range subject used first and then checks
the key and the value, without asking the type information (it enters only the walk of the
body).  A key or value identifier other than the blank identifier whose name the scope
maps, when it is checked, to a record that is neither used nor redefined appends the
failure for that record and marks it redefined; so when the key is such an identifier in
the state after the subject is marked, the statement appends that failure, whatever the
type information answers. -/
theorem range_define_reports (ti : TypesInfo) (id : Ident) (c : State) (r : Nat) (d : varDecl)
    (hid : id.name ≠ "_") (hv : c.vars id.name = some r) (hr : c.heap[r]? = some d)
    (hu : d.used = false) (hd : d.redefined = false) :
    checkRedundantExpr (some (Expr.ident id)) c =
        { c with
          heap := setRedefined r c.heap
          failures := c.failures ++
            [{ confidence := 1, node := r, failure := message id.name,
               position := d.node.pos }] } ∧
      (∀ (key value x : Option Expr) (body : List Stmt) (c' : State),
        processStatement ti (Stmt.rangeStmt key value Token.DEFINE x body) c' =
          analyzeBlock ti body
            (checkRedundantExpr value (checkRedundantExpr key (markUsedInExprOpt x c')))) ∧
      ∀ (value x : Option Expr) (body : List Stmt) (c₀ : State), markUsedInExprOpt x c₀ = c →
        ∃ new,
          (processStatement ti
            (Stmt.rangeStmt (some (Expr.ident id)) value Token.DEFINE x body) c₀).failures =
            c₀.failures ++
              { confidence := 1, node := r, failure := message id.name,
                position := d.node.pos } :: new := by
  have hkey : checkRedundantExpr (some (Expr.ident id)) c =
      { c with
        heap := setRedefined r c.heap
        failures := c.failures ++
          [{ confidence := 1, node := r, failure := message id.name,
             position := d.node.pos }] } := by
    simp only [checkRedundantExpr, hid, ne_eq, not_false_eq_true, if_true]
    exact checkRedundant_reports id.name c r d hv hr hu hd
  have hrange : ∀ (key value x : Option Expr) (body : List Stmt) (c' : State),
      processStatement ti (Stmt.rangeStmt key value Token.DEFINE x body) c' =
        analyzeBlock ti body
          (checkRedundantExpr value (checkRedundantExpr key (markUsedInExprOpt x c'))) := by
    intro key value x body c'
    simp [processStatement, checkRedundantInAssignment]
  refine ⟨hkey, hrange, ?_⟩
  intro value x body c₀ hc
  rw [hrange, hc, hkey]
  have h1 := walkRel_step.on_checkRedundantExpr value
    { c with
      heap := setRedefined r c.heap
      failures := c.failures ++
        [{ confidence := 1, node := r, failure := message id.name, position := d.node.pos }] }
  have h2 := step_analyzeBlock ti body (checkRedundantExpr value
    { c with
      heap := setRedefined r c.heap
      failures := c.failures ++
        [{ confidence := 1, node := r, failure := message id.name, position := d.node.pos }] })
  obtain ⟨n1, e1, -⟩ := h1.appended
  obtain ⟨n2, e2, -⟩ := h2.appended
  refine ⟨n1 ++ n2, ?_⟩
  rw [e2, e1]
  have hf : c.failures = c₀.failures := by
    rw [← hc]
    cases x with
    | none => rfl
    | some x => exact markUsedInExpr_failures [x] c₀
  simp [hf]

/-- C16 at `var item string; for _, item := range items { }`: although the type
information answers that `item` defines a new object, the record of `var item` is
reported. -/
theorem range_define_reports_witness :
    definesNew (some fun _ => true) ⟨"item", 40⟩ = true ∧
      (processStatement (some fun _ => true)
        (Stmt.rangeStmt (some (Expr.ident ⟨"_", 37⟩)) (some (Expr.ident ⟨"item", 40⟩))
          Token.DEFINE (some (Expr.ident ⟨"items", 54⟩)) [])
        { vars := fun n => if n = "item" then some 0 else none
          heap := [{ node := ⟨"item", 10⟩, pos := 10, used := false, redefined := false }]
          failures := [] }).failures =
        [{ confidence := 1, node := 0, failure := message "item", position := 10 }] ∧
      checkRedundantExpr (some (Expr.ident ⟨"item", 40⟩))
        { vars := fun n => if n = "item" then some 0 else none
          heap := [{ node := ⟨"item", 10⟩, pos := 10, used := false, redefined := false }]
          failures := [] } =
        { vars := fun n => if n = "item" then some 0 else none
          heap := setRedefined 0
            [{ node := ⟨"item", 10⟩, pos := 10, used := false, redefined := false }]
          failures := [] ++
            [{ confidence := 1, node := 0, failure := message "item", position := 10 }] } :=
  ⟨rfl, by decide,
    (range_define_reports (some fun _ => true) ⟨"item", 40⟩
      { vars := fun n => if n = "item" then some 0 else none
        heap := [{ node := ⟨"item", 10⟩, pos := 10, used := false, redefined := false }]
        failures := [] } 0
      { node := ⟨"item", 10⟩, pos := 10, used := false, redefined := false }
      (by decide) (by decide) rfl rfl rfl).1⟩

/-! ## Termination -/

theorem height_pos (s : Stmt) : 0 < s.height := by
  cases s <;> simp [Stmt.height]

theorem blockFuel_eq {step : Stmt → State → Option State} {ti : TypesInfo} {l : List Stmt}
    {c : State} (h : stmtsFuel step l c = some (processStatements ti l c)) :
    blockFuel step l c = some (analyzeBlock ti l c) := by
  unfold blockFuel
  rw [h]
  cases l <;> rfl

mutual
/-- With a budget of at least its height, the walker with a budget returns what
`processStatement` returns. -/
theorem fuel_processStatement (ti : TypesInfo) :
    ∀ (s : Stmt) (n : Nat) (c : State), s.height ≤ n →
      processStatementFuel ti n s c = some (processStatement ti s c)
  | .declStmt decl, n, c, h => by
    obtain ⟨m, rfl⟩ := Nat.exists_eq_succ_of_ne_zero
      (Nat.pos_iff_ne_zero.mp (Nat.lt_of_lt_of_le (height_pos _) h))
    rfl
  | .assignStmt lhs tok rhs, n, c, h => by
    obtain ⟨m, rfl⟩ := Nat.exists_eq_succ_of_ne_zero
      (Nat.pos_iff_ne_zero.mp (Nat.lt_of_lt_of_le (height_pos _) h))
    rfl
  | .blockStmt list, n, c, h => by
    obtain ⟨m, rfl⟩ := Nat.exists_eq_succ_of_ne_zero
      (Nat.pos_iff_ne_zero.mp (Nat.lt_of_lt_of_le (height_pos _) h))
    simp only [Stmt.height] at h
    simp only [processStatementFuel, processStatement]
    exact blockFuel_eq (fuel_processStatements ti list m c (by omega))
  | .ifStmt init cond body els, n, c, h => by
    obtain ⟨m, rfl⟩ := Nat.exists_eq_succ_of_ne_zero
      (Nat.pos_iff_ne_zero.mp (Nat.lt_of_lt_of_le (height_pos _) h))
    simp only [Stmt.height] at h
    simp only [processStatementFuel, processStatement]
    rw [fuel_processStatementOpt ti init m c (by omega), Option.some_bind,
      blockFuel_eq (fuel_processStatements ti body m _ (by omega)), Option.some_bind,
      fuel_processStatementOpt ti els m _ (by omega)]
  | .forStmt init cond post body, n, c, h => by
    obtain ⟨m, rfl⟩ := Nat.exists_eq_succ_of_ne_zero
      (Nat.pos_iff_ne_zero.mp (Nat.lt_of_lt_of_le (height_pos _) h))
    simp only [Stmt.height] at h
    simp only [processStatementFuel, processStatement]
    rw [fuel_processStatementOpt ti init m c (by omega), Option.some_bind,
      fuel_processStatementOpt ti post m _ (by omega), Option.some_bind,
      blockFuel_eq (fuel_processStatements ti body m _ (by omega))]
  | .rangeStmt key value tok x body, n, c, h => by
    obtain ⟨m, rfl⟩ := Nat.exists_eq_succ_of_ne_zero
      (Nat.pos_iff_ne_zero.mp (Nat.lt_of_lt_of_le (height_pos _) h))
    simp only [Stmt.height] at h
    simp only [processStatementFuel, processStatement]
    exact blockFuel_eq (fuel_processStatements ti body m _ (by omega))
  | .switchStmt init tag body, n, c, h => by
    obtain ⟨m, rfl⟩ := Nat.exists_eq_succ_of_ne_zero
      (Nat.pos_iff_ne_zero.mp (Nat.lt_of_lt_of_le (height_pos _) h))
    simp only [Stmt.height] at h
    simp only [processStatementFuel, processStatement]
    rw [fuel_processStatementOpt ti init m c (by omega), Option.some_bind,
      blockFuel_eq (fuel_processStatements ti body m _ (by omega))]
  | .typeSwitchStmt init assign body, n, c, h => by
    obtain ⟨m, rfl⟩ := Nat.exists_eq_succ_of_ne_zero
      (Nat.pos_iff_ne_zero.mp (Nat.lt_of_lt_of_le (height_pos _) h))
    simp only [Stmt.height] at h
    simp only [processStatementFuel, processStatement]
    rw [fuel_processStatementOpt ti init m c (by omega), Option.some_bind,
      fuel_processStatementOpt ti assign m _ (by omega), Option.some_bind,
      blockFuel_eq (fuel_processStatements ti body m _ (by omega))]
  | .selectStmt body, n, c, h => by
    obtain ⟨m, rfl⟩ := Nat.exists_eq_succ_of_ne_zero
      (Nat.pos_iff_ne_zero.mp (Nat.lt_of_lt_of_le (height_pos _) h))
    simp only [Stmt.height] at h
    simp only [processStatementFuel, processStatement]
    exact blockFuel_eq (fuel_processStatements ti body m c (by omega))
  | .caseClause list body, n, c, h => by
    obtain ⟨m, rfl⟩ := Nat.exists_eq_succ_of_ne_zero
      (Nat.pos_iff_ne_zero.mp (Nat.lt_of_lt_of_le (height_pos _) h))
    simp only [Stmt.height] at h
    simp only [processStatementFuel, processStatement]
    exact fuel_processStatements ti body m _ (by omega)
  | .exprStmt x, n, c, h => by
    obtain ⟨m, rfl⟩ := Nat.exists_eq_succ_of_ne_zero
      (Nat.pos_iff_ne_zero.mp (Nat.lt_of_lt_of_le (height_pos _) h))
    rfl
  | .returnStmt results, n, c, h => by
    obtain ⟨m, rfl⟩ := Nat.exists_eq_succ_of_ne_zero
      (Nat.pos_iff_ne_zero.mp (Nat.lt_of_lt_of_le (height_pos _) h))
    rfl
  | .deferStmt fn args, n, c, h => by
    obtain ⟨m, rfl⟩ := Nat.exists_eq_succ_of_ne_zero
      (Nat.pos_iff_ne_zero.mp (Nat.lt_of_lt_of_le (height_pos _) h))
    rfl
  | .goStmt fn args, n, c, h => by
    obtain ⟨m, rfl⟩ := Nat.exists_eq_succ_of_ne_zero
      (Nat.pos_iff_ne_zero.mp (Nat.lt_of_lt_of_le (height_pos _) h))
    rfl
  | .sendStmt chan value, n, c, h => by
    obtain ⟨m, rfl⟩ := Nat.exists_eq_succ_of_ne_zero
      (Nat.pos_iff_ne_zero.mp (Nat.lt_of_lt_of_le (height_pos _) h))
    rfl
  | .incDecStmt x tok, n, c, h => by
    obtain ⟨m, rfl⟩ := Nat.exists_eq_succ_of_ne_zero
      (Nat.pos_iff_ne_zero.mp (Nat.lt_of_lt_of_le (height_pos _) h))
    rfl
  | .labeledStmt label stmt, n, c, h => by
    obtain ⟨m, rfl⟩ := Nat.exists_eq_succ_of_ne_zero
      (Nat.pos_iff_ne_zero.mp (Nat.lt_of_lt_of_le (height_pos _) h))
    simp only [Stmt.height] at h
    simp only [processStatementFuel, processStatement]
    exact fuel_processStatement ti stmt m c (by omega)
  | .branchStmt tok label, n, c, h => by
    obtain ⟨m, rfl⟩ := Nat.exists_eq_succ_of_ne_zero
      (Nat.pos_iff_ne_zero.mp (Nat.lt_of_lt_of_le (height_pos _) h))
    rfl
  | .badStmt, n, c, h => by
    obtain ⟨m, rfl⟩ := Nat.exists_eq_succ_of_ne_zero
      (Nat.pos_iff_ne_zero.mp (Nat.lt_of_lt_of_le (height_pos _) h))
    rfl
  | .emptyStmt, n, c, h => by
    obtain ⟨m, rfl⟩ := Nat.exists_eq_succ_of_ne_zero
      (Nat.pos_iff_ne_zero.mp (Nat.lt_of_lt_of_le (height_pos _) h))
    rfl
  | .commClause comm body, n, c, h => by
    obtain ⟨m, rfl⟩ := Nat.exists_eq_succ_of_ne_zero
      (Nat.pos_iff_ne_zero.mp (Nat.lt_of_lt_of_le (height_pos _) h))
    rfl
theorem fuel_processStatementOpt (ti : TypesInfo) :
    ∀ (s : Option Stmt) (n : Nat) (c : State), heightStmtOpt s ≤ n →
      optFuel (processStatementFuel ti n) s c = some (processStatementOpt ti s c)
  | none, _, _, _ => rfl
  | some s, n, c, h => by
    simp only [optFuel, processStatementOpt]
    exact fuel_processStatement ti s n c h
theorem fuel_processStatements (ti : TypesInfo) :
    ∀ (l : List Stmt) (n : Nat) (c : State), heightStmts l ≤ n →
      stmtsFuel (processStatementFuel ti n) l c = some (processStatements ti l c)
  | [], _, _, _ => rfl
  | s :: ss, n, c, h => by
    simp only [heightStmts] at h
    simp only [stmtsFuel, processStatements]
    rw [fuel_processStatement ti s n c (by omega), Option.some_bind]
    exact fuel_processStatements ti ss n _ (by omega)
end

/-- C18: the walk always terminates, for every type information.  `processStatement`,
`analyzeBlock` and `markUsedInExpr` are total functions on statement and expression trees,
every recursive call being on a sub-tree; and the walker that recurses over a budget of
nested calls instead of over the tree returns, with any budget of at least the height of
the statement (of the statements of the block), exactly what they return. -/
theorem walk_terminates (ti : TypesInfo) :
    (∀ (s : Stmt) (k : Nat) (c : State),
        processStatementFuel ti (s.height + k) s c = some (processStatement ti s c)) ∧
      (∀ (body : List Stmt) (k : Nat) (c : State),
        blockFuel (processStatementFuel ti (heightStmts body + k)) body c =
          some (analyzeBlock ti body c)) ∧
      ∀ (s : Stmt) (c : State), ∃ d, processStatementFuel ti s.height s c = some d := by
  refine ⟨?_, ?_, ?_⟩
  · intro s k c
    exact fuel_processStatement ti s _ c (Nat.le_add_right _ _)
  · intro body k c
    exact blockFuel_eq (fuel_processStatements ti body _ c (Nat.le_add_right _ _))
  · intro s c
    exact ⟨_, fuel_processStatement ti s _ c (Nat.le_refl _)⟩

/-! ## Reads that the walker does not see -/

/-- C17, the code at the failing input.  `processStatement` has no case for a
communication clause, so it returns the state as it is: the arms of a `select` statement
are never processed.  In
`var result string; select { case result = <-getChan(): fmt.Println(result) }; result, err := getDefault()`
neither the communication `result = <-getChan()` nor the read in `fmt.Println(result)`
marks the record of `result`, and the later rebind reports the declaration. -/
theorem select_arm_not_processed :
    (∀ (ti : TypesInfo) (comm : Option Stmt) (body : List Stmt) (c : State),
        processStatement ti (Stmt.commClause comm body) c = c) ∧
      analyzeFunc (some fun id => decide (id.name = "err"))
        [varStmt "result" 10 "string",
          Stmt.selectStmt
            [Stmt.commClause
              (some (Stmt.assignStmt [Expr.ident ⟨"result", 40⟩] Token.ASSIGN
                [Expr.unaryExpr (Token.other 36)
                  (Expr.callExpr (Expr.ident ⟨"getChan", 51⟩) [])]))
              [printlnStmt 70 [Expr.ident ⟨"result", 82⟩]]],
          Stmt.assignStmt [Expr.ident ⟨"result", 100⟩, Expr.ident ⟨"err", 108⟩] Token.DEFINE
            [Expr.callExpr (Expr.ident ⟨"getDefault", 115⟩) []]] =
        [{ confidence := 1, node := 0, failure := message "result", position := 10 }] := by
  refine ⟨fun _ _ _ _ => rfl, by decide⟩

/-- C19, the code at the failing input.  For an assignment whose token is neither `:=` nor
`=` only the right-hand side is marked; in `var v int; v += 1; v, y := f()` the compound
assignment does not mark the record of `v`, and the rebind reports the declaration. -/
theorem compound_assignment_not_marked :
    (∀ (ti : TypesInfo) (code : Nat) (lhs rhs : List Expr) (c : State),
        processStatement ti (Stmt.assignStmt lhs (Token.other code) rhs) c =
          markUsedInExpr rhs c) ∧
      analyzeFunc (some fun id => decide (id.name = "y"))
        [varStmt "v" 10 "int",
          Stmt.assignStmt [Expr.ident ⟨"v", 30⟩] (Token.other 23) [Expr.basicLit "1"],
          Stmt.assignStmt [Expr.ident ⟨"v", 50⟩, Expr.ident ⟨"y", 53⟩] Token.DEFINE
            [Expr.callExpr (Expr.ident ⟨"f", 58⟩) []]] =
        [{ confidence := 1, node := 0, failure := message "v", position := 10 }] := by
  refine ⟨fun _ _ _ _ _ => by simp [processStatement], by decide⟩

/-- C20, the code at the failing input.  A declaration statement is processed without a
look at its types and initializers; in `var v int; var w int = v; v, y := f()` the
initializer of `w` does not mark the record of `v`, and the rebind reports the declaration
of `v`. -/
theorem initializer_not_marked :
    (∀ (ti : TypesInfo) (names : List Ident) (type : Option Expr) (values : List Expr)
        (c : State),
        processStatement ti
            (Stmt.declStmt (Decl.genDecl Token.VAR [Spec.valueSpec names type values])) c =
          processStatement ti
            (Stmt.declStmt (Decl.genDecl Token.VAR [Spec.valueSpec names none []])) c) ∧
      analyzeFunc (some fun id => decide (id.name = "y"))
        [varStmt "v" 10 "int",
          Stmt.declStmt (Decl.genDecl Token.VAR
            [Spec.valueSpec [⟨"w", 30⟩] (some (Expr.ident ⟨"int", 32⟩)) [Expr.ident ⟨"v", 38⟩]]),
          Stmt.assignStmt [Expr.ident ⟨"v", 50⟩, Expr.ident ⟨"y", 53⟩] Token.DEFINE
            [Expr.callExpr (Expr.ident ⟨"f", 58⟩) []]] =
        [{ confidence := 1, node := 0, failure := message "v", position := 10 }] := by
  refine ⟨fun _ _ _ _ _ => rfl, by decide⟩

/-! ## Statements without effect, and labels -/

/-- C22: processing a jump statement (`break`, `continue`, `goto`, `fallthrough`) or a
statement of a kind that the type switch of `processStatement` has no case for (an empty
statement, a bad statement, a communication clause) returns the state as it is: the scope
mapping, the flags of every record and the failure list are unchanged; and processing a
labeled statement is processing the statement it wraps. -/
theorem jumps_and_unknown_statements_skipped (ti : TypesInfo) (c : State) :
    (∀ (tok : Token) (label : Option Ident),
        processStatement ti (Stmt.branchStmt tok label) c = c) ∧
      processStatement ti Stmt.emptyStmt c = c ∧
      processStatement ti Stmt.badStmt c = c ∧
      (∀ (comm : Option Stmt) (body : List Stmt),
        processStatement ti (Stmt.commClause comm body) c = c) ∧
      ∀ (label : Ident) (s : Stmt),
        processStatement ti (Stmt.labeledStmt label s) c = processStatement ti s c :=
  ⟨fun _ _ => rfl, rfl, rfl, fun _ _ => rfl, fun _ _ => rfl⟩

/-! ## Marking by spelling -/

theorem selector_name_mem (x : Expr) (sel : Ident) :
    sel.name ∈ identNames [Expr.selectorExpr x sel] :=
  mem_identNames.mpr ⟨sel, by simp [inspectExprs, Expr.inspect], rfl⟩

theorem funcLit_declared_name_mem (type : Expr) (id : Ident) (t : Option Expr)
    (values : List Expr) (rest : List Stmt) :
    id.name ∈ identNames
      [Expr.funcLit type
        (Stmt.declStmt (Decl.genDecl Token.VAR [Spec.valueSpec [id] t values]) :: rest)] :=
  mem_identNames.mpr ⟨id, by
    simp [inspectExprs, Expr.inspect, inspectStmts, Stmt.inspect, Decl.inspect, inspectSpecs,
      Spec.inspect], rfl⟩

/-- C23: used-marking is by spelling.  When `markUsedInExpr` is applied to expressions that
hold an identifier node named `v`, and the scope maps `v` to a record, that record is
marked used, whatever the identifier stands for: the field name in `obj.v` is such a node,
and so is the name of a `var v` declared inside a function literal.  A record that is used
is never reset: from every state in which it is used, processing any statement in any
scope with any type information leaves it used and appends no failure that reports it. -/
theorem marking_by_spelling (exprs : List Expr) (c : State) (v : String) (r : Nat)
    (hv : v ∈ identNames exprs) (hr : c.vars v = some r) (hx : ∃ x, c.heap[r]? = some x) :
    usedAt (markUsedInExpr exprs c) r = true ∧
      (∀ (x : Expr) (sel : Ident), sel.name ∈ identNames [Expr.selectorExpr x sel]) ∧
      (∀ (type : Expr) (id : Ident) (t : Option Expr) (values : List Expr) (rest : List Stmt),
        id.name ∈ identNames
          [Expr.funcLit type
            (Stmt.declStmt (Decl.genDecl Token.VAR [Spec.valueSpec [id] t values]) :: rest)]) ∧
      ∀ (ti : TypesInfo) (s : Stmt) (d : State), usedAt d r = true →
        usedAt (processStatement ti s d) r = true ∧
          ∃ new, (processStatement ti s d).failures = d.failures ++ new ∧
            ∀ f ∈ new, f.node ≠ r := by
  refine ⟨markUsedInExpr_usedAt exprs c v r hv hr hx, selector_name_mem,
    funcLit_declared_name_mem, ?_⟩
  intro ti s d hd
  have hstep := step_processStatement ti s d
  obtain ⟨x, hx', hxu⟩ := usedAt_iff.mp hd
  exact ⟨hstep.usedAt hd, hstep.silent hx' (Or.inl hxu)⟩

/-- C23 at `obj.v` marked in the scope of a tracked `var v int`: the field name marks the
record of the variable `v`. -/
theorem marking_by_spelling_witness :
    "v" ∈ identNames [Expr.selectorExpr (Expr.ident ⟨"obj", 30⟩) ⟨"v", 34⟩] ∧
      usedAt (markUsedInExpr [Expr.selectorExpr (Expr.ident ⟨"obj", 30⟩) ⟨"v", 34⟩]
        { vars := fun n => if n = "v" then some 0 else none
          heap := [{ node := ⟨"v", 10⟩, pos := 10, used := false, redefined := false }]
          failures := [] }) 0 = true :=
  ⟨by decide,
    (marking_by_spelling [Expr.selectorExpr (Expr.ident ⟨"obj", 30⟩) ⟨"v", 34⟩]
      { vars := fun n => if n = "v" then some 0 else none
        heap := [{ node := ⟨"v", 10⟩, pos := 10, used := false, redefined := false }]
        failures := [] } "v" 0 (by decide) (by decide) ⟨_, rfl⟩).1⟩

/-! ## Case clauses -/

/-- C21, the code at the failing inputs.  A case clause is processed with the tracker of
the switch body: its statements are walked by the loop of the clause, no scope is created
for it, and a single-name `var v T` of the clause stays in the mapping for the clauses
that follow.  In `switch x { case 1: var v int; case 2: v, y := f() }` analysed without
type information the rebind of the second clause reports the declaration of the first.
In `var v int; switch x { case 1: var v string; fmt.Println(v); case 2: fmt.Println(v) };
v, y := g()` with type information that is right (only `y` is new) the read of the outer
`v` in the second clause marks the record of the first clause, and the rebind after the
switch reports the outer declaration; with the two clauses written as the arms of an
`if`/`else`, each a block with its own scope, nothing is reported. -/
theorem case_clauses_share_scope :
    (∀ (ti : TypesInfo) (list : List Expr) (body : List Stmt) (c : State),
        processStatement ti (Stmt.caseClause list body) c =
          processStatements ti body (markUsedInExpr list c)) ∧
      (∀ (ti : TypesInfo) (list : List Expr) (v : Ident) (type : Option Expr) (c : State),
        v.name ≠ "_" →
          (processStatement ti
              (Stmt.caseClause list
                [Stmt.declStmt (Decl.genDecl Token.VAR [Spec.valueSpec [v] type []])]) c).vars
              v.name =
            some (markUsedInExpr list c).heap.length) ∧
      analyzeFunc none
        [Stmt.switchStmt none (some (Expr.ident ⟨"x", 5⟩))
          [Stmt.caseClause [Expr.basicLit "1"] [varStmt "v" 20 "int"],
            Stmt.caseClause [Expr.basicLit "2"]
              [Stmt.assignStmt [Expr.ident ⟨"v", 50⟩, Expr.ident ⟨"y", 53⟩] Token.DEFINE
                [Expr.callExpr (Expr.ident ⟨"f", 58⟩) []]]]] =
        [{ confidence := 1, node := 0, failure := message "v", position := 20 }] ∧
      analyzeFunc (some fun id => decide (id.name = "y"))
        [varStmt "v" 10 "int",
          Stmt.switchStmt none (some (Expr.ident ⟨"x", 30⟩))
            [Stmt.caseClause [Expr.basicLit "1"]
                [varStmt "v" 50 "string", printlnStmt 70 [Expr.ident ⟨"v", 82⟩]],
              Stmt.caseClause [Expr.basicLit "2"] [printlnStmt 100 [Expr.ident ⟨"v", 112⟩]]],
          Stmt.assignStmt [Expr.ident ⟨"v", 130⟩, Expr.ident ⟨"y", 133⟩] Token.DEFINE
            [Expr.callExpr (Expr.ident ⟨"g", 138⟩) []]] =
        [{ confidence := 1, node := 0, failure := message "v", position := 10 }] ∧
      analyzeFunc (some fun id => decide (id.name = "y"))
        [varStmt "v" 10 "int",
          Stmt.ifStmt none (some (Expr.ident ⟨"x", 30⟩))
            [varStmt "v" 50 "string", printlnStmt 70 [Expr.ident ⟨"v", 82⟩]]
            (some (Stmt.blockStmt [printlnStmt 100 [Expr.ident ⟨"v", 112⟩]])),
          Stmt.assignStmt [Expr.ident ⟨"v", 130⟩, Expr.ident ⟨"y", 133⟩] Token.DEFINE
            [Expr.callExpr (Expr.ident ⟨"g", 138⟩) []]] = [] := by
  refine ⟨fun _ _ _ _ => rfl, fun ti list v type c hv => ?_, by decide, by decide, by decide⟩
  simp [processStatement, processStatements, declareDecl, declareSpec, declareName, hv]

/-! ## The failures follow the rebinds -/

theorem reportedBy_refl (l : List Failure) : ReportedBy [] l l :=
  ⟨[], List.Sublist.refl _, [], by simp, rfl⟩

theorem reportedBy_trans {a b : List Ident} {x y z : List Failure}
    (h1 : ReportedBy a x y) (h2 : ReportedBy b y z) : ReportedBy (a ++ b) x z := by
  obtain ⟨i1, s1, n1, e1, t1⟩ := h1
  obtain ⟨i2, s2, n2, e2, t2⟩ := h2
  refine ⟨i1 ++ i2, s1.append s2, n1 ++ n2, ?_, ?_⟩
  · rw [e2, e1, List.append_assoc]
  · rw [List.map_append, List.map_append, t1, t2]

theorem reportedBy_left {a : List Ident} {x y z : List Failure}
    (h1 : ReportedBy [] x y) (h2 : ReportedBy a y z) : ReportedBy a x z := by
  simpa using reportedBy_trans h1 h2

theorem reportedBy_right {a : List Ident} {x y z : List Failure}
    (h1 : ReportedBy a x y) (h2 : ReportedBy [] y z) : ReportedBy a x z := by
  simpa using reportedBy_trans h1 h2

theorem reportedBy_checkRedundant (id : Ident) (c : State) :
    ReportedBy [id] c.failures (checkRedundant id.name c).failures := by
  unfold checkRedundant
  split
  · split
    · split
      · exact ⟨[id], List.Sublist.refl _, _, rfl, rfl⟩
      · exact ⟨[], by simp, [], by simp, rfl⟩
    · exact ⟨[], by simp, [], by simp, rfl⟩
  · exact ⟨[], by simp, [], by simp, rfl⟩

theorem reportedBy_skip (id : Ident) (l : List Failure) : ReportedBy [id] l l :=
  ⟨[], by simp, [], by simp, rfl⟩

theorem reportedBy_checkDefine (ti : TypesInfo) :
    ∀ (lhs : List Expr) (c : State),
      ReportedBy (defineTargets lhs) c.failures (checkDefine ti lhs c).failures
  | [], c => reportedBy_refl _
  | e :: es, c => by
    rw [checkDefine_cons]
    have ih := reportedBy_checkDefine ti es (checkDefineExpr ti e c)
    cases e with
    | ident id =>
      have h1 : ReportedBy [id] c.failures (checkDefineExpr ti (Expr.ident id) c).failures := by
        simp only [checkDefineExpr]
        split
        · split
          · exact reportedBy_skip id _
          · exact reportedBy_checkRedundant id c
        · exact reportedBy_skip id _
      simpa [defineTargets] using reportedBy_trans h1 ih
    | _ => simpa [defineTargets, checkDefineExpr] using ih

theorem reportedBy_checkRedundantInAssignment (key value : Option Expr) (c : State) :
    ReportedBy (rangeTargets key value) c.failures
      (checkRedundantInAssignment [key, value] c).failures := by
  have hone : ∀ (e : Option Expr) (d : State),
      ReportedBy (defineTargets e.toList) d.failures (checkRedundantExpr e d).failures := by
    intro e d
    cases e with
    | none => exact reportedBy_refl _
    | some e =>
      cases e with
      | ident id =>
        simp only [Option.toList, defineTargets, checkRedundantExpr]
        split
        · exact reportedBy_checkRedundant id d
        · exact reportedBy_skip id _
      | _ => exact reportedBy_refl _
  have h1 := hone key c
  have h2 := hone value (checkRedundantExpr key c)
  have hsplit : rangeTargets key value =
      defineTargets key.toList ++ defineTargets value.toList := by
    cases key with
    | none => rfl
    | some k => cases k <;> cases value <;> rfl
  rw [hsplit]
  simpa [checkRedundantInAssignment] using reportedBy_trans h1 h2

theorem foldl_failures {α : Type} (f : State → α → State)
    (hf : ∀ c a, (f c a).failures = c.failures) :
    ∀ (l : List α) (c : State), (l.foldl f c).failures = c.failures
  | [], _ => rfl
  | a :: l, c => by rw [List.foldl_cons, foldl_failures f hf l, hf]

theorem markAssigned_failures (lhs : List Expr) (c : State) :
    (markAssigned lhs c).failures = c.failures := by
  apply foldl_failures
  intro c e
  cases e <;> simp [markAssignedExpr, markName_failures]

theorem declareSpec_failures (s : Spec) (c : State) : (declareSpec s c).failures = c.failures := by
  cases s with
  | valueSpec names type values =>
    simp only [declareSpec]
    split
    · rfl
    · exact foldl_failures _ (fun c n => declareName_failures n c) names c
  | _ => rfl

theorem declareDecl_failures (d : Decl) (c : State) : (declareDecl d c).failures = c.failures := by
  cases d with
  | badDecl => rfl
  | genDecl tok specs =>
    simp only [declareDecl]
    split
    · exact foldl_failures _ (fun c s => declareSpec_failures s c) specs c
    · rfl

theorem markUsedInExprOpt_failures (e : Option Expr) (c : State) :
    (markUsedInExprOpt e c).failures = c.failures := by
  cases e with
  | none => rfl
  | some e => exact markUsedInExpr_failures [e] c

theorem markUsedInCallExpr_failures (fn : Expr) (args : List Expr) (c : State) :
    (markUsedInCallExpr fn args c).failures = c.failures := by
  unfold markUsedInCallExpr
  rw [markUsedInExpr_failures, markUsedInExpr_failures]

theorem markTypeSwitchAssign_failures (a : Option Stmt) (c : State) :
    (markTypeSwitchAssign a c).failures = c.failures := by
  unfold markTypeSwitchAssign
  split
  · split
    · exact markUsedInExpr_failures _ c
    · rfl
  · rfl

mutual
/-- The failures that a statement appends are those for a subsequence of its rebinds, in
the order of the source text. -/
theorem reportedBy_processStatement (ti : TypesInfo) :
    ∀ (s : Stmt) (c : State),
      ReportedBy s.rebinds c.failures (processStatement ti s c).failures
  | .declStmt decl, c => by
    simp only [processStatement, Stmt.rebinds, declareDecl_failures]
    exact reportedBy_refl _
  | .assignStmt lhs tok rhs, c => by
    simp only [processStatement, Stmt.rebinds]
    split
    · have h := reportedBy_checkDefine ti lhs (markUsedInExpr rhs c)
      rwa [markUsedInExpr_failures] at h
    · split
      · rw [markAssigned_failures, markUsedInExpr_failures]
        exact reportedBy_refl _
      · rw [markUsedInExpr_failures]
        exact reportedBy_refl _
  | .blockStmt list, c => by
    simp only [processStatement, Stmt.rebinds, analyzeBlock_failures]
    exact reportedBy_processStatements ti list c
  | .ifStmt init cond body els, c => by
    simp only [processStatement, Stmt.rebinds]
    have h1 := reportedBy_processStatementOpt ti init c
    have h2 := reportedBy_processStatements ti body
      (markUsedInExprOpt cond (processStatementOpt ti init c))
    rw [markUsedInExprOpt_failures, ← analyzeBlock_failures] at h2
    have h3 := reportedBy_processStatementOpt ti els
      (analyzeBlock ti body (markUsedInExprOpt cond (processStatementOpt ti init c)))
    exact reportedBy_trans (reportedBy_trans h1 h2) h3
  | .forStmt init cond post body, c => by
    simp only [processStatement, Stmt.rebinds]
    have h1 := reportedBy_processStatementOpt ti init c
    have h2 := reportedBy_processStatementOpt ti post
      (markUsedInExprOpt cond (processStatementOpt ti init c))
    rw [markUsedInExprOpt_failures] at h2
    have h3 := reportedBy_processStatements ti body
      (processStatementOpt ti post (markUsedInExprOpt cond (processStatementOpt ti init c)))
    rw [← analyzeBlock_failures] at h3
    exact reportedBy_trans (reportedBy_trans h1 h2) h3
  | .rangeStmt key value tok x body, c => by
    simp only [processStatement, Stmt.rebinds]
    split
    · have h1 := reportedBy_checkRedundantInAssignment key value (markUsedInExprOpt x c)
      rw [markUsedInExprOpt_failures] at h1
      have h2 := reportedBy_processStatements ti body
        (checkRedundantInAssignment [key, value] (markUsedInExprOpt x c))
      rw [← analyzeBlock_failures] at h2
      exact reportedBy_trans h1 h2
    · have h2 := reportedBy_processStatements ti body (markUsedInExprOpt x c)
      rw [← analyzeBlock_failures, markUsedInExprOpt_failures] at h2
      simpa using h2
  | .switchStmt init tag body, c => by
    simp only [processStatement, Stmt.rebinds]
    have h1 := reportedBy_processStatementOpt ti init c
    have h2 := reportedBy_processStatements ti body
      (markUsedInExprOpt tag (processStatementOpt ti init c))
    rw [markUsedInExprOpt_failures, ← analyzeBlock_failures] at h2
    exact reportedBy_trans h1 h2
  | .typeSwitchStmt init assign body, c => by
    simp only [processStatement, Stmt.rebinds]
    have h1 := reportedBy_processStatementOpt ti init c
    have h2 := reportedBy_processStatementOpt ti assign
      (markTypeSwitchAssign assign (processStatementOpt ti init c))
    rw [markTypeSwitchAssign_failures] at h2
    have h3 := reportedBy_processStatements ti body
      (processStatementOpt ti assign
        (markTypeSwitchAssign assign (processStatementOpt ti init c)))
    rw [← analyzeBlock_failures] at h3
    exact reportedBy_trans (reportedBy_trans h1 h2) h3
  | .selectStmt body, c => by
    simp only [processStatement, Stmt.rebinds, analyzeBlock_failures]
    exact reportedBy_processStatements ti body c
  | .caseClause list body, c => by
    simp only [processStatement, Stmt.rebinds]
    have h := reportedBy_processStatements ti body (markUsedInExpr list c)
    rwa [markUsedInExpr_failures] at h
  | .exprStmt x, c => by
    simp only [processStatement, Stmt.rebinds, markUsedInExpr_failures]
    exact reportedBy_refl _
  | .returnStmt results, c => by
    simp only [processStatement, Stmt.rebinds, markUsedInExpr_failures]
    exact reportedBy_refl _
  | .deferStmt fn args, c => by
    simp only [processStatement, Stmt.rebinds, markUsedInCallExpr_failures]
    exact reportedBy_refl _
  | .goStmt fn args, c => by
    simp only [processStatement, Stmt.rebinds, markUsedInCallExpr_failures]
    exact reportedBy_refl _
  | .sendStmt chan value, c => by
    simp only [processStatement, Stmt.rebinds, markUsedInExpr_failures]
    exact reportedBy_refl _
  | .incDecStmt x tok, c => by
    simp only [processStatement, Stmt.rebinds, markUsedInExpr_failures]
    exact reportedBy_refl _
  | .labeledStmt label stmt, c => by
    simp only [processStatement, Stmt.rebinds]
    exact reportedBy_processStatement ti stmt c
  | .branchStmt tok label, c => by
    simp only [processStatement, Stmt.rebinds]
    exact reportedBy_refl _
  | .badStmt, c => by
    simp only [processStatement, Stmt.rebinds]
    exact reportedBy_refl _
  | .emptyStmt, c => by
    simp only [processStatement, Stmt.rebinds]
    exact reportedBy_refl _
  | .commClause comm body, c => by
    simp only [processStatement]
    exact ⟨[], List.nil_sublist _, [], by simp, rfl⟩
theorem reportedBy_processStatementOpt (ti : TypesInfo) :
    ∀ (s : Option Stmt) (c : State),
      ReportedBy (rebindsStmtOpt s) c.failures (processStatementOpt ti s c).failures
  | none, c => reportedBy_refl _
  | some s, c => by
    simp only [processStatementOpt, rebindsStmtOpt]
    exact reportedBy_processStatement ti s c
theorem reportedBy_processStatements (ti : TypesInfo) :
    ∀ (l : List Stmt) (c : State),
      ReportedBy (rebindsStmts l) c.failures (processStatements ti l c).failures
  | [], c => reportedBy_refl _
  | s :: ss, c => by
    simp only [processStatements, rebindsStmts]
    exact reportedBy_trans (reportedBy_processStatement ti s c)
      (reportedBy_processStatements ti ss (processStatement ti s c))
end

/-- C10, as amended: the failures of one function are in the order in which the walk
reports them, the order of the reporting rebinds in the source text, not the order of the
declarations.  Every call of `processStatement` only appends to the failure list; for
every function body split into the statements up to some point and the statements after
it, the failures of the first part are the beginning of the failures of the whole body;
and the failures of a body are, one by one and in order, the failures for a subsequence of
the identifiers on the left of its `:=` statements and `:=` range clauses taken in the
order of the source text (an init part before the body, the body of an `if` before its
`else`, the statements of a list from first to last), each failure with the text for the
name of its identifier; so when the positions of these identifiers increase along the
source text, the failures are those of rebinds at increasing positions.  In
`var b int; var a int; if c { a, y := g() } else { b, x := f() }` the failure for `a`,
declared second and rebound first, comes first. -/
theorem failures_in_report_order (ti : TypesInfo) :
    (∀ (s : Stmt) (c : State), ∃ new, (processStatement ti s c).failures = c.failures ++ new) ∧
      (∀ first rest : List Stmt, ∃ new,
        analyzeFunc ti (first ++ rest) = analyzeFunc ti first ++ new) ∧
      (∀ body : List Stmt, ∃ ids : List Ident, ids.Sublist (rebindsStmts body) ∧
        (analyzeFunc ti body).map Failure.failure = ids.map (fun id => message id.name) ∧
        (((rebindsStmts body).map Ident.pos).Pairwise (fun p q => p < q) →
          (ids.map Ident.pos).Pairwise (fun p q => p < q))) ∧
      analyzeFunc (some fun id => decide (id.name = "x" ∨ id.name = "y"))
        [varStmt "b" 10 "int", varStmt "a" 30 "int",
          Stmt.ifStmt none (some (Expr.ident ⟨"c", 50⟩))
            [Stmt.assignStmt [Expr.ident ⟨"a", 60⟩, Expr.ident ⟨"y", 63⟩] Token.DEFINE
              [Expr.callExpr (Expr.ident ⟨"g", 68⟩) []]]
            (some (Stmt.blockStmt
              [Stmt.assignStmt [Expr.ident ⟨"b", 80⟩, Expr.ident ⟨"x", 83⟩] Token.DEFINE
                [Expr.callExpr (Expr.ident ⟨"f", 88⟩) []]]))] =
        [{ confidence := 1, node := 1, failure := message "a", position := 30 },
          { confidence := 1, node := 0, failure := message "b", position := 10 }] := by
  refine ⟨?_, ?_, ?_, by decide⟩
  · intro s c
    obtain ⟨new, hnew, -⟩ := (step_processStatement ti s c).appended
    exact ⟨new, hnew⟩
  · intro first rest
    rw [analyzeFunc_eq, analyzeFunc_eq, processStatements_append]
    obtain ⟨new, hnew, -⟩ := (step_processStatements ti rest
      (processStatements ti first { vars := fun _ => none, heap := [], failures := [] })).appended
    exact ⟨new, hnew⟩
  · intro body
    obtain ⟨ids, hsub, new, hnew, htext⟩ := reportedBy_processStatements ti body
      { vars := fun _ => none, heap := [], failures := [] }
    refine ⟨ids, hsub, ?_, fun h => h.sublist (hsub.map Ident.pos)⟩
    rw [analyzeFunc_eq, hnew]
    simpa using htext

/-! ## The three traversals agree

The bodies listed by `funcLits` are the bodies of the function literal nodes of `walk`,
one for each node and in the same order; the nodes listed by `inspect` are the identifier
and unary-expression nodes of `walk`. -/

theorem filterMap_litBody_idents (ids : List Ident) :
    (ids.map Expr.ident).filterMap Expr.litBody = [] := by
  induction ids with
  | nil => rfl
  | cons id ids ih => simp [Expr.litBody]

theorem filterMap_toNode_idents (ids : List Ident) :
    (ids.map Expr.ident).filterMap Expr.toNode = ids.map Node.ident := by
  induction ids with
  | nil => rfl
  | cons id ids ih => simpa [Expr.toNode] using ih

mutual
theorem funcLits_walk_expr : ∀ x : Expr, x.funcLits = x.walk.filterMap Expr.litBody
  | .badExpr => by
    simp only [Expr.funcLits, Expr.walk, Expr.litBody, List.filterMap_cons, List.filterMap_append,
      List.filterMap_nil, List.append_nil, List.nil_append, List.append_assoc, List.cons_append]
  | .ident id => by
    simp only [Expr.funcLits, Expr.walk, Expr.litBody, List.filterMap_cons, List.filterMap_append,
      List.filterMap_nil, List.append_nil, List.nil_append, List.append_assoc, List.cons_append]
  | .ellipsis elt => by
    simp only [Expr.funcLits, Expr.walk, Expr.litBody, List.filterMap_cons, List.filterMap_append,
      List.filterMap_nil, List.append_nil, List.nil_append, List.append_assoc, List.cons_append,
      funcLits_walk_exprOpt elt]
  | .basicLit value => by
    simp only [Expr.funcLits, Expr.walk, Expr.litBody, List.filterMap_cons, List.filterMap_append,
      List.filterMap_nil, List.append_nil, List.nil_append, List.append_assoc, List.cons_append]
  | .funcLit type body => by
    simp only [Expr.funcLits, Expr.walk, Expr.litBody, List.filterMap_cons, List.filterMap_append,
      List.filterMap_nil, List.append_nil, List.nil_append, List.append_assoc, List.cons_append,
      funcLits_walk_expr type, funcLits_walk_stmts body]
  | .compositeLit type elts => by
    simp only [Expr.funcLits, Expr.walk, Expr.litBody, List.filterMap_cons, List.filterMap_append,
      List.filterMap_nil, List.append_nil, List.nil_append, List.append_assoc, List.cons_append,
      funcLits_walk_exprOpt type, funcLits_walk_exprs elts]
  | .parenExpr x => by
    simp only [Expr.funcLits, Expr.walk, Expr.litBody, List.filterMap_cons, List.filterMap_append,
      List.filterMap_nil, List.append_nil, List.nil_append, List.append_assoc, List.cons_append,
      funcLits_walk_expr x]
  | .selectorExpr x sel => by
    simp only [Expr.funcLits, Expr.walk, Expr.litBody, List.filterMap_cons, List.filterMap_append,
      List.filterMap_nil, List.append_nil, List.nil_append, List.append_assoc, List.cons_append,
      funcLits_walk_expr x]
  | .indexExpr x index => by
    simp only [Expr.funcLits, Expr.walk, Expr.litBody, List.filterMap_cons, List.filterMap_append,
      List.filterMap_nil, List.append_nil, List.nil_append, List.append_assoc, List.cons_append,
      funcLits_walk_expr x, funcLits_walk_expr index]
  | .indexListExpr x indices => by
    simp only [Expr.funcLits, Expr.walk, Expr.litBody, List.filterMap_cons, List.filterMap_append,
      List.filterMap_nil, List.append_nil, List.nil_append, List.append_assoc, List.cons_append,
      funcLits_walk_expr x, funcLits_walk_exprs indices]
  | .sliceExpr x low high max => by
    simp only [Expr.funcLits, Expr.walk, Expr.litBody, List.filterMap_cons, List.filterMap_append,
      List.filterMap_nil, List.append_nil, List.nil_append, List.append_assoc, List.cons_append,
      funcLits_walk_expr x, funcLits_walk_exprOpt low, funcLits_walk_exprOpt high,
      funcLits_walk_exprOpt max]
  | .typeAssertExpr x type => by
    simp only [Expr.funcLits, Expr.walk, Expr.litBody, List.filterMap_cons, List.filterMap_append,
      List.filterMap_nil, List.append_nil, List.nil_append, List.append_assoc, List.cons_append,
      funcLits_walk_expr x, funcLits_walk_exprOpt type]
  | .callExpr fn args => by
    simp only [Expr.funcLits, Expr.walk, Expr.litBody, List.filterMap_cons, List.filterMap_append,
      List.filterMap_nil, List.append_nil, List.nil_append, List.append_assoc, List.cons_append,
      funcLits_walk_expr fn, funcLits_walk_exprs args]
  | .starExpr x => by
    simp only [Expr.funcLits, Expr.walk, Expr.litBody, List.filterMap_cons, List.filterMap_append,
      List.filterMap_nil, List.append_nil, List.nil_append, List.append_assoc, List.cons_append,
      funcLits_walk_expr x]
  | .unaryExpr op x => by
    simp only [Expr.funcLits, Expr.walk, Expr.litBody, List.filterMap_cons, List.filterMap_append,
      List.filterMap_nil, List.append_nil, List.nil_append, List.append_assoc, List.cons_append,
      funcLits_walk_expr x]
  | .binaryExpr x op y => by
    simp only [Expr.funcLits, Expr.walk, Expr.litBody, List.filterMap_cons, List.filterMap_append,
      List.filterMap_nil, List.append_nil, List.nil_append, List.append_assoc, List.cons_append,
      funcLits_walk_expr x, funcLits_walk_expr y]
  | .keyValueExpr key value => by
    simp only [Expr.funcLits, Expr.walk, Expr.litBody, List.filterMap_cons, List.filterMap_append,
      List.filterMap_nil, List.append_nil, List.nil_append, List.append_assoc, List.cons_append,
      funcLits_walk_expr key, funcLits_walk_expr value]
  | .arrayType len elt => by
    simp only [Expr.funcLits, Expr.walk, Expr.litBody, List.filterMap_cons, List.filterMap_append,
      List.filterMap_nil, List.append_nil, List.nil_append, List.append_assoc, List.cons_append,
      funcLits_walk_exprOpt len, funcLits_walk_expr elt]
  | .structType fields => by
    simp only [Expr.funcLits, Expr.walk, Expr.litBody, List.filterMap_cons, List.filterMap_append,
      List.filterMap_nil, List.append_nil, List.nil_append, List.append_assoc, List.cons_append,
      funcLits_walk_fields fields]
  | .funcType typeParams params results => by
    simp only [Expr.funcLits, Expr.walk, Expr.litBody, List.filterMap_cons, List.filterMap_append,
      List.filterMap_nil, List.append_nil, List.nil_append, List.append_assoc, List.cons_append,
      funcLits_walk_fields typeParams, funcLits_walk_fields params, funcLits_walk_fields results]
  | .interfaceType methods => by
    simp only [Expr.funcLits, Expr.walk, Expr.litBody, List.filterMap_cons, List.filterMap_append,
      List.filterMap_nil, List.append_nil, List.nil_append, List.append_assoc, List.cons_append,
      funcLits_walk_fields methods]
  | .mapType key value => by
    simp only [Expr.funcLits, Expr.walk, Expr.litBody, List.filterMap_cons, List.filterMap_append,
      List.filterMap_nil, List.append_nil, List.nil_append, List.append_assoc, List.cons_append,
      funcLits_walk_expr key, funcLits_walk_expr value]
  | .chanType value => by
    simp only [Expr.funcLits, Expr.walk, Expr.litBody, List.filterMap_cons, List.filterMap_append,
      List.filterMap_nil, List.append_nil, List.nil_append, List.append_assoc, List.cons_append,
      funcLits_walk_expr value]
theorem funcLits_walk_exprOpt : ∀ x : Option Expr,
    funcLitsExprOpt x = (walkExprOpt x).filterMap Expr.litBody
  | none => by
    simp only [funcLitsExprOpt, walkExprOpt, List.filterMap_nil]
  | some e => by
    simp only [funcLitsExprOpt, walkExprOpt, funcLits_walk_expr e]
theorem funcLits_walk_exprs : ∀ x : List Expr,
    funcLitsExprs x = (walkExprs x).filterMap Expr.litBody
  | [] => by
    simp only [funcLitsExprs, walkExprs, List.filterMap_nil]
  | e :: es => by
    simp only [funcLitsExprs, walkExprs, List.filterMap_append, funcLits_walk_expr e,
      funcLits_walk_exprs es]
theorem funcLits_walk_field : ∀ x : Field, x.funcLits = x.walk.filterMap Expr.litBody
  | .mk names type => by
    simp only [Field.funcLits, Field.walk, Expr.litBody, List.filterMap_cons,
      List.filterMap_append, List.filterMap_nil, List.append_nil, List.nil_append,
      List.append_assoc, List.cons_append, filterMap_litBody_idents, funcLits_walk_exprOpt type]
theorem funcLits_walk_fields : ∀ x : List Field,
    funcLitsFields x = (walkFields x).filterMap Expr.litBody
  | [] => by
    simp only [funcLitsFields, walkFields, List.filterMap_nil]
  | f :: fs => by
    simp only [funcLitsFields, walkFields, List.filterMap_append, funcLits_walk_field f,
      funcLits_walk_fields fs]
theorem funcLits_walk_spec : ∀ x : Spec, x.funcLits = x.walk.filterMap Expr.litBody
  | .importSpec name path => by
    simp only [Spec.funcLits, Spec.walk, Expr.litBody, List.filterMap_cons, List.filterMap_append,
      List.filterMap_nil, List.append_nil, List.nil_append, List.append_assoc, List.cons_append,
      filterMap_litBody_idents]
  | .valueSpec names type values => by
    simp only [Spec.funcLits, Spec.walk, Expr.litBody, List.filterMap_cons, List.filterMap_append,
      List.filterMap_nil, List.append_nil, List.nil_append, List.append_assoc, List.cons_append,
      filterMap_litBody_idents, funcLits_walk_exprOpt type, funcLits_walk_exprs values]
  | .typeSpec name typeParams type => by
    simp only [Spec.funcLits, Spec.walk, Expr.litBody, List.filterMap_cons, List.filterMap_append,
      List.filterMap_nil, List.append_nil, List.nil_append, List.append_assoc, List.cons_append,
      funcLits_walk_fields typeParams, funcLits_walk_expr type]
theorem funcLits_walk_specs : ∀ x : List Spec,
    funcLitsSpecs x = (walkSpecs x).filterMap Expr.litBody
  | [] => by
    simp only [funcLitsSpecs, walkSpecs, List.filterMap_nil]
  | s :: ss => by
    simp only [funcLitsSpecs, walkSpecs, List.filterMap_append, funcLits_walk_spec s,
      funcLits_walk_specs ss]
theorem funcLits_walk_decl : ∀ x : Decl, x.funcLits = x.walk.filterMap Expr.litBody
  | .badDecl => by
    simp only [Decl.funcLits, Decl.walk, Expr.litBody, List.filterMap_cons, List.filterMap_append,
      List.filterMap_nil, List.append_nil, List.nil_append, List.append_assoc, List.cons_append]
  | .genDecl tok specs => by
    simp only [Decl.funcLits, Decl.walk, Expr.litBody, List.filterMap_cons, List.filterMap_append,
      List.filterMap_nil, List.append_nil, List.nil_append, List.append_assoc, List.cons_append,
      funcLits_walk_specs specs]
theorem funcLits_walk_stmt : ∀ x : Stmt, x.funcLits = x.walk.filterMap Expr.litBody
  | .badStmt => by
    simp only [Stmt.funcLits, Stmt.walk, Expr.litBody, List.filterMap_cons, List.filterMap_append,
      List.filterMap_nil, List.append_nil, List.nil_append, List.append_assoc, List.cons_append]
  | .declStmt decl => by
    simp only [Stmt.funcLits, Stmt.walk, Expr.litBody, List.filterMap_cons, List.filterMap_append,
      List.filterMap_nil, List.append_nil, List.nil_append, List.append_assoc, List.cons_append,
      funcLits_walk_decl decl]
  | .emptyStmt => by
    simp only [Stmt.funcLits, Stmt.walk, Expr.litBody, List.filterMap_cons, List.filterMap_append,
      List.filterMap_nil, List.append_nil, List.nil_append, List.append_assoc, List.cons_append]
  | .labeledStmt label stmt => by
    simp only [Stmt.funcLits, Stmt.walk, Expr.litBody, List.filterMap_cons, List.filterMap_append,
      List.filterMap_nil, List.append_nil, List.nil_append, List.append_assoc, List.cons_append,
      funcLits_walk_stmt stmt]
  | .exprStmt x => by
    simp only [Stmt.funcLits, Stmt.walk, Expr.litBody, List.filterMap_cons, List.filterMap_append,
      List.filterMap_nil, List.append_nil, List.nil_append, List.append_assoc, List.cons_append,
      funcLits_walk_expr x]
  | .sendStmt chan value => by
    simp only [Stmt.funcLits, Stmt.walk, Expr.litBody, List.filterMap_cons, List.filterMap_append,
      List.filterMap_nil, List.append_nil, List.nil_append, List.append_assoc, List.cons_append,
      funcLits_walk_expr chan, funcLits_walk_expr value]
  | .incDecStmt x tok => by
    simp only [Stmt.funcLits, Stmt.walk, Expr.litBody, List.filterMap_cons, List.filterMap_append,
      List.filterMap_nil, List.append_nil, List.nil_append, List.append_assoc, List.cons_append,
      funcLits_walk_expr x]
  | .assignStmt lhs tok rhs => by
    simp only [Stmt.funcLits, Stmt.walk, Expr.litBody, List.filterMap_cons, List.filterMap_append,
      List.filterMap_nil, List.append_nil, List.nil_append, List.append_assoc, List.cons_append,
      funcLits_walk_exprs lhs, funcLits_walk_exprs rhs]
  | .goStmt fn args => by
    simp only [Stmt.funcLits, Stmt.walk, Expr.litBody, List.filterMap_cons, List.filterMap_append,
      List.filterMap_nil, List.append_nil, List.nil_append, List.append_assoc, List.cons_append,
      funcLits_walk_expr fn, funcLits_walk_exprs args]
  | .deferStmt fn args => by
    simp only [Stmt.funcLits, Stmt.walk, Expr.litBody, List.filterMap_cons, List.filterMap_append,
      List.filterMap_nil, List.append_nil, List.nil_append, List.append_assoc, List.cons_append,
      funcLits_walk_expr fn, funcLits_walk_exprs args]
  | .returnStmt results => by
    simp only [Stmt.funcLits, Stmt.walk, Expr.litBody, List.filterMap_cons, List.filterMap_append,
      List.filterMap_nil, List.append_nil, List.nil_append, List.append_assoc, List.cons_append,
      funcLits_walk_exprs results]
  | .branchStmt tok label => by
    simp only [Stmt.funcLits, Stmt.walk, Expr.litBody, List.filterMap_cons, List.filterMap_append,
      List.filterMap_nil, List.append_nil, List.nil_append, List.append_assoc, List.cons_append,
      filterMap_litBody_idents]
  | .blockStmt list => by
    simp only [Stmt.funcLits, Stmt.walk, Expr.litBody, List.filterMap_cons, List.filterMap_append,
      List.filterMap_nil, List.append_nil, List.nil_append, List.append_assoc, List.cons_append,
      funcLits_walk_stmts list]
  | .ifStmt init cond body els => by
    simp only [Stmt.funcLits, Stmt.walk, Expr.litBody, List.filterMap_cons, List.filterMap_append,
      List.filterMap_nil, List.append_nil, List.nil_append, List.append_assoc, List.cons_append,
      funcLits_walk_stmtOpt init, funcLits_walk_exprOpt cond, funcLits_walk_stmts body,
      funcLits_walk_stmtOpt els]
  | .caseClause list body => by
    simp only [Stmt.funcLits, Stmt.walk, Expr.litBody, List.filterMap_cons, List.filterMap_append,
      List.filterMap_nil, List.append_nil, List.nil_append, List.append_assoc, List.cons_append,
      funcLits_walk_exprs list, funcLits_walk_stmts body]
  | .switchStmt init tag body => by
    simp only [Stmt.funcLits, Stmt.walk, Expr.litBody, List.filterMap_cons, List.filterMap_append,
      List.filterMap_nil, List.append_nil, List.nil_append, List.append_assoc, List.cons_append,
      funcLits_walk_stmtOpt init, funcLits_walk_exprOpt tag, funcLits_walk_stmts body]
  | .typeSwitchStmt init assign body => by
    simp only [Stmt.funcLits, Stmt.walk, Expr.litBody, List.filterMap_cons, List.filterMap_append,
      List.filterMap_nil, List.append_nil, List.nil_append, List.append_assoc, List.cons_append,
      funcLits_walk_stmtOpt init, funcLits_walk_stmtOpt assign, funcLits_walk_stmts body]
  | .commClause comm body => by
    simp only [Stmt.funcLits, Stmt.walk, Expr.litBody, List.filterMap_cons, List.filterMap_append,
      List.filterMap_nil, List.append_nil, List.nil_append, List.append_assoc, List.cons_append,
      funcLits_walk_stmtOpt comm, funcLits_walk_stmts body]
  | .selectStmt body => by
    simp only [Stmt.funcLits, Stmt.walk, Expr.litBody, List.filterMap_cons, List.filterMap_append,
      List.filterMap_nil, List.append_nil, List.nil_append, List.append_assoc, List.cons_append,
      funcLits_walk_stmts body]
  | .forStmt init cond post body => by
    simp only [Stmt.funcLits, Stmt.walk, Expr.litBody, List.filterMap_cons, List.filterMap_append,
      List.filterMap_nil, List.append_nil, List.nil_append, List.append_assoc, List.cons_append,
      funcLits_walk_stmtOpt init, funcLits_walk_exprOpt cond, funcLits_walk_stmtOpt post,
      funcLits_walk_stmts body]
  | .rangeStmt key value tok x body => by
    simp only [Stmt.funcLits, Stmt.walk, Expr.litBody, List.filterMap_cons, List.filterMap_append,
      List.filterMap_nil, List.append_nil, List.nil_append, List.append_assoc, List.cons_append,
      funcLits_walk_exprOpt key, funcLits_walk_exprOpt value, funcLits_walk_exprOpt x,
      funcLits_walk_stmts body]
theorem funcLits_walk_stmtOpt : ∀ x : Option Stmt,
    funcLitsStmtOpt x = (walkStmtOpt x).filterMap Expr.litBody
  | none => by
    simp only [funcLitsStmtOpt, walkStmtOpt, List.filterMap_nil]
  | some s => by
    simp only [funcLitsStmtOpt, walkStmtOpt, funcLits_walk_stmt s]
theorem funcLits_walk_stmts : ∀ x : List Stmt,
    funcLitsStmts x = (walkStmts x).filterMap Expr.litBody
  | [] => by
    simp only [funcLitsStmts, walkStmts, List.filterMap_nil]
  | s :: ss => by
    simp only [funcLitsStmts, walkStmts, List.filterMap_append, funcLits_walk_stmt s,
      funcLits_walk_stmts ss]
end

mutual
theorem inspect_walk_expr : ∀ x : Expr, x.inspect = x.walk.filterMap Expr.toNode
  | .badExpr => by
    simp only [Expr.inspect, Expr.walk, Expr.toNode, List.filterMap_cons, List.filterMap_append,
      List.filterMap_nil, List.append_nil, List.nil_append, List.append_assoc, List.cons_append]
  | .ident id => by
    simp only [Expr.inspect, Expr.walk, Expr.toNode, List.filterMap_cons, List.filterMap_append,
      List.filterMap_nil, List.append_nil, List.nil_append, List.append_assoc, List.cons_append]
  | .ellipsis elt => by
    simp only [Expr.inspect, Expr.walk, Expr.toNode, List.filterMap_cons, List.filterMap_append,
      List.filterMap_nil, List.append_nil, List.nil_append, List.append_assoc, List.cons_append,
      inspect_walk_exprOpt elt]
  | .basicLit value => by
    simp only [Expr.inspect, Expr.walk, Expr.toNode, List.filterMap_cons, List.filterMap_append,
      List.filterMap_nil, List.append_nil, List.nil_append, List.append_assoc, List.cons_append]
  | .funcLit type body => by
    simp only [Expr.inspect, Expr.walk, Expr.toNode, List.filterMap_cons, List.filterMap_append,
      List.filterMap_nil, List.append_nil, List.nil_append, List.append_assoc, List.cons_append,
      inspect_walk_expr type, inspect_walk_stmts body]
  | .compositeLit type elts => by
    simp only [Expr.inspect, Expr.walk, Expr.toNode, List.filterMap_cons, List.filterMap_append,
      List.filterMap_nil, List.append_nil, List.nil_append, List.append_assoc, List.cons_append,
      inspect_walk_exprOpt type, inspect_walk_exprs elts]
  | .parenExpr x => by
    simp only [Expr.inspect, Expr.walk, Expr.toNode, List.filterMap_cons, List.filterMap_append,
      List.filterMap_nil, List.append_nil, List.nil_append, List.append_assoc, List.cons_append,
      inspect_walk_expr x]
  | .selectorExpr x sel => by
    simp only [Expr.inspect, Expr.walk, Expr.toNode, List.filterMap_cons, List.filterMap_append,
      List.filterMap_nil, List.append_nil, List.nil_append, List.append_assoc, List.cons_append,
      inspect_walk_expr x]
  | .indexExpr x index => by
    simp only [Expr.inspect, Expr.walk, Expr.toNode, List.filterMap_cons, List.filterMap_append,
      List.filterMap_nil, List.append_nil, List.nil_append, List.append_assoc, List.cons_append,
      inspect_walk_expr x, inspect_walk_expr index]
  | .indexListExpr x indices => by
    simp only [Expr.inspect, Expr.walk, Expr.toNode, List.filterMap_cons, List.filterMap_append,
      List.filterMap_nil, List.append_nil, List.nil_append, List.append_assoc, List.cons_append,
      inspect_walk_expr x, inspect_walk_exprs indices]
  | .sliceExpr x low high max => by
    simp only [Expr.inspect, Expr.walk, Expr.toNode, List.filterMap_cons, List.filterMap_append,
      List.filterMap_nil, List.append_nil, List.nil_append, List.append_assoc, List.cons_append,
      inspect_walk_expr x, inspect_walk_exprOpt low, inspect_walk_exprOpt high,
      inspect_walk_exprOpt max]
  | .typeAssertExpr x type => by
    simp only [Expr.inspect, Expr.walk, Expr.toNode, List.filterMap_cons, List.filterMap_append,
      List.filterMap_nil, List.append_nil, List.nil_append, List.append_assoc, List.cons_append,
      inspect_walk_expr x, inspect_walk_exprOpt type]
  | .callExpr fn args => by
    simp only [Expr.inspect, Expr.walk, Expr.toNode, List.filterMap_cons, List.filterMap_append,
      List.filterMap_nil, List.append_nil, List.nil_append, List.append_assoc, List.cons_append,
      inspect_walk_expr fn, inspect_walk_exprs args]
  | .starExpr x => by
    simp only [Expr.inspect, Expr.walk, Expr.toNode, List.filterMap_cons, List.filterMap_append,
      List.filterMap_nil, List.append_nil, List.nil_append, List.append_assoc, List.cons_append,
      inspect_walk_expr x]
  | .unaryExpr op x => by
    simp only [Expr.inspect, Expr.walk, Expr.toNode, List.filterMap_cons, List.filterMap_append,
      List.filterMap_nil, List.append_nil, List.nil_append, List.append_assoc, List.cons_append,
      inspect_walk_expr x]
  | .binaryExpr x op y => by
    simp only [Expr.inspect, Expr.walk, Expr.toNode, List.filterMap_cons, List.filterMap_append,
      List.filterMap_nil, List.append_nil, List.nil_append, List.append_assoc, List.cons_append,
      inspect_walk_expr x, inspect_walk_expr y]
  | .keyValueExpr key value => by
    simp only [Expr.inspect, Expr.walk, Expr.toNode, List.filterMap_cons, List.filterMap_append,
      List.filterMap_nil, List.append_nil, List.nil_append, List.append_assoc, List.cons_append,
      inspect_walk_expr key, inspect_walk_expr value]
  | .arrayType len elt => by
    simp only [Expr.inspect, Expr.walk, Expr.toNode, List.filterMap_cons, List.filterMap_append,
      List.filterMap_nil, List.append_nil, List.nil_append, List.append_assoc, List.cons_append,
      inspect_walk_exprOpt len, inspect_walk_expr elt]
  | .structType fields => by
    simp only [Expr.inspect, Expr.walk, Expr.toNode, List.filterMap_cons, List.filterMap_append,
      List.filterMap_nil, List.append_nil, List.nil_append, List.append_assoc, List.cons_append,
      inspect_walk_fields fields]
  | .funcType typeParams params results => by
    simp only [Expr.inspect, Expr.walk, Expr.toNode, List.filterMap_cons, List.filterMap_append,
      List.filterMap_nil, List.append_nil, List.nil_append, List.append_assoc, List.cons_append,
      inspect_walk_fields typeParams, inspect_walk_fields params, inspect_walk_fields results]
  | .interfaceType methods => by
    simp only [Expr.inspect, Expr.walk, Expr.toNode, List.filterMap_cons, List.filterMap_append,
      List.filterMap_nil, List.append_nil, List.nil_append, List.append_assoc, List.cons_append,
      inspect_walk_fields methods]
  | .mapType key value => by
    simp only [Expr.inspect, Expr.walk, Expr.toNode, List.filterMap_cons, List.filterMap_append,
      List.filterMap_nil, List.append_nil, List.nil_append, List.append_assoc, List.cons_append,
      inspect_walk_expr key, inspect_walk_expr value]
  | .chanType value => by
    simp only [Expr.inspect, Expr.walk, Expr.toNode, List.filterMap_cons, List.filterMap_append,
      List.filterMap_nil, List.append_nil, List.nil_append, List.append_assoc, List.cons_append,
      inspect_walk_expr value]
theorem inspect_walk_exprOpt : ∀ x : Option Expr,
    inspectExprOpt x = (walkExprOpt x).filterMap Expr.toNode
  | none => by
    simp only [inspectExprOpt, walkExprOpt, List.filterMap_nil]
  | some e => by
    simp only [inspectExprOpt, walkExprOpt, inspect_walk_expr e]
theorem inspect_walk_exprs : ∀ x : List Expr, inspectExprs x = (walkExprs x).filterMap Expr.toNode
  | [] => by
    simp only [inspectExprs, walkExprs, List.filterMap_nil]
  | e :: es => by
    simp only [inspectExprs, walkExprs, List.filterMap_append, inspect_walk_expr e,
      inspect_walk_exprs es]
theorem inspect_walk_field : ∀ x : Field, x.inspect = x.walk.filterMap Expr.toNode
  | .mk names type => by
    simp only [Field.inspect, Field.walk, Expr.toNode, List.filterMap_cons, List.filterMap_append,
      List.filterMap_nil, List.append_nil, List.nil_append, List.append_assoc, List.cons_append,
      filterMap_toNode_idents, inspect_walk_exprOpt type]
theorem inspect_walk_fields : ∀ x : List Field,
    inspectFields x = (walkFields x).filterMap Expr.toNode
  | [] => by
    simp only [inspectFields, walkFields, List.filterMap_nil]
  | f :: fs => by
    simp only [inspectFields, walkFields, List.filterMap_append, inspect_walk_field f,
      inspect_walk_fields fs]
theorem inspect_walk_spec : ∀ x : Spec, x.inspect = x.walk.filterMap Expr.toNode
  | .importSpec name path => by
    simp only [Spec.inspect, Spec.walk, Expr.toNode, List.filterMap_cons, List.filterMap_append,
      List.filterMap_nil, List.append_nil, List.nil_append, List.append_assoc, List.cons_append,
      filterMap_toNode_idents]
  | .valueSpec names type values => by
    simp only [Spec.inspect, Spec.walk, Expr.toNode, List.filterMap_cons, List.filterMap_append,
      List.filterMap_nil, List.append_nil, List.nil_append, List.append_assoc, List.cons_append,
      filterMap_toNode_idents, inspect_walk_exprOpt type, inspect_walk_exprs values]
  | .typeSpec name typeParams type => by
    simp only [Spec.inspect, Spec.walk, Expr.toNode, List.filterMap_cons, List.filterMap_append,
      List.filterMap_nil, List.append_nil, List.nil_append, List.append_assoc, List.cons_append,
      inspect_walk_fields typeParams, inspect_walk_expr type]
theorem inspect_walk_specs : ∀ x : List Spec, inspectSpecs x = (walkSpecs x).filterMap Expr.toNode
  | [] => by
    simp only [inspectSpecs, walkSpecs, List.filterMap_nil]
  | s :: ss => by
    simp only [inspectSpecs, walkSpecs, List.filterMap_append, inspect_walk_spec s,
      inspect_walk_specs ss]
theorem inspect_walk_decl : ∀ x : Decl, x.inspect = x.walk.filterMap Expr.toNode
  | .badDecl => by
    simp only [Decl.inspect, Decl.walk, Expr.toNode, List.filterMap_cons, List.filterMap_append,
      List.filterMap_nil, List.append_nil, List.nil_append, List.append_assoc, List.cons_append]
  | .genDecl tok specs => by
    simp only [Decl.inspect, Decl.walk, Expr.toNode, List.filterMap_cons, List.filterMap_append,
      List.filterMap_nil, List.append_nil, List.nil_append, List.append_assoc, List.cons_append,
      inspect_walk_specs specs]
theorem inspect_walk_stmt : ∀ x : Stmt, x.inspect = x.walk.filterMap Expr.toNode
  | .badStmt => by
    simp only [Stmt.inspect, Stmt.walk, Expr.toNode, List.filterMap_cons, List.filterMap_append,
      List.filterMap_nil, List.append_nil, List.nil_append, List.append_assoc, List.cons_append]
  | .declStmt decl => by
    simp only [Stmt.inspect, Stmt.walk, Expr.toNode, List.filterMap_cons, List.filterMap_append,
      List.filterMap_nil, List.append_nil, List.nil_append, List.append_assoc, List.cons_append,
      inspect_walk_decl decl]
  | .emptyStmt => by
    simp only [Stmt.inspect, Stmt.walk, Expr.toNode, List.filterMap_cons, List.filterMap_append,
      List.filterMap_nil, List.append_nil, List.nil_append, List.append_assoc, List.cons_append]
  | .labeledStmt label stmt => by
    simp only [Stmt.inspect, Stmt.walk, Expr.toNode, List.filterMap_cons, List.filterMap_append,
      List.filterMap_nil, List.append_nil, List.nil_append, List.append_assoc, List.cons_append,
      inspect_walk_stmt stmt]
  | .exprStmt x => by
    simp only [Stmt.inspect, Stmt.walk, Expr.toNode, List.filterMap_cons, List.filterMap_append,
      List.filterMap_nil, List.append_nil, List.nil_append, List.append_assoc, List.cons_append,
      inspect_walk_expr x]
  | .sendStmt chan value => by
    simp only [Stmt.inspect, Stmt.walk, Expr.toNode, List.filterMap_cons, List.filterMap_append,
      List.filterMap_nil, List.append_nil, List.nil_append, List.append_assoc, List.cons_append,
      inspect_walk_expr chan, inspect_walk_expr value]
  | .incDecStmt x tok => by
    simp only [Stmt.inspect, Stmt.walk, Expr.toNode, List.filterMap_cons, List.filterMap_append,
      List.filterMap_nil, List.append_nil, List.nil_append, List.append_assoc, List.cons_append,
      inspect_walk_expr x]
  | .assignStmt lhs tok rhs => by
    simp only [Stmt.inspect, Stmt.walk, Expr.toNode, List.filterMap_cons, List.filterMap_append,
      List.filterMap_nil, List.append_nil, List.nil_append, List.append_assoc, List.cons_append,
      inspect_walk_exprs lhs, inspect_walk_exprs rhs]
  | .goStmt fn args => by
    simp only [Stmt.inspect, Stmt.walk, Expr.toNode, List.filterMap_cons, List.filterMap_append,
      List.filterMap_nil, List.append_nil, List.nil_append, List.append_assoc, List.cons_append,
      inspect_walk_expr fn, inspect_walk_exprs args]
  | .deferStmt fn args => by
    simp only [Stmt.inspect, Stmt.walk, Expr.toNode, List.filterMap_cons, List.filterMap_append,
      List.filterMap_nil, List.append_nil, List.nil_append, List.append_assoc, List.cons_append,
      inspect_walk_expr fn, inspect_walk_exprs args]
  | .returnStmt results => by
    simp only [Stmt.inspect, Stmt.walk, Expr.toNode, List.filterMap_cons, List.filterMap_append,
      List.filterMap_nil, List.append_nil, List.nil_append, List.append_assoc, List.cons_append,
      inspect_walk_exprs results]
  | .branchStmt tok label => by
    simp only [Stmt.inspect, Stmt.walk, Expr.toNode, List.filterMap_cons, List.filterMap_append,
      List.filterMap_nil, List.append_nil, List.nil_append, List.append_assoc, List.cons_append,
      filterMap_toNode_idents]
  | .blockStmt list => by
    simp only [Stmt.inspect, Stmt.walk, Expr.toNode, List.filterMap_cons, List.filterMap_append,
      List.filterMap_nil, List.append_nil, List.nil_append, List.append_assoc, List.cons_append,
      inspect_walk_stmts list]
  | .ifStmt init cond body els => by
    simp only [Stmt.inspect, Stmt.walk, Expr.toNode, List.filterMap_cons, List.filterMap_append,
      List.filterMap_nil, List.append_nil, List.nil_append, List.append_assoc, List.cons_append,
      inspect_walk_stmtOpt init, inspect_walk_exprOpt cond, inspect_walk_stmts body,
      inspect_walk_stmtOpt els]
  | .caseClause list body => by
    simp only [Stmt.inspect, Stmt.walk, Expr.toNode, List.filterMap_cons, List.filterMap_append,
      List.filterMap_nil, List.append_nil, List.nil_append, List.append_assoc, List.cons_append,
      inspect_walk_exprs list, inspect_walk_stmts body]
  | .switchStmt init tag body => by
    simp only [Stmt.inspect, Stmt.walk, Expr.toNode, List.filterMap_cons, List.filterMap_append,
      List.filterMap_nil, List.append_nil, List.nil_append, List.append_assoc, List.cons_append,
      inspect_walk_stmtOpt init, inspect_walk_exprOpt tag, inspect_walk_stmts body]
  | .typeSwitchStmt init assign body => by
    simp only [Stmt.inspect, Stmt.walk, Expr.toNode, List.filterMap_cons, List.filterMap_append,
      List.filterMap_nil, List.append_nil, List.nil_append, List.append_assoc, List.cons_append,
      inspect_walk_stmtOpt init, inspect_walk_stmtOpt assign, inspect_walk_stmts body]
  | .commClause comm body => by
    simp only [Stmt.inspect, Stmt.walk, Expr.toNode, List.filterMap_cons, List.filterMap_append,
      List.filterMap_nil, List.append_nil, List.nil_append, List.append_assoc, List.cons_append,
      inspect_walk_stmtOpt comm, inspect_walk_stmts body]
  | .selectStmt body => by
    simp only [Stmt.inspect, Stmt.walk, Expr.toNode, List.filterMap_cons, List.filterMap_append,
      List.filterMap_nil, List.append_nil, List.nil_append, List.append_assoc, List.cons_append,
      inspect_walk_stmts body]
  | .forStmt init cond post body => by
    simp only [Stmt.inspect, Stmt.walk, Expr.toNode, List.filterMap_cons, List.filterMap_append,
      List.filterMap_nil, List.append_nil, List.nil_append, List.append_assoc, List.cons_append,
      inspect_walk_stmtOpt init, inspect_walk_exprOpt cond, inspect_walk_stmtOpt post,
      inspect_walk_stmts body]
  | .rangeStmt key value tok x body => by
    simp only [Stmt.inspect, Stmt.walk, Expr.toNode, List.filterMap_cons, List.filterMap_append,
      List.filterMap_nil, List.append_nil, List.nil_append, List.append_assoc, List.cons_append,
      inspect_walk_exprOpt key, inspect_walk_exprOpt value, inspect_walk_exprOpt x,
      inspect_walk_stmts body]
theorem inspect_walk_stmtOpt : ∀ x : Option Stmt,
    inspectStmtOpt x = (walkStmtOpt x).filterMap Expr.toNode
  | none => by
    simp only [inspectStmtOpt, walkStmtOpt, List.filterMap_nil]
  | some s => by
    simp only [inspectStmtOpt, walkStmtOpt, inspect_walk_stmt s]
theorem inspect_walk_stmts : ∀ x : List Stmt, inspectStmts x = (walkStmts x).filterMap Expr.toNode
  | [] => by
    simp only [inspectStmts, walkStmts, List.filterMap_nil]
  | s :: ss => by
    simp only [inspectStmts, walkStmts, List.filterMap_append, inspect_walk_stmt s,
      inspect_walk_stmts ss]
end

/-! ## Every declaration belongs to one analysed body

The identifiers for which the walk of a body allocates a record, taken over a body and
all the function literals below it, are identifier nodes of `walk`, each counted once: at
any position there are at most as many of the former as of the latter. -/

theorem declaredBodies_append (a b : List (List Stmt)) :
    declaredBodies (a ++ b) = declaredBodies a ++ declaredBodies b := by
  induction a with
  | nil => rfl
  | cons x a ih =>
    simp only [List.cons_append, declaredBodies, List.append_assoc]
    exact congrArg _ ih

theorem filterMap_identPos_idents (ids : List Ident) :
    (ids.map Expr.ident).filterMap Expr.identPos = ids.map Ident.pos := by
  induction ids with
  | nil => rfl
  | cons id ids ih => simpa [Expr.identPos] using ih

theorem count_declared_valueSpec (p : Nat) (names : List Ident) (type : Option Expr)
    (values : List Expr) :
    (((Spec.valueSpec names type values).declared).map Ident.pos).count p ≤
      (names.map Ident.pos).count p := by
  simp only [Spec.declared]
  split
  · simp
  · exact ((List.filter_sublist names).map Ident.pos).count_le p

mutual
theorem count_declared_expr (p : Nat) : ∀ x : Expr,
    ((declaredBodies x.funcLits).map Ident.pos).count p ≤
      (x.walk.filterMap Expr.identPos).count p
  | .badExpr => by
    simp only [Expr.funcLits, Expr.walk, declaredBodies, declaredBodies_append, List.map_append,
      List.count_append, List.filterMap_append, List.filterMap_cons, List.filterMap_nil,
      Expr.identPos, List.map_nil, List.count_nil, List.append_nil, List.nil_append,
      List.count_cons, Nat.zero_add, Nat.add_zero, filterMap_identPos_idents] at *
    omega
  | .ident id => by
    simp only [Expr.funcLits, Expr.walk, declaredBodies, declaredBodies_append, List.map_append,
      List.count_append, List.filterMap_append, List.filterMap_cons, List.filterMap_nil,
      Expr.identPos, List.map_nil, List.count_nil, List.append_nil, List.nil_append,
      List.count_cons, Nat.zero_add, Nat.add_zero, filterMap_identPos_idents] at *
    omega
  | .ellipsis elt => by
    have h1 := count_declared_exprOpt p elt
    simp only [Expr.funcLits, Expr.walk, declaredBodies, declaredBodies_append, List.map_append,
      List.count_append, List.filterMap_append, List.filterMap_cons, List.filterMap_nil,
      Expr.identPos, List.map_nil, List.count_nil, List.append_nil, List.nil_append,
      List.count_cons, Nat.zero_add, Nat.add_zero, filterMap_identPos_idents] at *
    omega
  | .basicLit value => by
    simp only [Expr.funcLits, Expr.walk, declaredBodies, declaredBodies_append, List.map_append,
      List.count_append, List.filterMap_append, List.filterMap_cons, List.filterMap_nil,
      Expr.identPos, List.map_nil, List.count_nil, List.append_nil, List.nil_append,
      List.count_cons, Nat.zero_add, Nat.add_zero, filterMap_identPos_idents] at *
    omega
  | .funcLit type body => by
    have h1 := count_declared_expr p type
    have h2 := count_declared_stmts p body
    simp only [Expr.funcLits, Expr.walk, declaredBodies, declaredBodies_append, List.map_append,
      List.count_append, List.filterMap_append, List.filterMap_cons, List.filterMap_nil,
      Expr.identPos, List.map_nil, List.count_nil, List.append_nil, List.nil_append,
      List.count_cons, Nat.zero_add, Nat.add_zero, filterMap_identPos_idents] at *
    omega
  | .compositeLit type elts => by
    have h1 := count_declared_exprOpt p type
    have h2 := count_declared_exprs p elts
    simp only [Expr.funcLits, Expr.walk, declaredBodies, declaredBodies_append, List.map_append,
      List.count_append, List.filterMap_append, List.filterMap_cons, List.filterMap_nil,
      Expr.identPos, List.map_nil, List.count_nil, List.append_nil, List.nil_append,
      List.count_cons, Nat.zero_add, Nat.add_zero, filterMap_identPos_idents] at *
    omega
  | .parenExpr x => by
    have h1 := count_declared_expr p x
    simp only [Expr.funcLits, Expr.walk, declaredBodies, declaredBodies_append, List.map_append,
      List.count_append, List.filterMap_append, List.filterMap_cons, List.filterMap_nil,
      Expr.identPos, List.map_nil, List.count_nil, List.append_nil, List.nil_append,
      List.count_cons, Nat.zero_add, Nat.add_zero, filterMap_identPos_idents] at *
    omega
  | .selectorExpr x sel => by
    have h1 := count_declared_expr p x
    simp only [Expr.funcLits, Expr.walk, declaredBodies, declaredBodies_append, List.map_append,
      List.count_append, List.filterMap_append, List.filterMap_cons, List.filterMap_nil,
      Expr.identPos, List.map_nil, List.count_nil, List.append_nil, List.nil_append,
      List.count_cons, Nat.zero_add, Nat.add_zero, filterMap_identPos_idents] at *
    omega
  | .indexExpr x index => by
    have h1 := count_declared_expr p x
    have h2 := count_declared_expr p index
    simp only [Expr.funcLits, Expr.walk, declaredBodies, declaredBodies_append, List.map_append,
      List.count_append, List.filterMap_append, List.filterMap_cons, List.filterMap_nil,
      Expr.identPos, List.map_nil, List.count_nil, List.append_nil, List.nil_append,
      List.count_cons, Nat.zero_add, Nat.add_zero, filterMap_identPos_idents] at *
    omega
  | .indexListExpr x indices => by
    have h1 := count_declared_expr p x
    have h2 := count_declared_exprs p indices
    simp only [Expr.funcLits, Expr.walk, declaredBodies, declaredBodies_append, List.map_append,
      List.count_append, List.filterMap_append, List.filterMap_cons, List.filterMap_nil,
      Expr.identPos, List.map_nil, List.count_nil, List.append_nil, List.nil_append,
      List.count_cons, Nat.zero_add, Nat.add_zero, filterMap_identPos_idents] at *
    omega
  | .sliceExpr x low high max => by
    have h1 := count_declared_expr p x
    have h2 := count_declared_exprOpt p low
    have h3 := count_declared_exprOpt p high
    have h4 := count_declared_exprOpt p max
    simp only [Expr.funcLits, Expr.walk, declaredBodies, declaredBodies_append, List.map_append,
      List.count_append, List.filterMap_append, List.filterMap_cons, List.filterMap_nil,
      Expr.identPos, List.map_nil, List.count_nil, List.append_nil, List.nil_append,
      List.count_cons, Nat.zero_add, Nat.add_zero, filterMap_identPos_idents] at *
    omega
  | .typeAssertExpr x type => by
    have h1 := count_declared_expr p x
    have h2 := count_declared_exprOpt p type
    simp only [Expr.funcLits, Expr.walk, declaredBodies, declaredBodies_append, List.map_append,
      List.count_append, List.filterMap_append, List.filterMap_cons, List.filterMap_nil,
      Expr.identPos, List.map_nil, List.count_nil, List.append_nil, List.nil_append,
      List.count_cons, Nat.zero_add, Nat.add_zero, filterMap_identPos_idents] at *
    omega
  | .callExpr fn args => by
    have h1 := count_declared_expr p fn
    have h2 := count_declared_exprs p args
    simp only [Expr.funcLits, Expr.walk, declaredBodies, declaredBodies_append, List.map_append,
      List.count_append, List.filterMap_append, List.filterMap_cons, List.filterMap_nil,
      Expr.identPos, List.map_nil, List.count_nil, List.append_nil, List.nil_append,
      List.count_cons, Nat.zero_add, Nat.add_zero, filterMap_identPos_idents] at *
    omega
  | .starExpr x => by
    have h1 := count_declared_expr p x
    simp only [Expr.funcLits, Expr.walk, declaredBodies, declaredBodies_append, List.map_append,
      List.count_append, List.filterMap_append, List.filterMap_cons, List.filterMap_nil,
      Expr.identPos, List.map_nil, List.count_nil, List.append_nil, List.nil_append,
      List.count_cons, Nat.zero_add, Nat.add_zero, filterMap_identPos_idents] at *
    omega
  | .unaryExpr op x => by
    have h1 := count_declared_expr p x
    simp only [Expr.funcLits, Expr.walk, declaredBodies, declaredBodies_append, List.map_append,
      List.count_append, List.filterMap_append, List.filterMap_cons, List.filterMap_nil,
      Expr.identPos, List.map_nil, List.count_nil, List.append_nil, List.nil_append,
      List.count_cons, Nat.zero_add, Nat.add_zero, filterMap_identPos_idents] at *
    omega
  | .binaryExpr x op y => by
    have h1 := count_declared_expr p x
    have h2 := count_declared_expr p y
    simp only [Expr.funcLits, Expr.walk, declaredBodies, declaredBodies_append, List.map_append,
      List.count_append, List.filterMap_append, List.filterMap_cons, List.filterMap_nil,
      Expr.identPos, List.map_nil, List.count_nil, List.append_nil, List.nil_append,
      List.count_cons, Nat.zero_add, Nat.add_zero, filterMap_identPos_idents] at *
    omega
  | .keyValueExpr key value => by
    have h1 := count_declared_expr p key
    have h2 := count_declared_expr p value
    simp only [Expr.funcLits, Expr.walk, declaredBodies, declaredBodies_append, List.map_append,
      List.count_append, List.filterMap_append, List.filterMap_cons, List.filterMap_nil,
      Expr.identPos, List.map_nil, List.count_nil, List.append_nil, List.nil_append,
      List.count_cons, Nat.zero_add, Nat.add_zero, filterMap_identPos_idents] at *
    omega
  | .arrayType len elt => by
    have h1 := count_declared_exprOpt p len
    have h2 := count_declared_expr p elt
    simp only [Expr.funcLits, Expr.walk, declaredBodies, declaredBodies_append, List.map_append,
      List.count_append, List.filterMap_append, List.filterMap_cons, List.filterMap_nil,
      Expr.identPos, List.map_nil, List.count_nil, List.append_nil, List.nil_append,
      List.count_cons, Nat.zero_add, Nat.add_zero, filterMap_identPos_idents] at *
    omega
  | .structType fields => by
    have h1 := count_declared_fields p fields
    simp only [Expr.funcLits, Expr.walk, declaredBodies, declaredBodies_append, List.map_append,
      List.count_append, List.filterMap_append, List.filterMap_cons, List.filterMap_nil,
      Expr.identPos, List.map_nil, List.count_nil, List.append_nil, List.nil_append,
      List.count_cons, Nat.zero_add, Nat.add_zero, filterMap_identPos_idents] at *
    omega
  | .funcType typeParams params results => by
    have h1 := count_declared_fields p typeParams
    have h2 := count_declared_fields p params
    have h3 := count_declared_fields p results
    simp only [Expr.funcLits, Expr.walk, declaredBodies, declaredBodies_append, List.map_append,
      List.count_append, List.filterMap_append, List.filterMap_cons, List.filterMap_nil,
      Expr.identPos, List.map_nil, List.count_nil, List.append_nil, List.nil_append,
      List.count_cons, Nat.zero_add, Nat.add_zero, filterMap_identPos_idents] at *
    omega
  | .interfaceType methods => by
    have h1 := count_declared_fields p methods
    simp only [Expr.funcLits, Expr.walk, declaredBodies, declaredBodies_append, List.map_append,
      List.count_append, List.filterMap_append, List.filterMap_cons, List.filterMap_nil,
      Expr.identPos, List.map_nil, List.count_nil, List.append_nil, List.nil_append,
      List.count_cons, Nat.zero_add, Nat.add_zero, filterMap_identPos_idents] at *
    omega
  | .mapType key value => by
    have h1 := count_declared_expr p key
    have h2 := count_declared_expr p value
    simp only [Expr.funcLits, Expr.walk, declaredBodies, declaredBodies_append, List.map_append,
      List.count_append, List.filterMap_append, List.filterMap_cons, List.filterMap_nil,
      Expr.identPos, List.map_nil, List.count_nil, List.append_nil, List.nil_append,
      List.count_cons, Nat.zero_add, Nat.add_zero, filterMap_identPos_idents] at *
    omega
  | .chanType value => by
    have h1 := count_declared_expr p value
    simp only [Expr.funcLits, Expr.walk, declaredBodies, declaredBodies_append, List.map_append,
      List.count_append, List.filterMap_append, List.filterMap_cons, List.filterMap_nil,
      Expr.identPos, List.map_nil, List.count_nil, List.append_nil, List.nil_append,
      List.count_cons, Nat.zero_add, Nat.add_zero, filterMap_identPos_idents] at *
    omega
theorem count_declared_exprOpt (p : Nat) : ∀ x : Option Expr,
    ((declaredBodies (funcLitsExprOpt x)).map Ident.pos).count p ≤
      ((walkExprOpt x).filterMap Expr.identPos).count p
  | none => by
    simp [funcLitsExprOpt, walkExprOpt, declaredBodies]
  | some e => by
    have h1 := count_declared_expr p e
    simp only [funcLitsExprOpt, walkExprOpt, declaredBodies, declaredBodies_append,
      List.map_append, List.count_append, List.filterMap_append, List.filterMap_cons,
      List.filterMap_nil, Expr.identPos, List.map_nil, List.count_nil, List.append_nil,
      List.nil_append, List.count_cons, Nat.zero_add, Nat.add_zero,
      filterMap_identPos_idents] at *
    omega
theorem count_declared_exprs (p : Nat) : ∀ x : List Expr,
    ((declaredBodies (funcLitsExprs x)).map Ident.pos).count p ≤
      ((walkExprs x).filterMap Expr.identPos).count p
  | [] => by
    simp [funcLitsExprs, walkExprs, declaredBodies]
  | e :: es => by
    have h1 := count_declared_expr p e
    have h2 := count_declared_exprs p es
    simp only [funcLitsExprs, walkExprs, declaredBodies, declaredBodies_append, List.map_append,
      List.count_append, List.filterMap_append, List.filterMap_cons, List.filterMap_nil,
      Expr.identPos, List.map_nil, List.count_nil, List.append_nil, List.nil_append,
      List.count_cons, Nat.zero_add, Nat.add_zero, filterMap_identPos_idents] at *
    omega
theorem count_declared_field (p : Nat) : ∀ x : Field,
    ((declaredBodies x.funcLits).map Ident.pos).count p ≤
      (x.walk.filterMap Expr.identPos).count p
  | .mk names type => by
    have h1 := count_declared_exprOpt p type
    simp only [Field.funcLits, Field.walk, declaredBodies, declaredBodies_append, List.map_append,
      List.count_append, List.filterMap_append, List.filterMap_cons, List.filterMap_nil,
      Expr.identPos, List.map_nil, List.count_nil, List.append_nil, List.nil_append,
      List.count_cons, Nat.zero_add, Nat.add_zero, filterMap_identPos_idents] at *
    omega
theorem count_declared_fields (p : Nat) : ∀ x : List Field,
    ((declaredBodies (funcLitsFields x)).map Ident.pos).count p ≤
      ((walkFields x).filterMap Expr.identPos).count p
  | [] => by
    simp [funcLitsFields, walkFields, declaredBodies]
  | f :: fs => by
    have h1 := count_declared_field p f
    have h2 := count_declared_fields p fs
    simp only [funcLitsFields, walkFields, declaredBodies, declaredBodies_append, List.map_append,
      List.count_append, List.filterMap_append, List.filterMap_cons, List.filterMap_nil,
      Expr.identPos, List.map_nil, List.count_nil, List.append_nil, List.nil_append,
      List.count_cons, Nat.zero_add, Nat.add_zero, filterMap_identPos_idents] at *
    omega
theorem count_declared_spec (p : Nat) : ∀ x : Spec,
    ((x.declared ++ declaredBodies x.funcLits).map Ident.pos).count p ≤
      (x.walk.filterMap Expr.identPos).count p
  | .importSpec name path => by
    simp only [Spec.declared, Spec.funcLits, Spec.walk, declaredBodies, declaredBodies_append,
      List.map_append, List.count_append, List.filterMap_append, List.filterMap_cons,
      List.filterMap_nil, Expr.identPos, List.map_nil, List.count_nil, List.append_nil,
      List.nil_append, List.count_cons, Nat.zero_add, Nat.add_zero,
      filterMap_identPos_idents] at *
    omega
  | .valueSpec names type values => by
    have h1 := count_declared_exprOpt p type
    have h2 := count_declared_exprs p values
    have h0 := count_declared_valueSpec p names type values
    simp only [Spec.funcLits, Spec.walk, declaredBodies, declaredBodies_append, List.map_append,
      List.count_append, List.filterMap_append, List.filterMap_cons, List.filterMap_nil,
      Expr.identPos, List.map_nil, List.count_nil, List.append_nil, List.nil_append,
      List.count_cons, Nat.zero_add, Nat.add_zero, filterMap_identPos_idents] at *
    omega
  | .typeSpec name typeParams type => by
    have h1 := count_declared_fields p typeParams
    have h2 := count_declared_expr p type
    simp only [Spec.declared, Spec.funcLits, Spec.walk, declaredBodies, declaredBodies_append,
      List.map_append, List.count_append, List.filterMap_append, List.filterMap_cons,
      List.filterMap_nil, Expr.identPos, List.map_nil, List.count_nil, List.append_nil,
      List.nil_append, List.count_cons, Nat.zero_add, Nat.add_zero,
      filterMap_identPos_idents] at *
    omega
theorem count_declared_specs (p : Nat) : ∀ x : List Spec,
    ((declaredSpecs x ++ declaredBodies (funcLitsSpecs x)).map Ident.pos).count p ≤
      ((walkSpecs x).filterMap Expr.identPos).count p
  | [] => by
    simp [declaredSpecs, funcLitsSpecs, walkSpecs, declaredBodies]
  | s :: ss => by
    have h1 := count_declared_spec p s
    have h2 := count_declared_specs p ss
    simp only [declaredSpecs, funcLitsSpecs, walkSpecs, declaredBodies, declaredBodies_append,
      List.map_append, List.count_append, List.filterMap_append, List.filterMap_cons,
      List.filterMap_nil, Expr.identPos, List.map_nil, List.count_nil, List.append_nil,
      List.nil_append, List.count_cons, Nat.zero_add, Nat.add_zero,
      filterMap_identPos_idents] at *
    omega
theorem count_declared_decl (p : Nat) : ∀ x : Decl,
    ((x.declared ++ declaredBodies x.funcLits).map Ident.pos).count p ≤
      (x.walk.filterMap Expr.identPos).count p
  | .badDecl => by
    simp [Decl.declared, Decl.funcLits, Decl.walk, declaredBodies]
  | .genDecl tok specs => by
    have h1 := count_declared_specs p specs
    by_cases h : tok = Token.VAR
    · simp only [Decl.declared, h, if_true, Decl.funcLits, Decl.walk, declaredBodies,
      declaredBodies_append, List.map_append, List.count_append, List.filterMap_append,
      List.filterMap_cons, List.filterMap_nil, Expr.identPos, List.map_nil, List.count_nil,
      List.append_nil, List.nil_append, List.count_cons, Nat.zero_add, Nat.add_zero,
      filterMap_identPos_idents] at *
      omega
    · simp only [Decl.declared, h, if_false, Decl.funcLits, Decl.walk, declaredBodies,
      declaredBodies_append, List.map_append, List.count_append, List.filterMap_append,
      List.filterMap_cons, List.filterMap_nil, Expr.identPos, List.map_nil, List.count_nil,
      List.append_nil, List.nil_append, List.count_cons, Nat.zero_add, Nat.add_zero,
      filterMap_identPos_idents] at *
      omega
theorem count_declared_stmt (p : Nat) : ∀ x : Stmt,
    ((x.declared ++ declaredBodies x.funcLits).map Ident.pos).count p ≤
      (x.walk.filterMap Expr.identPos).count p
  | .badStmt => by
    simp only [Stmt.declared, Stmt.funcLits, Stmt.walk, declaredBodies, declaredBodies_append,
      List.map_append, List.count_append, List.filterMap_append, List.filterMap_cons,
      List.filterMap_nil, Expr.identPos, List.map_nil, List.count_nil, List.append_nil,
      List.nil_append, List.count_cons, Nat.zero_add, Nat.add_zero,
      filterMap_identPos_idents] at *
    omega
  | .declStmt decl => by
    have h1 := count_declared_decl p decl
    simp only [Stmt.declared, Stmt.funcLits, Stmt.walk, declaredBodies, declaredBodies_append,
      List.map_append, List.count_append, List.filterMap_append, List.filterMap_cons,
      List.filterMap_nil, Expr.identPos, List.map_nil, List.count_nil, List.append_nil,
      List.nil_append, List.count_cons, Nat.zero_add, Nat.add_zero,
      filterMap_identPos_idents] at *
    omega
  | .emptyStmt => by
    simp only [Stmt.declared, Stmt.funcLits, Stmt.walk, declaredBodies, declaredBodies_append,
      List.map_append, List.count_append, List.filterMap_append, List.filterMap_cons,
      List.filterMap_nil, Expr.identPos, List.map_nil, List.count_nil, List.append_nil,
      List.nil_append, List.count_cons, Nat.zero_add, Nat.add_zero,
      filterMap_identPos_idents] at *
    omega
  | .labeledStmt label stmt => by
    have h1 := count_declared_stmt p stmt
    simp only [Stmt.declared, Stmt.funcLits, Stmt.walk, declaredBodies, declaredBodies_append,
      List.map_append, List.count_append, List.filterMap_append, List.filterMap_cons,
      List.filterMap_nil, Expr.identPos, List.map_nil, List.count_nil, List.append_nil,
      List.nil_append, List.count_cons, Nat.zero_add, Nat.add_zero,
      filterMap_identPos_idents] at *
    omega
  | .exprStmt x => by
    have h1 := count_declared_expr p x
    simp only [Stmt.declared, Stmt.funcLits, Stmt.walk, declaredBodies, declaredBodies_append,
      List.map_append, List.count_append, List.filterMap_append, List.filterMap_cons,
      List.filterMap_nil, Expr.identPos, List.map_nil, List.count_nil, List.append_nil,
      List.nil_append, List.count_cons, Nat.zero_add, Nat.add_zero,
      filterMap_identPos_idents] at *
    omega
  | .sendStmt chan value => by
    have h1 := count_declared_expr p chan
    have h2 := count_declared_expr p value
    simp only [Stmt.declared, Stmt.funcLits, Stmt.walk, declaredBodies, declaredBodies_append,
      List.map_append, List.count_append, List.filterMap_append, List.filterMap_cons,
      List.filterMap_nil, Expr.identPos, List.map_nil, List.count_nil, List.append_nil,
      List.nil_append, List.count_cons, Nat.zero_add, Nat.add_zero,
      filterMap_identPos_idents] at *
    omega
  | .incDecStmt x tok => by
    have h1 := count_declared_expr p x
    simp only [Stmt.declared, Stmt.funcLits, Stmt.walk, declaredBodies, declaredBodies_append,
      List.map_append, List.count_append, List.filterMap_append, List.filterMap_cons,
      List.filterMap_nil, Expr.identPos, List.map_nil, List.count_nil, List.append_nil,
      List.nil_append, List.count_cons, Nat.zero_add, Nat.add_zero,
      filterMap_identPos_idents] at *
    omega
  | .assignStmt lhs tok rhs => by
    have h1 := count_declared_exprs p lhs
    have h2 := count_declared_exprs p rhs
    simp only [Stmt.declared, Stmt.funcLits, Stmt.walk, declaredBodies, declaredBodies_append,
      List.map_append, List.count_append, List.filterMap_append, List.filterMap_cons,
      List.filterMap_nil, Expr.identPos, List.map_nil, List.count_nil, List.append_nil,
      List.nil_append, List.count_cons, Nat.zero_add, Nat.add_zero,
      filterMap_identPos_idents] at *
    omega
  | .goStmt fn args => by
    have h1 := count_declared_expr p fn
    have h2 := count_declared_exprs p args
    simp only [Stmt.declared, Stmt.funcLits, Stmt.walk, declaredBodies, declaredBodies_append,
      List.map_append, List.count_append, List.filterMap_append, List.filterMap_cons,
      List.filterMap_nil, Expr.identPos, List.map_nil, List.count_nil, List.append_nil,
      List.nil_append, List.count_cons, Nat.zero_add, Nat.add_zero,
      filterMap_identPos_idents] at *
    omega
  | .deferStmt fn args => by
    have h1 := count_declared_expr p fn
    have h2 := count_declared_exprs p args
    simp only [Stmt.declared, Stmt.funcLits, Stmt.walk, declaredBodies, declaredBodies_append,
      List.map_append, List.count_append, List.filterMap_append, List.filterMap_cons,
      List.filterMap_nil, Expr.identPos, List.map_nil, List.count_nil, List.append_nil,
      List.nil_append, List.count_cons, Nat.zero_add, Nat.add_zero,
      filterMap_identPos_idents] at *
    omega
  | .returnStmt results => by
    have h1 := count_declared_exprs p results
    simp only [Stmt.declared, Stmt.funcLits, Stmt.walk, declaredBodies, declaredBodies_append,
      List.map_append, List.count_append, List.filterMap_append, List.filterMap_cons,
      List.filterMap_nil, Expr.identPos, List.map_nil, List.count_nil, List.append_nil,
      List.nil_append, List.count_cons, Nat.zero_add, Nat.add_zero,
      filterMap_identPos_idents] at *
    omega
  | .branchStmt tok label => by
    simp only [Stmt.declared, Stmt.funcLits, Stmt.walk, declaredBodies, declaredBodies_append,
      List.map_append, List.count_append, List.filterMap_append, List.filterMap_cons,
      List.filterMap_nil, Expr.identPos, List.map_nil, List.count_nil, List.append_nil,
      List.nil_append, List.count_cons, Nat.zero_add, Nat.add_zero,
      filterMap_identPos_idents] at *
    omega
  | .blockStmt list => by
    have h1 := count_declared_stmts p list
    simp only [Stmt.declared, Stmt.funcLits, Stmt.walk, declaredBodies, declaredBodies_append,
      List.map_append, List.count_append, List.filterMap_append, List.filterMap_cons,
      List.filterMap_nil, Expr.identPos, List.map_nil, List.count_nil, List.append_nil,
      List.nil_append, List.count_cons, Nat.zero_add, Nat.add_zero,
      filterMap_identPos_idents] at *
    omega
  | .ifStmt init cond body els => by
    have h1 := count_declared_stmtOpt p init
    have h2 := count_declared_exprOpt p cond
    have h3 := count_declared_stmts p body
    have h4 := count_declared_stmtOpt p els
    simp only [Stmt.declared, Stmt.funcLits, Stmt.walk, declaredBodies, declaredBodies_append,
      List.map_append, List.count_append, List.filterMap_append, List.filterMap_cons,
      List.filterMap_nil, Expr.identPos, List.map_nil, List.count_nil, List.append_nil,
      List.nil_append, List.count_cons, Nat.zero_add, Nat.add_zero,
      filterMap_identPos_idents] at *
    omega
  | .caseClause list body => by
    have h1 := count_declared_exprs p list
    have h2 := count_declared_stmts p body
    simp only [Stmt.declared, Stmt.funcLits, Stmt.walk, declaredBodies, declaredBodies_append,
      List.map_append, List.count_append, List.filterMap_append, List.filterMap_cons,
      List.filterMap_nil, Expr.identPos, List.map_nil, List.count_nil, List.append_nil,
      List.nil_append, List.count_cons, Nat.zero_add, Nat.add_zero,
      filterMap_identPos_idents] at *
    omega
  | .switchStmt init tag body => by
    have h1 := count_declared_stmtOpt p init
    have h2 := count_declared_exprOpt p tag
    have h3 := count_declared_stmts p body
    simp only [Stmt.declared, Stmt.funcLits, Stmt.walk, declaredBodies, declaredBodies_append,
      List.map_append, List.count_append, List.filterMap_append, List.filterMap_cons,
      List.filterMap_nil, Expr.identPos, List.map_nil, List.count_nil, List.append_nil,
      List.nil_append, List.count_cons, Nat.zero_add, Nat.add_zero,
      filterMap_identPos_idents] at *
    omega
  | .typeSwitchStmt init assign body => by
    have h1 := count_declared_stmtOpt p init
    have h2 := count_declared_stmtOpt p assign
    have h3 := count_declared_stmts p body
    simp only [Stmt.declared, Stmt.funcLits, Stmt.walk, declaredBodies, declaredBodies_append,
      List.map_append, List.count_append, List.filterMap_append, List.filterMap_cons,
      List.filterMap_nil, Expr.identPos, List.map_nil, List.count_nil, List.append_nil,
      List.nil_append, List.count_cons, Nat.zero_add, Nat.add_zero,
      filterMap_identPos_idents] at *
    omega
  | .commClause comm body => by
    have h1 := count_declared_stmtOpt p comm
    have h2 := count_declared_stmts p body
    simp only [Stmt.declared, Stmt.funcLits, Stmt.walk, declaredBodies, declaredBodies_append,
      List.map_append, List.count_append, List.filterMap_append, List.filterMap_cons,
      List.filterMap_nil, Expr.identPos, List.map_nil, List.count_nil, List.append_nil,
      List.nil_append, List.count_cons, Nat.zero_add, Nat.add_zero,
      filterMap_identPos_idents] at *
    omega
  | .selectStmt body => by
    have h1 := count_declared_stmts p body
    simp only [Stmt.declared, Stmt.funcLits, Stmt.walk, declaredBodies, declaredBodies_append,
      List.map_append, List.count_append, List.filterMap_append, List.filterMap_cons,
      List.filterMap_nil, Expr.identPos, List.map_nil, List.count_nil, List.append_nil,
      List.nil_append, List.count_cons, Nat.zero_add, Nat.add_zero,
      filterMap_identPos_idents] at *
    omega
  | .forStmt init cond post body => by
    have h1 := count_declared_stmtOpt p init
    have h2 := count_declared_exprOpt p cond
    have h3 := count_declared_stmtOpt p post
    have h4 := count_declared_stmts p body
    simp only [Stmt.declared, Stmt.funcLits, Stmt.walk, declaredBodies, declaredBodies_append,
      List.map_append, List.count_append, List.filterMap_append, List.filterMap_cons,
      List.filterMap_nil, Expr.identPos, List.map_nil, List.count_nil, List.append_nil,
      List.nil_append, List.count_cons, Nat.zero_add, Nat.add_zero,
      filterMap_identPos_idents] at *
    omega
  | .rangeStmt key value tok x body => by
    have h1 := count_declared_exprOpt p key
    have h2 := count_declared_exprOpt p value
    have h3 := count_declared_exprOpt p x
    have h4 := count_declared_stmts p body
    simp only [Stmt.declared, Stmt.funcLits, Stmt.walk, declaredBodies, declaredBodies_append,
      List.map_append, List.count_append, List.filterMap_append, List.filterMap_cons,
      List.filterMap_nil, Expr.identPos, List.map_nil, List.count_nil, List.append_nil,
      List.nil_append, List.count_cons, Nat.zero_add, Nat.add_zero,
      filterMap_identPos_idents] at *
    omega
theorem count_declared_stmtOpt (p : Nat) : ∀ x : Option Stmt,
    ((declaredStmtOpt x ++ declaredBodies (funcLitsStmtOpt x)).map Ident.pos).count p ≤
      ((walkStmtOpt x).filterMap Expr.identPos).count p
  | none => by
    simp [declaredStmtOpt, funcLitsStmtOpt, walkStmtOpt, declaredBodies]
  | some s => by
    have h1 := count_declared_stmt p s
    simp only [declaredStmtOpt, funcLitsStmtOpt, walkStmtOpt, declaredBodies,
      declaredBodies_append, List.map_append, List.count_append, List.filterMap_append,
      List.filterMap_cons, List.filterMap_nil, Expr.identPos, List.map_nil, List.count_nil,
      List.append_nil, List.nil_append, List.count_cons, Nat.zero_add, Nat.add_zero,
      filterMap_identPos_idents] at *
    omega
theorem count_declared_stmts (p : Nat) : ∀ x : List Stmt,
    ((declaredStmts x ++ declaredBodies (funcLitsStmts x)).map Ident.pos).count p ≤
      ((walkStmts x).filterMap Expr.identPos).count p
  | [] => by
    simp [declaredStmts, funcLitsStmts, walkStmts, declaredBodies]
  | s :: ss => by
    have h1 := count_declared_stmt p s
    have h2 := count_declared_stmts p ss
    simp only [declaredStmts, funcLitsStmts, walkStmts, declaredBodies, declaredBodies_append,
      List.map_append, List.count_append, List.filterMap_append, List.filterMap_cons,
      List.filterMap_nil, Expr.identPos, List.map_nil, List.count_nil, List.append_nil,
      List.nil_append, List.count_cons, Nat.zero_add, Nat.add_zero,
      filterMap_identPos_idents] at *
    omega
end

/-! ## Function bodies are analysed once each -/

theorem analysedBodies_walk (d : FileDecl) (h : d.isInit = false) :
    d.analysedBodies = d.body.toList ++ d.walk.filterMap Expr.litBody := by
  cases d with
  | badDecl => rfl
  | genDecl tok specs =>
    simp only [FileDecl.analysedBodies, FileDecl.body, FileDecl.walk, Option.toList,
      List.nil_append]
    exact funcLits_walk_specs specs
  | funcDecl recv name type body =>
    have hname : name.name ≠ "init" := by simpa [FileDecl.isInit] using h
    cases body with
    | none =>
      simp only [FileDecl.analysedBodies, hname, if_false, FileDecl.body, FileDecl.walk,
        Option.toList, List.nil_append, List.filterMap_append, List.filterMap_cons,
        Expr.litBody, List.append_nil, funcLits_walk_fields recv, funcLits_walk_expr type]
    | some b =>
      simp only [FileDecl.analysedBodies, hname, if_false, FileDecl.body, FileDecl.walk,
        Option.toList, List.singleton_append, List.filterMap_append, List.filterMap_cons,
        Expr.litBody, List.append_assoc, funcLits_walk_fields recv, funcLits_walk_expr type,
        funcLits_walk_stmts b]

theorem analysedBodies_init (d : FileDecl) (h : d.isInit = true) : d.analysedBodies = [] := by
  cases d with
  | badDecl => rfl
  | genDecl tok specs => simp [FileDecl.isInit] at h
  | funcDecl recv name type body =>
    have hname : name.name = "init" := by simpa [FileDecl.isInit] using h
    simp [FileDecl.analysedBodies, hname]

theorem count_declared_fileDecl (p : Nat) (d : FileDecl) :
    ((declaredBodies d.analysedBodies).map Ident.pos).count p ≤
      (d.walk.filterMap Expr.identPos).count p := by
  cases d with
  | badDecl => simp [FileDecl.analysedBodies, declaredBodies]
  | genDecl tok specs =>
    have h1 := count_declared_specs p specs
    simp only [FileDecl.analysedBodies, FileDecl.walk, List.map_append, List.count_append] at *
    omega
  | funcDecl recv name type body =>
    have h1 := count_declared_fields p recv
    have h2 := count_declared_expr p type
    by_cases hname : name.name = "init"
    · simp [FileDecl.analysedBodies, hname, declaredBodies]
    · cases body with
      | none =>
        simp only [FileDecl.analysedBodies, hname, if_false, FileDecl.walk, declaredBodies_append,
          List.map_append, List.count_append, List.filterMap_append, List.filterMap_cons,
          Expr.identPos, List.count_cons, List.filterMap_nil, List.count_nil] at *
        omega
      | some b =>
        have h3 := count_declared_stmts p b
        simp only [FileDecl.analysedBodies, hname, if_false, FileDecl.walk, declaredBodies,
          declaredBodies_append, List.map_append, List.count_append, List.filterMap_append,
          List.filterMap_cons, Expr.identPos, List.count_cons] at *
        omega

theorem count_declared_file (p : Nat) :
    ∀ decls : List FileDecl,
      ((declaredBodies (analysedBodies decls)).map Ident.pos).count p ≤
        ((walkDecls decls).filterMap Expr.identPos).count p
  | [] => Nat.le_refl _
  | d :: ds => by
    have h1 := count_declared_fileDecl p d
    have h2 := count_declared_file p ds
    simp only [analysedBodies, walkDecls, declaredBodies_append, List.map_append,
      List.count_append, List.filterMap_append] at *
    omega

theorem mem_analysedBodies {d : FileDecl} {body : List Stmt} :
    ∀ {decls : List FileDecl}, d ∈ decls → body ∈ d.analysedBodies → body ∈ analysedBodies decls
  | [], h, _ => by cases h
  | e :: ds, h, hb => by
    simp only [analysedBodies, List.mem_append]
    rcases List.mem_cons.mp h with h | h
    · exact Or.inl (h ▸ hb)
    · exact Or.inr (mem_analysedBodies h hb)

/-- C14 as stated fails: a redundant declaration inside a function literal is not always
reported once.  The body of the function literal of the fixture `redundantInAnonymousFunc`
yields one failure, and `Apply` reports it once when the enclosing function is named
`setup`; when the enclosing function is named `init`, `Apply` reports nothing. -/
theorem literal_inside_init_not_reported :
    analyzeFunc (some fun id => decide (id.name = "err"))
        [varStmt "local" 630 "int",
          Stmt.assignStmt [Expr.ident ⟨"local", 650⟩, Expr.ident ⟨"err", 657⟩] Token.DEFINE
            [Expr.callExpr (Expr.ident ⟨"getLocalValue", 664⟩) []],
          printlnStmt 690 [Expr.ident ⟨"local", 702⟩, Expr.ident ⟨"err", 709⟩]] =
        [{ confidence := 1, node := 0, failure := message "local", position := 630 }] ∧
      Apply (some fun id => decide (id.name = "err")) (anonymousFuncFixture "setup") =
        [{ confidence := 1, node := 0, failure := message "local", position := 630 }] ∧
      Apply (some fun id => decide (id.name = "err")) (anonymousFuncFixture "init") = [] := by
  refine ⟨by decide, by decide, by decide⟩

/-- C14, as amended: each function and function literal outside a function named `init`
is analysed once, on its own, from an empty scope.  Every failure that `analyzeFunc`
returns for a body reports a record of a single-name `var` spec that the walk of this body
reaches (function literals are expressions, which the walk marks but never descends into),
at the position of its name.  For `Apply`: a position is reported at most as often as the
analysed bodies declare a name there; every failure of an analysed body is among the
failures of `Apply`; for a declaration other than a function named `init` the analysed
bodies are the body of the function followed by the body of each function literal node
that `ast.Inspect` meets in the declaration, one for each node, and for a function named
`init` there is none; the names declared by the analysed bodies are identifier nodes of
the file, each counted once; so in a file whose identifier nodes have pairwise distinct
positions, every function literal outside `init` is an analysed body, and exactly one
failure of `Apply` is at the position of a failure of an analysed body.  On the fixtures
`usePkgVar` and `nestedFunctionLiterals`, whose identifier positions are distinct, `Apply`
returns exactly one failure for `outer` and one for `inner`. -/
theorem bodies_analysed_separately (ti : TypesInfo) :
    (∀ body : List Stmt, ∀ f ∈ analyzeFunc ti body,
        ∃ id : Ident, (declaredStmts body)[f.node]? = some id ∧ f.position = id.pos) ∧
      (∀ (decls : List FileDecl) (p : Nat),
        ((Apply ti decls).map Failure.position).count p ≤
          ((declaredBodies (analysedBodies decls)).map Ident.pos).count p) ∧
      (∀ (decls : List FileDecl) (body : List Stmt), body ∈ analysedBodies decls →
        ∀ f ∈ analyzeFunc ti body, f ∈ Apply ti decls) ∧
      (∀ d : FileDecl, d.isInit = false →
        d.analysedBodies = d.body.toList ++ d.walk.filterMap Expr.litBody) ∧
      (∀ d : FileDecl, d.isInit = true → d.analysedBodies = []) ∧
      (∀ (decls : List FileDecl) (p : Nat),
        ((declaredBodies (analysedBodies decls)).map Ident.pos).count p ≤
          ((walkDecls decls).filterMap Expr.identPos).count p) ∧
      (∀ decls : List FileDecl, ∀ d ∈ decls, d.isInit = false →
        ∀ (type : Expr) (body : List Stmt), Expr.funcLit type body ∈ d.walk →
          body ∈ analysedBodies decls) ∧
      (∀ decls : List FileDecl, ((walkDecls decls).filterMap Expr.identPos).Nodup →
        ∀ body ∈ analysedBodies decls, ∀ f ∈ analyzeFunc ti body,
          ((Apply ti decls).map Failure.position).count f.position = 1) ∧
      ((walkDecls (usePkgVarFixture ++ nestedFunctionLiteralsFixture)).filterMap
        Expr.identPos).Nodup ∧
      Apply fixtureTypesInfo (usePkgVarFixture ++ nestedFunctionLiteralsFixture) =
        [{ confidence := 1, node := 0, failure := message "outer", position := 250 },
          { confidence := 1, node := 0, failure := message "inner", position := 350 }] := by
  refine ⟨?_, ?_, ?_, analysedBodies_walk, analysedBodies_init, ?_, ?_, ?_, by decide,
    by decide⟩
  · intro body f hf
    obtain ⟨heap, hheap, -, hall⟩ := analyzeFunc_spec ti body
    obtain ⟨-, y, hy, hpos, -⟩ := hall f hf
    refine ⟨y.node, ?_, hpos⟩
    rw [← hheap, List.getElem?_map, hy]
    rfl
  · intro decls p
    exact count_positions_analyzeBodies ti p _
  · intro decls body hb f hf
    exact mem_analyzeBodies ti body _ hb f hf
  · intro decls p
    exact count_declared_file p decls
  · intro decls d hd hinit type body hlit
    apply mem_analysedBodies hd
    rw [analysedBodies_walk d hinit]
    exact List.mem_append_right _
      (List.mem_filterMap.mpr ⟨Expr.funcLit type body, hlit, rfl⟩)
  · intro decls hnd body hb f hf
    have h1 := count_positions_analyzeBodies ti f.position (analysedBodies decls)
    have h2 := count_declared_file f.position decls
    have h3 := List.nodup_iff_count_le_one.mp hnd f.position
    have h4 : f.position ∈ (Apply ti decls).map Failure.position :=
      List.mem_map.mpr ⟨f, mem_analyzeBodies ti body _ hb f hf, rfl⟩
    have h5 := List.count_pos_iff.mpr h4
    have h6 : ((Apply ti decls).map Failure.position).count f.position ≤
        ((declaredBodies (analysedBodies decls)).map Ident.pos).count f.position := h1
    omega

/-! ## Reads and assignments in a case clause -/

/-- C2, the code at the failing input.  A statement of one of the listed kinds that holds
an identifier named `v` marks the record that the scope maps `v` to at that moment, and a
record once used is never reported.  The case clauses of a switch share one scope, so in
`var v int; switch x { case 1: var v string; fmt.Println(v); case 2: w := v; fmt.Println(w) };
v, y := g()` with type information that is right (only `w` and `y` are new), the read of
the outer `v` on the right-hand side of `w := v` is looked up in a scope that still maps
`v` to the record of the first clause: the record of the outer declaration stays unused
and the rebind after the switch reports it (record 0, position 10).  Without the
declaration in the first clause, or with the two clauses written as the arms of an
`if`/`else`, the same read marks the outer record and nothing is reported. -/
theorem read_in_case_clause_not_counted :
    (∀ (ti : TypesInfo) (s : Stmt) (c : State) (v : String) (r : Nat),
        c.vars v = some r → (∃ x, c.heap[r]? = some x) → readsName v s = true →
          usedAt (processStatement ti s c) r = true) ∧
      (∀ (ti : TypesInfo) (s : Stmt) (d : State) (r : Nat), usedAt d r = true →
        usedAt (processStatement ti s d) r = true ∧
          ∃ new, (processStatement ti s d).failures = d.failures ++ new ∧
            ∀ f ∈ new, f.node ≠ r) ∧
      analyzeFunc (some fun id => decide (id.name = "w" ∨ id.name = "y"))
        [varStmt "v" 10 "int",
          Stmt.switchStmt none (some (Expr.ident ⟨"x", 30⟩))
            [Stmt.caseClause [Expr.basicLit "1"]
                [varStmt "v" 50 "string", printlnStmt 70 [Expr.ident ⟨"v", 82⟩]],
              Stmt.caseClause [Expr.basicLit "2"]
                [Stmt.assignStmt [Expr.ident ⟨"w", 100⟩] Token.DEFINE [Expr.ident ⟨"v", 105⟩],
                  printlnStmt 110 [Expr.ident ⟨"w", 122⟩]]],
          Stmt.assignStmt [Expr.ident ⟨"v", 130⟩, Expr.ident ⟨"y", 133⟩] Token.DEFINE
            [Expr.callExpr (Expr.ident ⟨"g", 138⟩) []]] =
        [{ confidence := 1, node := 0, failure := message "v", position := 10 }] ∧
      analyzeFunc (some fun id => decide (id.name = "w" ∨ id.name = "y"))
        [varStmt "v" 10 "int",
          Stmt.switchStmt none (some (Expr.ident ⟨"x", 30⟩))
            [Stmt.caseClause [Expr.basicLit "1"] [printlnStmt 70 [Expr.basicLit "1"]],
              Stmt.caseClause [Expr.basicLit "2"]
                [Stmt.assignStmt [Expr.ident ⟨"w", 100⟩] Token.DEFINE [Expr.ident ⟨"v", 105⟩],
                  printlnStmt 110 [Expr.ident ⟨"w", 122⟩]]],
          Stmt.assignStmt [Expr.ident ⟨"v", 130⟩, Expr.ident ⟨"y", 133⟩] Token.DEFINE
            [Expr.callExpr (Expr.ident ⟨"g", 138⟩) []]] = [] ∧
      analyzeFunc (some fun id => decide (id.name = "w" ∨ id.name = "y"))
        [varStmt "v" 10 "int",
          Stmt.ifStmt none (some (Expr.ident ⟨"x", 30⟩))
            [varStmt "v" 50 "string", printlnStmt 70 [Expr.ident ⟨"v", 82⟩]]
            (some (Stmt.blockStmt
              [Stmt.assignStmt [Expr.ident ⟨"w", 100⟩] Token.DEFINE [Expr.ident ⟨"v", 105⟩],
                printlnStmt 110 [Expr.ident ⟨"w", 122⟩]])),
          Stmt.assignStmt [Expr.ident ⟨"v", 130⟩, Expr.ident ⟨"y", 133⟩] Token.DEFINE
            [Expr.callExpr (Expr.ident ⟨"g", 138⟩) []]] = [] := by
  refine ⟨fun ti s c v r hr hx hs => readsName_usedAt ti s c v r hr hx hs, ?_,
    by decide, by decide, by decide⟩
  intro ti s d r hd
  have hstep := step_processStatement ti s d
  obtain ⟨x, hx, hxu⟩ := usedAt_iff.mp hd
  exact ⟨hstep.usedAt hd, hstep.silent hx (Or.inl hxu)⟩

/-- C5, the code at the failing input.  A plain `=` assignment with the bare identifier
`v` among its targets marks the record that the scope maps `v` to at that moment.  The
case clauses of a switch share one scope, so in
`var v int; switch x { case 1: var v string; _ = v; case 2: v = 5 }; v, y := g()` with
type information that is right (only `y` is new), the assignment to the outer `v` in the
second clause is looked up in a scope that still maps `v` to the record of the first
clause: the record of the outer declaration stays unused and the rebind after the switch
reports it (record 0, position 10).  Without the declaration in the first clause, or with
the two clauses written as the arms of an `if`/`else`, the same assignment marks the outer
record and nothing is reported. -/
theorem assign_in_case_clause_not_counted :
    (∀ (ti : TypesInfo) (lhs rhs : List Expr) (c : State) (v : Ident) (r : Nat),
        c.vars v.name = some r → (∃ x, c.heap[r]? = some x) → Expr.ident v ∈ lhs →
          usedAt (processStatement ti (Stmt.assignStmt lhs Token.ASSIGN rhs) c) r = true) ∧
      analyzeFunc (some fun id => decide (id.name = "y"))
        [varStmt "v" 10 "int",
          Stmt.switchStmt none (some (Expr.ident ⟨"x", 30⟩))
            [Stmt.caseClause [Expr.basicLit "1"]
                [varStmt "v" 50 "string",
                  Stmt.assignStmt [Expr.ident ⟨"_", 70⟩] Token.ASSIGN [Expr.ident ⟨"v", 74⟩]],
              Stmt.caseClause [Expr.basicLit "2"]
                [Stmt.assignStmt [Expr.ident ⟨"v", 100⟩] Token.ASSIGN [Expr.basicLit "5"]]],
          Stmt.assignStmt [Expr.ident ⟨"v", 130⟩, Expr.ident ⟨"y", 133⟩] Token.DEFINE
            [Expr.callExpr (Expr.ident ⟨"g", 138⟩) []]] =
        [{ confidence := 1, node := 0, failure := message "v", position := 10 }] ∧
      analyzeFunc (some fun id => decide (id.name = "y"))
        [varStmt "v" 10 "int",
          Stmt.switchStmt none (some (Expr.ident ⟨"x", 30⟩))
            [Stmt.caseClause [Expr.basicLit "1"] [printlnStmt 70 [Expr.basicLit "1"]],
              Stmt.caseClause [Expr.basicLit "2"]
                [Stmt.assignStmt [Expr.ident ⟨"v", 100⟩] Token.ASSIGN [Expr.basicLit "5"]]],
          Stmt.assignStmt [Expr.ident ⟨"v", 130⟩, Expr.ident ⟨"y", 133⟩] Token.DEFINE
            [Expr.callExpr (Expr.ident ⟨"g", 138⟩) []]] = [] ∧
      analyzeFunc (some fun id => decide (id.name = "y"))
        [varStmt "v" 10 "int",
          Stmt.ifStmt none (some (Expr.ident ⟨"x", 30⟩))
            [varStmt "v" 50 "string",
              Stmt.assignStmt [Expr.ident ⟨"_", 70⟩] Token.ASSIGN [Expr.ident ⟨"v", 74⟩]]
            (some (Stmt.blockStmt
              [Stmt.assignStmt [Expr.ident ⟨"v", 100⟩] Token.ASSIGN [Expr.basicLit "5"]])),
          Stmt.assignStmt [Expr.ident ⟨"v", 130⟩, Expr.ident ⟨"y", 133⟩] Token.DEFINE
            [Expr.callExpr (Expr.ident ⟨"g", 138⟩) []]] = [] := by
  refine ⟨?_, by decide, by decide, by decide⟩
  intro ti lhs rhs c v r hr hx hl
  have h : processStatement ti (Stmt.assignStmt lhs Token.ASSIGN rhs) c =
      markAssigned lhs (markUsedInExpr rhs c) := by
    simp [processStatement]
  rw [h]
  apply markAssigned_usedAt lhs _ v r hl
  · rw [markUsedInExpr_vars]; exact hr
  · exact (walkRel_step.on_markUsedInExpr rhs c).live hx

end Revive
